import Mathlib

/-!
# ShibaSync native audio player: jitter buffer, prebuffering and rendering

A shallow embedding of `app/src/main/cpp/OboeAudioPlayer.cpp` and a verification of the
properties its specification states.

Conventions of the embedding

* The player object is the record `OboeAudioPlayer`; every member function is a function on that
  record with the same name.  The audio stream owned by the Oboe library is kept only as the
  flag `stream` (is the pointer non-null); what the library decides (does `openStream` succeed)
  and what the clock returns are arguments of the functions that ask for them.
* `int32_t` and `int64_t` values are mathematical integers.  C++ `/` and `%` are `Int.tdiv` and
  `Int.tmod` (rounding toward zero).  The product `numFrames * 1000` of `addAudioData`, whose
  operand is chosen by the caller, and the narrowing of a clock difference are reduced with
  `wrap32`.  The increments of the 32-bit counters `underrunCount` and `prebufferingCallbacks`
  are reduced with `wrap32` as well.  The other event counters (`totalCallbacks`,
  `chunksAdded`, `chunksConsumed`, `totalFramesWritten`) and products of offsets inside one
  render call are not reduced: there the model is exact as long as they stay inside their width.
* A function returns `none` where the C++ code has no defined result: a read or write outside a
  buffer, a division by zero, a negative size given to `resize`; the drain loop also returns
  `none` if its iteration budget runs out (the theorems show that it never does).
* `float` is the type `F32`, binary32 with round-to-nearest-even.
* The output buffer of a render call is a list of cells, `none` for a cell the call has not
  written and `some v` for a cell holding the sample `v`.
-/

/-! ## binary32 arithmetic -/

/-- A binary32 value.  `fin neg m e` denotes `(-1)^neg * m * 2^e`; a value may have several such
representations, the operations below depend on the denoted value only. -/
inductive F32 where
  | fin (neg : Bool) (m : Nat) (e : Int)
  | inf (neg : Bool)
  | nan
deriving DecidableEq, Repr

namespace F32

/-- Number of binary digits of `n`, computed with `f` halving steps at most. -/
def bitLenAux : Nat → Nat → Nat
  | 0, _ => 0
  | f + 1, n => if n = 0 then 0 else bitLenAux f (n / 2) + 1

/-- Number of binary digits of `n` (`0` for `0`). -/
def bitLen (n : Nat) : Nat := bitLenAux n n

/-- The quotient `n / 2^d` rounded to nearest, ties to even. -/
def roundNE (n d : Nat) : Nat :=
  if 2 ^ d < 2 * (n % 2 ^ d) ∨ (2 * (n % 2 ^ d) = 2 ^ d ∧ (n / 2 ^ d) % 2 = 1) then n / 2 ^ d + 1
  else n / 2 ^ d

/-- Rounding of the exact value `(-1)^neg * n * 2^e` to binary32: 24 significant bits, least
exponent `-149`, overflow to infinity. -/
def round (neg : Bool) (n : Nat) (e : Int) : F32 :=
  let d := max (bitLen n - 24) (-149 - e).toNat
  let m := roundNE n d
  if 128 < (bitLen m : Int) + (e + d) then inf neg else fin neg m (e + d)

/-- Conversion of an integer to `float`. -/
def ofInt (i : Int) : F32 := round (decide (i < 0)) i.natAbs 0

/-- The integer `(-1)^neg * m * 2^(e - base)`, for `base ≤ e`. -/
def scaled (neg : Bool) (m : Nat) (e base : Int) : Int :=
  if neg then -((m * 2 ^ (e - base).toNat : Nat) : Int) else ((m * 2 ^ (e - base).toNat : Nat) : Int)

/-- Product of two `float` values. -/
def mul : F32 → F32 → F32
  | fin s a ea, fin t b eb => round (s != t) (a * b) (ea + eb)
  | fin s a _, inf t => if a = 0 then nan else inf (s != t)
  | inf s, fin t b _ => if b = 0 then nan else inf (s != t)
  | inf s, inf t => inf (s != t)
  | _, _ => nan

/-- Sum of two `float` values. -/
def add : F32 → F32 → F32
  | fin s a ea, fin t b eb =>
      let z := scaled s a ea (min ea eb) + scaled t b eb (min ea eb)
      if z = 0 then fin (s && t) 0 (min ea eb) else round (decide (z < 0)) z.natAbs (min ea eb)
  | fin _ _ _, inf t => inf t
  | inf s, fin _ _ _ => inf s
  | inf s, inf t => if s = t then inf s else nan
  | _, _ => nan

/-- The comparison `a < b` of C++ (false when an operand is NaN). -/
def lt : F32 → F32 → Bool
  | fin s a ea, fin t b eb => decide (scaled s a ea (min ea eb) < scaled t b eb (min ea eb))
  | fin _ _ _, inf t => !t
  | inf s, fin _ _ _ => s
  | inf s, inf t => s && !t
  | _, _ => false

/-- The comparison `a <= b` of C++ (false when an operand is NaN). -/
def le : F32 → F32 → Bool
  | fin s a ea, fin t b eb => decide (scaled s a ea (min ea eb) ≤ scaled t b eb (min ea eb))
  | fin _ _ _, inf t => !t
  | inf s, fin _ _ _ => s
  | inf s, inf t => s || !t
  | _, _ => false

/-- Truncation toward zero of a finite value (`0` for infinities and NaN). -/
def trunc : F32 → Int
  | fin s m e =>
      if s then -(((if 0 ≤ e then m * 2 ^ e.toNat else m / 2 ^ (-e).toNat) : Nat) : Int)
      else (((if 0 ≤ e then m * 2 ^ e.toNat else m / 2 ^ (-e).toNat) : Nat) : Int)
  | _ => 0

/-- The `float` `0.0f`. -/
def zero : F32 := fin false 0 0

/-- The `float` `1.0f`. -/
def one : F32 := fin false 1 0

/-- The `float` `0.5f`. -/
def half : F32 := fin false 1 (-1)

/-- The `float` `20.0f`. -/
def twenty : F32 := fin false 20 0

/-- The `float` nearest to `0.99`, bit pattern `0x3F7D70A4`. -/
def c099 : F32 := fin false 16609444 (-24)

/-- The `float` nearest to `0.01`, bit pattern `0x3C23D70A`. -/
def c001 : F32 := fin false 10737418 (-30)

/-- The `float` nearest to `0.9`, bit pattern `0x3F666666`. -/
def c09 : F32 := fin false 15099494 (-24)

/-- The `float` nearest to `0.1`, bit pattern `0x3DCCCCCD`. -/
def c01 : F32 := fin false 13421773 (-27)

/-- The function `std::clamp(v, lo, hi)`. -/
def clamp (v lo hi : F32) : F32 := if lt v lo then lo else if lt hi v then hi else v

end F32

/-! ## Machine integers -/

/-- Reduction of an integer to the signed 16-bit range. -/
def wrap16 (x : Int) : Int := (x + 32768) % 65536 - 32768

/-- Reduction of an integer to the signed 32-bit range. -/
def wrap32 (x : Int) : Int := (x + 2147483648) % 4294967296 - 2147483648

/-- The conversion `static_cast<int16_t>(x)` of a `float`.  It truncates toward zero; outside the
16-bit range, where C++ leaves the result undefined, the model reduces the truncation. -/
def toInt16 (x : F32) : Int := wrap16 x.trunc

/-- The 16-bit little-endian sample stored in two bytes. -/
def int16LE (lo hi : Int) : Int := wrap16 (lo % 256 + 256 * (hi % 256))

/-- The samples that `memcpy` lays over a byte buffer, two bytes per sample. -/
def samplesOfBytes : List Int → List Int
  | lo :: hi :: rest => int16LE lo hi :: samplesOfBytes rest
  | _ => []

/-! ## Data model -/

/-- The struct `AudioChunk`: interleaved samples and the number of frames. -/
structure AudioChunk where
  data : List Int
  frameCount : Int
deriving DecidableEq, Repr

/-- The state of the class `OboeAudioPlayer`. -/
structure OboeAudioPlayer where
  stream : Bool
  audioQueue : List AudioChunk
  currentChunk : AudioChunk
  currentFrameIndex : Int
  underrunCount : Int
  bufferSize : Int
  isPlaying : Bool
  isPrebuffering : Bool
  totalCallbacks : Int
  prebufferingCallbacks : Int
  totalFramesWritten : Int
  startTimeMs : Int
  chunksConsumed : Int
  chunksAdded : Int
  lastChunkTimeMs : Int
  smoothedChunkInterval : F32
  volumeLevel : F32
  configuredSampleRate : Int
  configuredChannelCount : Int
  estimatedChunkMs : Int
deriving DecidableEq, Repr

/-- The output buffer of one render call: `none` marks a cell not written by the call. -/
abbrev Buffer := List (Option Int)

/-- The state of the drain loop of `onAudioReady`: the player, the local `framesWritten` and the
output buffer. -/
structure DrainState where
  player : OboeAudioPlayer
  framesWritten : Int
  out : Buffer
deriving DecidableEq, Repr

namespace OboeAudioPlayer

/-- The constant `MAX_QUEUE_SIZE`. -/
def MAX_QUEUE_SIZE : Nat := 500

/-- The constant `TARGET_PREBUFFER_MS`. -/
def TARGET_PREBUFFER_MS : Int := 1000

/-- The constant `MIN_BUFFER_MS`. -/
def MIN_BUFFER_MS : Int := 700

/-- The player made by `new OboeAudioPlayer()`: the member initialisers of the class, every other
member zero. -/
def initial : OboeAudioPlayer where
  stream := false
  audioQueue := []
  currentChunk := ⟨[], 0⟩
  currentFrameIndex := 0
  underrunCount := 0
  bufferSize := 0
  isPlaying := false
  isPrebuffering := true
  totalCallbacks := 0
  prebufferingCallbacks := 0
  totalFramesWritten := 0
  startTimeMs := 0
  chunksConsumed := 0
  chunksAdded := 0
  lastChunkTimeMs := 0
  smoothedChunkInterval := F32.twenty
  volumeLevel := F32.one
  configuredSampleRate := 48000
  configuredChannelCount := 2
  estimatedChunkMs := 20

end OboeAudioPlayer

/-! ## Buffer access -/

/-- A read of `data[i]`; `none` outside the vector. -/
def readAt (data : List Int) (i : Int) : Option Int :=
  if 0 ≤ i ∧ i < data.length then data.get? i.toNat else none

/-- A write of `out[i] = v`; `none` outside the buffer. -/
def writeAt (out : Buffer) (i : Int) (v : Int) : Option Buffer :=
  if 0 ≤ i ∧ i < out.length then some (out.set i.toNat (some v)) else none

/-- The call `std::fill_n(out + off, count, v)`, one write per element. -/
def fill_n : Nat → Buffer → Int → Int → Option Buffer
  | 0, out, _, _ => some out
  | count + 1, out, off, v =>
      match writeAt out off v with
      | none => none
      | some out1 => fill_n count out1 (off + 1) v

/-- The element loop shared by `std::copy_n` and the gain loop:
`out[dstOff + i] = f (src[srcOff + i])` for `i < count`. -/
def copyLoop (f : Int → Int) (src : List Int) : Nat → Buffer → Int → Int → Option Buffer
  | 0, out, _, _ => some out
  | count + 1, out, srcOff, dstOff =>
      match readAt src srcOff with
      | none => none
      | some v =>
          match writeAt out dstOff (f v) with
          | none => none
          | some out1 => copyLoop f src count out1 (srcOff + 1) (dstOff + 1)

/-- The sample written by the gain loop: `static_cast<int16_t>(sample * currentVolume)`. -/
def scaleSample (currentVolume : F32) (sample : Int) : Int :=
  toInt16 (F32.mul (F32.ofInt sample) currentVolume)

/-- The copy of `samplesToCopy` samples under the three gain regimes of `onAudioReady`. -/
def copyWithVolume (currentVolume : F32) (src : List Int) (samplesToCopy : Int) (out : Buffer)
    (sourceOffset destOffset : Int) : Option Buffer :=
  if F32.le F32.c099 currentVolume then
    copyLoop id src samplesToCopy.toNat out sourceOffset destOffset
  else if F32.le currentVolume F32.c001 then
    fill_n samplesToCopy.toNat out destOffset 0
  else
    copyLoop (scaleSample currentVolume) src samplesToCopy.toNat out sourceOffset destOffset

/-! ## The render callback -/

namespace OboeAudioPlayer

/-- The underrun policy of `onAudioReady` (the statements after the silence fill of the
empty-queue branch): count the underrun and decide whether to go back to prebuffering.  The
counter is a `std::atomic<int32_t>`: its increment wraps. -/
def underrunPolicy (p : OboeAudioPlayer) : OboeAudioPlayer :=
  let p1 := { p with underrunCount := wrap32 (p.underrunCount + 1) }
  let currentBufferMs : Int := (p1.audioQueue.length : Int) * p1.estimatedChunkMs
  if p1.audioQueue.length = 0 ∧ Int.tmod p1.underrunCount 10 = 0 then
    { p1 with isPrebuffering := true, prebufferingCallbacks := 0 }
  else if currentBufferMs < MIN_BUFFER_MS ∧ Int.tmod p1.underrunCount 50 = 0 then
    { p1 with isPrebuffering := true, prebufferingCallbacks := 0 }
  else p1

/-- The empty-queue branch of the drain loop: fill the rest of the output with zeros, apply the
underrun policy and set `framesWritten = numFrames`. -/
def underrunBranch (channelCount numFrames : Int) (st : DrainState) : Option DrainState :=
  match fill_n ((numFrames - st.framesWritten) * channelCount).toNat st.out
      (st.framesWritten * channelCount) 0 with
  | none => none
  | some out1 => some ⟨underrunPolicy st.player, numFrames, out1⟩

/-- The second half of the loop body: the bounds check, the copy with volume and the advance of
the cursor, or the discard of the chunk when the check fails. -/
def copyPart (channelCount numFrames : Int) (st : DrainState) : Option DrainState :=
  let p := st.player
  let framesToCopy := min (numFrames - st.framesWritten) (p.currentChunk.frameCount - p.currentFrameIndex)
  let samplesToCopy := framesToCopy * channelCount
  let sourceOffset := p.currentFrameIndex * channelCount
  let destOffset := st.framesWritten * channelCount
  if 0 ≤ sourceOffset ∧ 0 < samplesToCopy ∧
      sourceOffset + samplesToCopy ≤ (p.currentChunk.data.length : Int) ∧
      destOffset + samplesToCopy ≤ numFrames * channelCount then
    match copyWithVolume p.volumeLevel p.currentChunk.data samplesToCopy st.out sourceOffset destOffset with
    | none => none
    | some out1 =>
        some ⟨{ p with currentFrameIndex := p.currentFrameIndex + framesToCopy },
          st.framesWritten + framesToCopy, out1⟩
  else
    some { st with player := { p with currentFrameIndex := p.currentChunk.frameCount } }

/-- One iteration of the drain loop.  The flag of the result is `true` when the iteration leaves
the loop through `break` (the empty-queue branch). -/
def drainStep (channelCount numFrames : Int) (st : DrainState) : Option (DrainState × Bool) :=
  let p := st.player
  if p.currentChunk.frameCount ≤ p.currentFrameIndex then
    match p.audioQueue with
    | c :: rest =>
        (copyPart channelCount numFrames
          { st with player := { p with
              currentChunk := c, audioQueue := rest, currentFrameIndex := 0,
              chunksConsumed := p.chunksConsumed + 1, bufferSize := (rest.length : Int) } }).map
          fun st1 => (st1, false)
    | [] => (underrunBranch channelCount numFrames st).map fun st1 => (st1, true)
  else
    (copyPart channelCount numFrames st).map fun st1 => (st1, false)

/-- The loop `while (framesWritten < numFrames)` with a budget of iterations; `none` when the
budget runs out or an iteration has no defined result. -/
def drainLoop (channelCount numFrames : Int) : Nat → DrainState → Option (DrainState × Bool)
  | 0, st => if st.framesWritten < numFrames then none else some (st, false)
  | fuel + 1, st =>
      if st.framesWritten < numFrames then
        match drainStep channelCount numFrames st with
        | none => none
        | some (st1, true) => some (st1, true)
        | some (st1, false) => drainLoop channelCount numFrames fuel st1
      else some (st, false)

/-- The statements of `onAudioReady` before the lock: count the callback and record the start
time on the first callback made while playing. -/
def prologue (p : OboeAudioPlayer) (now : Int) : OboeAudioPlayer :=
  let p1 := { p with totalCallbacks := p.totalCallbacks + 1 }
  if p1.startTimeMs = 0 ∧ p1.isPrebuffering = false then { p1 with startTimeMs := now } else p1

/-- The stall timeout of the prebuffering block.  The counter is a `std::atomic<int32_t>`: its
increment wraps. -/
def prebufferTimeout (p : OboeAudioPlayer) : OboeAudioPlayer :=
  let p1 := { p with prebufferingCallbacks := wrap32 (p.prebufferingCallbacks + 1) }
  if 1000 < p1.prebufferingCallbacks ∧ p1.audioQueue.length = 0 then
    { p1 with isPrebuffering := false, prebufferingCallbacks := 0 }
  else p1

/-- The local `totalBufferMs` of the prebuffering block. -/
def totalBufferMs (p : OboeAudioPlayer) : Int := (p.audioQueue.length : Int) * p.estimatedChunkMs

/-- The state with which the prebuffering block falls through to the drain loop once the
target is reached. -/
def prebufferComplete (p : OboeAudioPlayer) (now : Int) : OboeAudioPlayer :=
  { p with isPrebuffering := false, prebufferingCallbacks := 0, startTimeMs := now,
           totalFramesWritten := 0 }

/-- The statements of `onAudioReady` after the drain loop: count the frames while playing. -/
def epilogue (p : OboeAudioPlayer) (numFrames : Int) : OboeAudioPlayer :=
  if p.isPrebuffering = false then { p with totalFramesWritten := p.totalFramesWritten + numFrames }
  else p

/-- The output buffer handed to a render call: `numFrames * channelCount` unwritten cells. -/
def blank (channelCount numFrames : Int) : Buffer :=
  List.replicate (numFrames * channelCount).toNat none

/-- The drain loop and what follows it, from the player state `p` at loop entry.  The budget
`audioQueue.length + 2` is never used up. -/
def drain (p : OboeAudioPlayer) (channelCount numFrames : Int) : Option (OboeAudioPlayer × Buffer) :=
  match drainLoop channelCount numFrames (p.audioQueue.length + 2)
      ⟨p, 0, blank channelCount numFrames⟩ with
  | none => none
  | some (st, _) => some (epilogue st.player numFrames, st.out)

/-- The callback `onAudioReady(audioStream, audioData, numFrames)`, where `channelCount` is
`audioStream->getChannelCount()` and `now` the reading of the clock.  The result is the new
player state and the output buffer. -/
def onAudioReady (p : OboeAudioPlayer) (channelCount numFrames now : Int) :
    Option (OboeAudioPlayer × Buffer) :=
  let p1 := prologue p now
  if p1.isPrebuffering then
    let p2 := prebufferTimeout p1
    if totalBufferMs p2 < TARGET_PREBUFFER_MS then
      match fill_n (numFrames * channelCount).toNat (blank channelCount numFrames) 0 0 with
      | none => none
      | some out => some (p2, out)
    else drain (prebufferComplete p2 now) channelCount numFrames
  else drain p1 channelCount numFrames

end OboeAudioPlayer

/-! ## Submission and session control -/

namespace OboeAudioPlayer

/-- The loop `while (audioQueue.size() >= MAX_QUEUE_SIZE) audioQueue.pop()`. -/
def evictOldest : List AudioChunk → List AudioChunk
  | [] => []
  | c :: rest => if MAX_QUEUE_SIZE ≤ (c :: rest).length then evictOldest rest else c :: rest

/-- The chunk that `addAudioData` builds from the first `length` bytes of the array. -/
def buildChunk (bytes : List Int) (length channelCount : Int) : AudioChunk where
  data := samplesOfBytes (bytes.take length.toNat)
  frameCount := Int.tdiv (Int.tdiv length 2) channelCount

/-- The update of `estimatedChunkMs` made by `addAudioData` for a chunk of `numFrames` frames. -/
def updateEstimate (p : OboeAudioPlayer) (numFrames : Int) : OboeAudioPlayer :=
  let chunkDurationMs := Int.tdiv (wrap32 (numFrames * 1000)) p.configuredSampleRate
  if 0 < p.chunksAdded ∧ 5 < chunkDurationMs ∧ chunkDurationMs < 50 then
    { p with estimatedChunkMs := Int.tdiv (p.estimatedChunkMs * 9 + chunkDurationMs) 10 }
  else p

/-- The update of the arrival-interval statistics made by `addAudioData`. -/
def updateInterval (p : OboeAudioPlayer) (currentTime : Int) : OboeAudioPlayer :=
  let p1 :=
    if 0 < p.lastChunkTimeMs then
      let interval := wrap32 (currentTime - p.lastChunkTimeMs)
      if 0 < interval ∧ interval < 1000 then
        { p with smoothedChunkInterval :=
            F32.add (F32.mul p.smoothedChunkInterval F32.c09) (F32.mul (F32.ofInt interval) F32.c01) }
      else p
    else p
  { p1 with lastChunkTimeMs := currentTime }

/-- The locked block of `addAudioData`: evict while the queue is full, push, update counters. -/
def pushChunk (p : OboeAudioPlayer) (chunk : AudioChunk) : OboeAudioPlayer :=
  { p with audioQueue := evictOldest p.audioQueue ++ [chunk],
           chunksAdded := p.chunksAdded + 1,
           bufferSize := ((evictOldest p.audioQueue ++ [chunk]).length : Int) }

/-- The function `addAudioData(env, audioData, length)`: `bytes` is the content of the Java array
and `now` the reading of the clock.  The result is the new state and the returned boolean. -/
def addAudioData (p : OboeAudioPlayer) (bytes : List Int) (length now : Int) :
    Option (OboeAudioPlayer × Bool) :=
  if p.stream = false ∨ p.isPlaying = false then some (p, false)
  else if p.configuredChannelCount = 0 then none
  else if Int.tmod length (2 * p.configuredChannelCount) ≠ 0 then some (p, false)
  else if length < 0 ∨ (bytes.length : Int) < length then none
  else if p.configuredSampleRate = 0 then none
  else
    let chunk := buildChunk bytes length p.configuredChannelCount
    some (pushChunk (updateInterval (updateEstimate p chunk.frameCount) now) chunk, true)

/-- The function `createStream(sampleRate, channelCount)`; `openOk` tells whether the library
opened the stream, and the stream pointer is non-null afterwards exactly in that case. -/
def createStream (p : OboeAudioPlayer) (sampleRate channelCount : Int) (openOk : Bool) :
    OboeAudioPlayer × Bool :=
  let p1 := { p with configuredSampleRate := sampleRate, configuredChannelCount := channelCount }
  if openOk then
    ({ p1 with stream := true, totalFramesWritten := 0, chunksConsumed := 0, chunksAdded := 0,
               startTimeMs := 0, underrunCount := 0, currentFrameIndex := 0,
               currentChunk := ⟨[], 0⟩, lastChunkTimeMs := 0,
               smoothedChunkInterval := F32.twenty, estimatedChunkMs := 20 }, true)
  else ({ p1 with stream := false }, false)

/-- The callback `onErrorAfterClose`: while playing, the stream is opened again. -/
def onErrorAfterClose (p : OboeAudioPlayer) (openOk : Bool) : OboeAudioPlayer :=
  if p.isPlaying then { p with stream := openOk } else p

/-- The function `start()`. -/
def start (p : OboeAudioPlayer) : OboeAudioPlayer :=
  { p with isPlaying := true, isPrebuffering := true }

/-- The function `pause()`: it acts on the stream only. -/
def pause (p : OboeAudioPlayer) : OboeAudioPlayer := p

/-- The function `clearQueue()`. -/
def clearQueue (p : OboeAudioPlayer) : OboeAudioPlayer :=
  { p with audioQueue := [], currentChunk := ⟨[], 0⟩, currentFrameIndex := 0, bufferSize := 0 }

/-- The function `stop()`. -/
def stop (p : OboeAudioPlayer) : OboeAudioPlayer :=
  clearQueue { p with isPlaying := false, isPrebuffering := true }

/-- The getter `getBufferSize()`. -/
def getBufferSize (p : OboeAudioPlayer) : Int := p.bufferSize

/-- The getter `getUnderrunCount()`. -/
def getUnderrunCount (p : OboeAudioPlayer) : Int := p.underrunCount

/-- The function `setVolume(volume)`. -/
def setVolume (p : OboeAudioPlayer) (volume : F32) : OboeAudioPlayer × Bool :=
  ({ p with volumeLevel := F32.clamp volume F32.zero F32.one }, true)

end OboeAudioPlayer

/-! ## Runs of operations -/

/-- One call made on the player from outside, with the values the environment supplies. -/
inductive Op where
  | createStream (sampleRate channelCount : Int) (openOk : Bool)
  | addAudioData (bytes : List Int) (length now : Int)
  | onAudioReady (channelCount numFrames now : Int)
  | onErrorAfterClose (openOk : Bool)
  | start
  | pause
  | stop
  | clearQueue
  | setVolume (volume : F32)
deriving DecidableEq, Repr

namespace OboeAudioPlayer

/-- The state after one call; `none` when the call has no defined result.  The two callbacks
are made by an open stream only. -/
def step (p : OboeAudioPlayer) : Op → Option OboeAudioPlayer
  | .createStream sr cc ok => some (p.createStream sr cc ok).1
  | .addAudioData bytes length now => (p.addAudioData bytes length now).map Prod.fst
  | .onAudioReady cc n now => if p.stream then (p.onAudioReady cc n now).map Prod.fst else none
  | .onErrorAfterClose ok => if p.stream then some (p.onErrorAfterClose ok) else none
  | .start => some p.start
  | .pause => some p.pause
  | .stop => some p.stop
  | .clearQueue => some p.clearQueue
  | .setVolume v => some (p.setVolume v).1

/-- The state after a sequence of calls. -/
def run (p : OboeAudioPlayer) : List Op → Option OboeAudioPlayer
  | [] => some p
  | op :: ops =>
      match p.step op with
      | none => none
      | some p1 => run p1 ops

/-- A state is reachable when some sequence of calls leads to it from the initial player. -/
def Reachable (p : OboeAudioPlayer) : Prop := ∃ ops : List Op, run initial ops = some p

end OboeAudioPlayer

/-! ## Specification-level notions -/

/-- The sample transformation of the three gain regimes: the identity at `0.99f` and above,
zero at `0.01f` and below, the scaled and truncated product between. -/
def gainMap (currentVolume : F32) : Int → Int :=
  if F32.le F32.c099 currentVolume then id
  else if F32.le currentVolume F32.c001 then fun _ => 0
  else scaleSample currentVolume

namespace OboeAudioPlayer

/-- The chunk invariant of the data model for the channel count `cc`. -/
def ChunkOk (cc : Int) (c : AudioChunk) : Prop := c.frameCount * cc = (c.data.length : Int)

/-- Every chunk held by the player, in the cursor or in the queue, satisfies the invariant. -/
def ChunksOk (cc : Int) (p : OboeAudioPlayer) : Prop :=
  ChunkOk cc p.currentChunk ∧ ∀ c ∈ p.audioQueue, ChunkOk cc c

/-- The samples of the queued chunks in playback order. -/
def queuedSamples : List AudioChunk → List Int
  | [] => []
  | c :: rest => c.data ++ queuedSamples rest

/-- The stream still to play: the undrained remainder of the cursor chunk, then the queue. -/
def pending (channelCount : Int) (p : OboeAudioPlayer) : List Int :=
  p.currentChunk.data.drop (p.currentFrameIndex * channelCount).toNat ++ queuedSamples p.audioQueue

/-- Iterations of the drain loop that do not leave it: `Steps cc n st st1` when the loop
started in `st` reaches `st1` at the head of an iteration. -/
inductive Steps (channelCount numFrames : Int) : DrainState → DrainState → Prop where
  | refl (st : DrainState) : Steps channelCount numFrames st st
  | step {st st1 st2 : DrainState} :
      st.framesWritten < numFrames →
      drainStep channelCount numFrames st = some (st1, false) →
      Steps channelCount numFrames st1 st2 → Steps channelCount numFrames st st2

/-- The invariant of the drain loop on the output: `framesWritten` frames are written at the
front of the buffer and the cells behind them are untouched. -/
def DrainInv (channelCount numFrames : Int) (st : DrainState) : Prop :=
  0 ≤ st.framesWritten ∧ st.framesWritten ≤ numFrames ∧
  ∃ w : List Int, (w.length : Int) = st.framesWritten * channelCount ∧
    st.out = w.map some ++ List.replicate ((numFrames - st.framesWritten) * channelCount).toNat none

/-- The members of the player that no iteration of the drain loop changes, unless it is the
iteration of the empty-queue branch. -/
def DrainFrame (p q : OboeAudioPlayer) : Prop :=
  q.stream = p.stream ∧ q.underrunCount = p.underrunCount ∧ q.isPlaying = p.isPlaying ∧
  q.isPrebuffering = p.isPrebuffering ∧ q.totalCallbacks = p.totalCallbacks ∧
  q.prebufferingCallbacks = p.prebufferingCallbacks ∧
  q.totalFramesWritten = p.totalFramesWritten ∧ q.startTimeMs = p.startTimeMs ∧
  q.chunksAdded = p.chunksAdded ∧ q.lastChunkTimeMs = p.lastChunkTimeMs ∧
  q.smoothedChunkInterval = p.smoothedChunkInterval ∧ q.volumeLevel = p.volumeLevel ∧
  q.configuredSampleRate = p.configuredSampleRate ∧
  q.configuredChannelCount = p.configuredChannelCount ∧ q.estimatedChunkMs = p.estimatedChunkMs

/-- The members of the player that a render call never changes. -/
def RenderFrame (p q : OboeAudioPlayer) : Prop :=
  q.stream = p.stream ∧ q.isPlaying = p.isPlaying ∧ q.chunksAdded = p.chunksAdded ∧
  q.lastChunkTimeMs = p.lastChunkTimeMs ∧ q.smoothedChunkInterval = p.smoothedChunkInterval ∧
  q.volumeLevel = p.volumeLevel ∧ q.configuredSampleRate = p.configuredSampleRate ∧
  q.configuredChannelCount = p.configuredChannelCount ∧ q.estimatedChunkMs = p.estimatedChunkMs

/-- The chunks of `q` come from the chunks of `p` in order: the queue of `q` is what is left
of the queue of `p` and the cursor chunk of `q` is the cursor chunk of `p` or one of its queued
chunks. -/
def ChunksFrom (p q : OboeAudioPlayer) : Prop :=
  (∃ k : Nat, q.audioQueue = p.audioQueue.drop k) ∧
  (q.currentChunk = p.currentChunk ∨ q.currentChunk ∈ p.audioQueue)

/-- The number of iterations the drain loop can still make from a state. -/
def drainMeasure (st : DrainState) : Nat :=
  st.player.audioQueue.length +
    (if st.player.currentChunk.frameCount ≤ st.player.currentFrameIndex then 0 else 1) + 1

/-- The invariant of the drain loop on well-formed chunks: the samples consumed so far are
written, transformed by the gain, at the front of the output, and followed by the pending
samples they make up the stream `stream` that was pending at loop entry. -/
def PendingInv (channelCount numFrames : Int) (stream : List Int) (vol : F32)
    (st : DrainState) : Prop :=
  0 ≤ st.framesWritten ∧ st.framesWritten ≤ numFrames ∧ st.player.volumeLevel = vol ∧
  ChunksOk channelCount st.player ∧ 0 ≤ st.player.currentFrameIndex ∧
  ∃ u : List Int, (u.length : Int) = st.framesWritten * channelCount ∧
    st.out = (u.map (gainMap vol)).map some ++
      List.replicate ((numFrames - st.framesWritten) * channelCount).toNat none ∧
    stream = u ++ pending channelCount st.player

end OboeAudioPlayer

/-! ## Example states -/

/-- A stereo chunk of `frames` frames whose samples count up from `base`. -/
def rampChunk (frames : Nat) (base : Int) : AudioChunk :=
  ⟨(List.range (2 * frames)).map (fun i => base + (i : Int)), (frames : Int)⟩

namespace OboeAudioPlayer

/-- A playing session at full volume with an empty cursor and two queued stereo chunks of 10
and 20 frames. -/
def drainScenario : OboeAudioPlayer :=
  { initial with stream := true, isPlaying := true, isPrebuffering := false,
                 audioQueue := [rampChunk 10 0, rampChunk 20 100] }

/-- A session created for 48 kHz stereo and started. -/
def startedSession : OboeAudioPlayer := (initial.createStream 48000 2 true).1.start

/-- The started session after the submission of one frame. -/
def oneChunkSession : OboeAudioPlayer :=
  ((startedSession.addAudioData [1, 0, 2, 0] 4 0).map Prod.fst).getD initial

/-- The session of one stereo chunk created again for one channel. -/
def recreatedSession : OboeAudioPlayer := (oneChunkSession.createStream 48000 1 true).1

/-- The two-chunk scenario with the gain set to `g`. -/
def gainScenario (g : F32) : OboeAudioPlayer := { drainScenario with volumeLevel := g }

/-- Fifty submissions of one stereo frame each. -/
def fiftyFrames : List Op := List.replicate 50 (Op.addAudioData [0, 0, 1, 0] 4 0)

/-- A session is created and started and receives fifty chunks of one frame. -/
def filledOps : List Op := [Op.createStream 48000 2 true, Op.start] ++ fiftyFrames

/-- The session after `filledOps`: prebuffering, with fifty queued chunks. -/
def filledSession : OboeAudioPlayer := (run initial filledOps).getD initial

end OboeAudioPlayer

/-! ## Notions of the later claims -/

namespace F32

/-- The function `std::max(a, b)`. -/
def fmax (a b : F32) : F32 := if lt a b then b else a

/-- The function `std::min(a, b)`. -/
def fmin (a b : F32) : F32 := if lt b a then b else a

/-- The value `min(max(x, 0.0), 1.0)` that the specification gives for the stored gain. -/
def clampSpec (x : F32) : F32 := fmin (fmax x zero) one

end F32

namespace OboeAudioPlayer

/-- The session of one queued chunk after one render call. -/
def countedSession : OboeAudioPlayer :=
  ((oneChunkSession.onAudioReady 2 1 0).map Prod.fst).getD initial

/-- The operations that lead to `countedSession`. -/
def countedOps : List Op :=
  [Op.createStream 48000 2 true, Op.start, Op.addAudioData [1, 0, 2, 0] 4 0,
    Op.onAudioReady 2 1 0]

end OboeAudioPlayer

namespace OboeAudioPlayer

/-- A session created for 8 kHz mono and started. -/
def monoSession : OboeAudioPlayer := (initial.createStream 8000 1 true).1.start

/-- A submission of 80 mono frames, 10 ms at 8 kHz. -/
def tenMsBytes : List Int := List.replicate 160 0

/-- The mono session after one submission of 10 ms. -/
def monoOnce : OboeAudioPlayer :=
  ((monoSession.addAudioData tenMsBytes 160 0).map Prod.fst).getD initial

/-- The mono session after two submissions of 10 ms. -/
def monoTwice : OboeAudioPlayer :=
  ((monoOnce.addAudioData tenMsBytes 160 0).map Prod.fst).getD initial

/-- The filled session plays its fifty frames and underruns ten times, which puts it back
into prebuffering. -/
def starvedOps : List Op := filledOps ++ List.replicate 10 (Op.onAudioReady 2 100 0)

/-- The session after `starvedOps`. -/
def starvedSession : OboeAudioPlayer := (run initial starvedOps).getD initial

/-- The starved session after 1000 more render calls without data. -/
def stalledSession : OboeAudioPlayer :=
  { starvedSession with
      totalCallbacks := starvedSession.totalCallbacks + ((1000 : Nat) : Int),
      prebufferingCallbacks := starvedSession.prebufferingCallbacks + ((1000 : Nat) : Int) }

end OboeAudioPlayer

namespace OboeAudioPlayer

/-- The underrun policy without the rule for a buffer that is low but not empty. -/
def underrunPolicyNoLow (p : OboeAudioPlayer) : OboeAudioPlayer :=
  let p1 := { p with underrunCount := wrap32 (p.underrunCount + 1) }
  if p1.audioQueue.length = 0 ∧ Int.tmod p1.underrunCount 10 = 0 then
    { p1 with isPrebuffering := true, prebufferingCallbacks := 0 }
  else p1

/-- The empty-queue branch with the policy `underrunPolicyNoLow`. -/
def underrunBranchNoLow (channelCount numFrames : Int) (st : DrainState) : Option DrainState :=
  match fill_n ((numFrames - st.framesWritten) * channelCount).toNat st.out
      (st.framesWritten * channelCount) 0 with
  | none => none
  | some out1 => some ⟨underrunPolicyNoLow st.player, numFrames, out1⟩

/-- One iteration of the drain loop with the policy `underrunPolicyNoLow`. -/
def drainStepNoLow (channelCount numFrames : Int) (st : DrainState) :
    Option (DrainState × Bool) :=
  let p := st.player
  if p.currentChunk.frameCount ≤ p.currentFrameIndex then
    match p.audioQueue with
    | c :: rest =>
        (copyPart channelCount numFrames
          { st with player := { p with
              currentChunk := c, audioQueue := rest, currentFrameIndex := 0,
              chunksConsumed := p.chunksConsumed + 1, bufferSize := (rest.length : Int) } }).map
          fun st1 => (st1, false)
    | [] => (underrunBranchNoLow channelCount numFrames st).map fun st1 => (st1, true)
  else
    (copyPart channelCount numFrames st).map fun st1 => (st1, false)

/-- The drain loop with the policy `underrunPolicyNoLow`. -/
def drainLoopNoLow (channelCount numFrames : Int) :
    Nat → DrainState → Option (DrainState × Bool)
  | 0, st => if st.framesWritten < numFrames then none else some (st, false)
  | fuel + 1, st =>
      if st.framesWritten < numFrames then
        match drainStepNoLow channelCount numFrames st with
        | none => none
        | some (st1, true) => some (st1, true)
        | some (st1, false) => drainLoopNoLow channelCount numFrames fuel st1
      else some (st, false)

/-- The drain of a render call with the policy `underrunPolicyNoLow`. -/
def drainNoLow (p : OboeAudioPlayer) (channelCount numFrames : Int) :
    Option (OboeAudioPlayer × Buffer) :=
  match drainLoopNoLow channelCount numFrames (p.audioQueue.length + 2)
      ⟨p, 0, blank channelCount numFrames⟩ with
  | none => none
  | some (st, _) => some (epilogue st.player numFrames, st.out)

/-- The render callback with the rule for a buffer that is low but not empty removed. -/
def onAudioReadyNoLow (p : OboeAudioPlayer) (channelCount numFrames now : Int) :
    Option (OboeAudioPlayer × Buffer) :=
  let p1 := prologue p now
  if p1.isPrebuffering then
    let p2 := prebufferTimeout p1
    if totalBufferMs p2 < TARGET_PREBUFFER_MS then
      match fill_n (numFrames * channelCount).toNat (blank channelCount numFrames) 0 0 with
      | none => none
      | some out => some (p2, out)
    else drainNoLow (prebufferComplete p2 now) channelCount numFrames
  else drainNoLow p1 channelCount numFrames

/-- A player with one queued chunk and 49 underruns counted. -/
def lowBufferScenario : OboeAudioPlayer :=
  { drainScenario with audioQueue := [rampChunk 1 0], underrunCount := 49 }

end OboeAudioPlayer

/-! ## The cursor and the work left to the drain loop -/

namespace OboeAudioPlayer

/-- The cursor invariant: `0 ≤ currentFrameIndex ≤ currentChunk.frameCount`. -/
def CursorOk (p : OboeAudioPlayer) : Prop :=
  0 ≤ p.currentFrameIndex ∧ p.currentFrameIndex ≤ p.currentChunk.frameCount

instance (p : OboeAudioPlayer) : Decidable (CursorOk p) := by
  unfold CursorOk
  infer_instance

/-- No queued chunk has a negative frame count. -/
def FramesNonneg (p : OboeAudioPlayer) : Prop := ∀ c ∈ p.audioQueue, 0 ≤ c.frameCount

instance (p : OboeAudioPlayer) : Decidable (FramesNonneg p) := by
  unfold FramesNonneg
  infer_instance

/-- The cursor invariant on a player whose queued chunks have frame counts that are not
negative. -/
def CursorInv (p : OboeAudioPlayer) : Prop := CursorOk p ∧ FramesNonneg p

instance (p : OboeAudioPlayer) : Decidable (CursorInv p) := by
  unfold CursorInv
  infer_instance

/-- The chunks the drain loop can still take up: the queued chunks, and the cursor chunk unless
it is exhausted. -/
def chunksLeft (p : OboeAudioPlayer) : Nat :=
  p.audioQueue.length + (if p.currentChunk.frameCount ≤ p.currentFrameIndex then 0 else 1)

/-- The number of iterations that the loop `while (framesWritten < numFrames)` makes from a
state, counted with a budget of iterations; `none` when the budget runs out or an iteration
has no defined result. -/
def drainIterations (channelCount numFrames : Int) : Nat → DrainState → Option Nat
  | 0, st => if st.framesWritten < numFrames then none else some 0
  | fuel + 1, st =>
      if st.framesWritten < numFrames then
        match drainStep channelCount numFrames st with
        | none => none
        | some (_, true) => some 1
        | some (st1, false) => (drainIterations channelCount numFrames fuel st1).map (· + 1)
      else some 0

/-- The two-chunk scenario after a render call of 25 stereo frames. -/
def drainedScenario : OboeAudioPlayer :=
  ((drainScenario.onAudioReady 2 25 0).map Prod.fst).getD initial

/-- A playing session whose first queued chunk records five frames but holds two samples. -/
def malformedScenario : OboeAudioPlayer :=
  { drainScenario with audioQueue := [⟨[1, 2], 5⟩, rampChunk 2 10] }

end OboeAudioPlayer

/-! ## The reported buffer size and the chunk estimate -/

namespace OboeAudioPlayer

/-- The reported buffered chunk count is the number of queued chunks. -/
def BufferExact (p : OboeAudioPlayer) : Prop := p.bufferSize = (p.audioQueue.length : Int)

instance (p : OboeAudioPlayer) : Decidable (BufferExact p) := by
  unfold BufferExact
  infer_instance

/-- The chunk estimate lies between 6 and 49. -/
def EstimateOk (p : OboeAudioPlayer) : Prop := 6 ≤ p.estimatedChunkMs ∧ p.estimatedChunkMs ≤ 49

instance (p : OboeAudioPlayer) : Decidable (EstimateOk p) := by
  unfold EstimateOk
  infer_instance

/-- The player has an open stream, is playing, and is configured for the given sample rate and
channel count: the state in which submissions are considered. -/
def Accepting (p : OboeAudioPlayer) (sampleRate channelCount : Int) : Prop :=
  p.stream = true ∧ p.isPlaying = true ∧ p.configuredSampleRate = sampleRate ∧
  p.configuredChannelCount = channelCount

instance (p : OboeAudioPlayer) (sampleRate channelCount : Int) :
    Decidable (Accepting p sampleRate channelCount) := by
  unfold Accepting
  infer_instance

/-- The local `chunkDurationMs` of `addAudioData` for a chunk of `numFrames` frames. -/
def chunkDurationMs (p : OboeAudioPlayer) (numFrames : Int) : Int :=
  Int.tdiv (wrap32 (numFrames * 1000)) p.configuredSampleRate

/-- A submission of 160 mono frames, 20 ms at 8 kHz. -/
def twentyMsBytes : List Int := List.replicate 320 0

/-- The mono session after eleven submissions of 10 ms. -/
def tenSession : OboeAudioPlayer :=
  (run monoOnce (List.replicate 10 (Op.addAudioData tenMsBytes 160 0))).getD initial

/-- The mono session after 500 submissions of 10 ms and no render call. -/
def fullSession : OboeAudioPlayer :=
  (run monoOnce (List.replicate 499 (Op.addAudioData tenMsBytes 160 0))).getD initial

end OboeAudioPlayer

/-! ## Starved sessions -/

namespace OboeAudioPlayer

/-- A session with an open stream that is prebuffering with an empty queue and an exhausted
cursor, with no prebuffering call counted yet and `u` underruns counted. -/
def Starving (p : OboeAudioPlayer) (u : Int) : Prop :=
  p.stream = true ∧ p.isPrebuffering = true ∧ p.audioQueue = [] ∧
  p.currentChunk.frameCount ≤ p.currentFrameIndex ∧ p.prebufferingCallbacks = 0 ∧
  p.underrunCount = u

instance (p : OboeAudioPlayer) (u : Int) : Decidable (Starving p u) := by
  unfold Starving
  infer_instance

/-- A session with an open stream that plays with an empty queue and an exhausted cursor, with
`u` underruns counted. -/
def StarvedPlaying (p : OboeAudioPlayer) (u : Int) : Prop :=
  p.stream = true ∧ p.isPrebuffering = false ∧ p.audioQueue = [] ∧
  p.currentChunk.frameCount ≤ p.currentFrameIndex ∧ p.underrunCount = u

instance (p : OboeAudioPlayer) (u : Int) : Decidable (StarvedPlaying p u) := by
  unfold StarvedPlaying
  infer_instance

end OboeAudioPlayer

/-! ## Buffer lemmas -/

theorem writeAt_append (a : Buffer) (b : Option Int) (c : Buffer) (v : Int) :
    writeAt (a ++ b :: c) (a.length : Int) v = some ((a ++ [some v]) ++ c) := by
  unfold writeAt
  have h1 : (0 : Int) ≤ (a.length : Int) := Int.ofNat_nonneg _
  have h2 : (a.length : Int) < ((a ++ b :: c).length : Int) := by
    simp only [List.length_append, List.length_cons]; omega
  rw [if_pos ⟨h1, h2⟩]
  simp [List.set_append_right]

/-- The fill of `k` cells that starts right behind `a` replaces exactly the `k` cells `b`. -/
theorem fill_n_append (v : Int) (k : Nat) :
    ∀ (a b c : Buffer), b.length = k →
      fill_n k (a ++ b ++ c) (a.length : Int) v = some (a ++ List.replicate k (some v) ++ c) := by
  induction k with
  | zero =>
      intro a b c hb
      have : b = [] := List.length_eq_zero.mp hb
      subst this
      simp [fill_n]
  | succ k ih =>
      intro a b c hb
      cases b with
      | nil => simp at hb
      | cons x b =>
          have hb1 : b.length = k := by simpa using hb
          have hw : writeAt (a ++ (x :: b) ++ c) (a.length : Int) v = some ((a ++ [some v]) ++ (b ++ c)) := by
            have := writeAt_append a x (b ++ c) v
            simpa using this
          simp only [fill_n, hw]
          have := ih (a ++ [some v]) b c hb1
          simp only [List.length_append, List.length_singleton, Nat.cast_add, Nat.cast_one] at this
          simp only [List.append_assoc] at this ⊢
          rw [this]
          simp [List.replicate_succ]

/-- A read at the position right behind the list `a` returns the element there. -/
theorem readAt_append (a : List Int) (x : Int) (c : List Int) :
    readAt (a ++ x :: c) (a.length : Int) = some x := by
  unfold readAt
  have h1 : (0 : Int) ≤ (a.length : Int) := Int.ofNat_nonneg _
  have h2 : (a.length : Int) < ((a ++ x :: c).length : Int) := by
    simp only [List.length_append, List.length_cons]; omega
  rw [if_pos ⟨h1, h2⟩, Int.toNat_ofNat, List.get?_eq_getElem?,
    List.getElem?_append_right (le_refl _)]
  simp

/-- The element loop that reads the segment `s2` and writes over the cells `b` replaces them
with the transformed segment. -/
theorem copyLoop_append (f : Int → Int) (k : Nat) :
    ∀ (s1 s2 s3 : List Int) (a b c : Buffer), s2.length = k → b.length = k →
      copyLoop f (s1 ++ s2 ++ s3) k (a ++ b ++ c) (s1.length : Int) (a.length : Int)
        = some (a ++ (s2.map f).map some ++ c) := by
  induction k with
  | zero =>
      intro s1 s2 s3 a b c hs hb
      have h1 : b = [] := List.length_eq_zero.mp hb
      have h2 : s2 = [] := List.length_eq_zero.mp hs
      subst h1; subst h2
      simp [copyLoop]
  | succ k ih =>
      intro s1 s2 s3 a b c hs hb
      cases b with
      | nil => simp at hb
      | cons y b =>
        cases s2 with
        | nil => simp at hs
        | cons x s2 =>
          have hb1 : b.length = k := by simpa using hb
          have hs1 : s2.length = k := by simpa using hs
          have hr : readAt (s1 ++ (x :: s2) ++ s3) (s1.length : Int) = some x := by
            have := readAt_append s1 x (s2 ++ s3)
            simpa using this
          have hw : writeAt (a ++ (y :: b) ++ c) (a.length : Int) (f x)
              = some ((a ++ [some (f x)]) ++ (b ++ c)) := by
            have := writeAt_append a y (b ++ c) (f x)
            simpa using this
          simp only [copyLoop, hr, hw]
          have := ih (s1 ++ [x]) s2 s3 (a ++ [some (f x)]) b c hs1 hb1
          simp only [List.length_append, List.length_singleton, Nat.cast_add, Nat.cast_one] at this
          simp only [List.append_assoc, List.singleton_append, List.cons_append,
            List.map_cons] at this ⊢
          exact this

/-- Zeros written over a segment are the segment mapped to zero. -/
theorem map_const_zero (l : List Int) :
    List.map some (List.map (fun _ => (0 : Int)) l) = List.replicate l.length (some 0) := by
  induction l with
  | nil => rfl
  | cons x l ih => simp [List.replicate_succ, ih]

/-- The copy of a checked range succeeds and writes the transformed samples right behind the
samples already written. -/
theorem copyWithVolume_ok (vol : F32) (src w : List Int) (k so : Int) (r : Nat)
    (hso : 0 ≤ so) (hk : 0 < k) (hsrc : so + k ≤ (src.length : Int)) (hr : k.toNat ≤ r) :
    copyWithVolume vol src k (w.map some ++ List.replicate r none) so (w.length : Int)
      = some ((w ++ ((src.drop so.toNat).take k.toNat).map (gainMap vol)).map some
          ++ List.replicate (r - k.toNat) none) := by
  obtain ⟨s1, s2, s3, hsplit, hl1, hl2⟩ :
      ∃ s1 s2 s3 : List Int, src = s1 ++ s2 ++ s3 ∧ (s1.length : Int) = so ∧ s2.length = k.toNat := by
    refine ⟨src.take so.toNat, (src.drop so.toNat).take k.toNat,
      (src.drop so.toNat).drop k.toNat, ?_, ?_, ?_⟩
    · simp [List.append_assoc]
    · rw [List.length_take]; omega
    · rw [List.length_take, List.length_drop]; omega
  have hseg : (src.drop so.toNat).take k.toNat = s2 := by
    have h1 : so.toNat = s1.length := by omega
    rw [hsplit, h1, List.append_assoc, List.drop_left, ← hl2, List.take_left]
  have hrep : (List.replicate r none : Buffer)
      = List.replicate k.toNat none ++ List.replicate (r - k.toNat) none := by
    rw [← List.replicate_add]; congr 1; omega
  have hwl : ((w.map some : Buffer).length : Int) = (w.length : Int) := by simp
  have hcopy : ∀ f : Int → Int,
      copyLoop f src k.toNat (w.map some ++ List.replicate r none) so (w.length : Int)
        = some ((w ++ s2.map f).map some ++ List.replicate (r - k.toNat) none) := by
    intro f
    have := copyLoop_append f k.toNat s1 s2 s3 (w.map some) (List.replicate k.toNat none)
      (List.replicate (r - k.toNat) none) hl2 (by simp)
    rw [hl1, hwl, ← hsplit, List.append_assoc, ← hrep] at this
    rw [this, List.map_append]
  rw [hseg]
  unfold copyWithVolume gainMap
  cases h1 : F32.le F32.c099 vol with
  | true =>
      simp only [if_true]
      exact hcopy id
  | false =>
      cases h2 : F32.le vol F32.c001 with
      | true =>
          simp only [Bool.false_eq_true, if_false, if_true]
          have := fill_n_append 0 k.toNat (w.map some) (List.replicate k.toNat none)
            (List.replicate (r - k.toNat) none) (by simp)
          rw [hwl, List.append_assoc, ← hrep] at this
          rw [this, List.map_append, map_const_zero, hl2]
      | false =>
          simp only [Bool.false_eq_true, if_false]
          exact hcopy (scaleSample vol)

/-! ## One iteration of the drain loop -/

namespace OboeAudioPlayer

/-- The bounds check of `copyPart` fails: the chunk is discarded, nothing else changes. -/
theorem copyPart_discard (cc n : Int) (st : DrainState)
    (h : ¬ (0 ≤ st.player.currentFrameIndex * cc ∧
      0 < min (n - st.framesWritten) (st.player.currentChunk.frameCount - st.player.currentFrameIndex) * cc ∧
      st.player.currentFrameIndex * cc +
        min (n - st.framesWritten) (st.player.currentChunk.frameCount - st.player.currentFrameIndex) * cc
          ≤ (st.player.currentChunk.data.length : Int) ∧
      st.framesWritten * cc +
        min (n - st.framesWritten) (st.player.currentChunk.frameCount - st.player.currentFrameIndex) * cc
          ≤ n * cc)) :
    copyPart cc n st = some { st with player :=
      { st.player with currentFrameIndex := st.player.currentChunk.frameCount } } := by
  unfold copyPart
  simp only [h, if_false]

/-- The bounds check of `copyPart` passes: the frames are copied behind the frames already
written and the cursor advances. -/
theorem copyPart_checked (cc n : Int) (st : DrainState) (w : List Int)
    (hw : (w.length : Int) = st.framesWritten * cc)
    (hout : st.out = w.map some ++ List.replicate ((n - st.framesWritten) * cc).toNat none)
    (h : 0 ≤ st.player.currentFrameIndex * cc ∧
      0 < min (n - st.framesWritten) (st.player.currentChunk.frameCount - st.player.currentFrameIndex) * cc ∧
      st.player.currentFrameIndex * cc +
        min (n - st.framesWritten) (st.player.currentChunk.frameCount - st.player.currentFrameIndex) * cc
          ≤ (st.player.currentChunk.data.length : Int) ∧
      st.framesWritten * cc +
        min (n - st.framesWritten) (st.player.currentChunk.frameCount - st.player.currentFrameIndex) * cc
          ≤ n * cc) :
    copyPart cc n st = some
      ⟨{ st.player with currentFrameIndex := (st.player.currentFrameIndex +
          min (n - st.framesWritten) (st.player.currentChunk.frameCount - st.player.currentFrameIndex)) },
        st.framesWritten +
          min (n - st.framesWritten) (st.player.currentChunk.frameCount - st.player.currentFrameIndex),
        (w ++ ((st.player.currentChunk.data.drop (st.player.currentFrameIndex * cc).toNat).take
            (min (n - st.framesWritten)
              (st.player.currentChunk.frameCount - st.player.currentFrameIndex) * cc).toNat).map
            (gainMap st.player.volumeLevel)).map some ++
          List.replicate ((n - (st.framesWritten +
            min (n - st.framesWritten)
              (st.player.currentChunk.frameCount - st.player.currentFrameIndex))) * cc).toNat none⟩ := by
  obtain ⟨h1, h2, h3, h4⟩ := h
  generalize hf : min (n - st.framesWritten)
    (st.player.currentChunk.frameCount - st.player.currentFrameIndex) = ftc at *
  have hle : ftc * cc ≤ (n - st.framesWritten) * cc := by
    have : (n - st.framesWritten) * cc = n * cc - st.framesWritten * cc := by ring
    omega
  have hcopy := copyWithVolume_ok st.player.volumeLevel st.player.currentChunk.data w (ftc * cc)
    (st.player.currentFrameIndex * cc) ((n - st.framesWritten) * cc).toNat h1 h2 h3 (by omega)
  have hrest : ((n - st.framesWritten) * cc).toNat - (ftc * cc).toNat
      = ((n - (st.framesWritten + ftc)) * cc).toNat := by
    have : (n - (st.framesWritten + ftc)) * cc = (n - st.framesWritten) * cc - ftc * cc := by ring
    omega
  unfold copyPart
  simp only [hf, h1, h2, h3, h4, and_self, if_true]
  rw [hout, ← hw, hcopy, hrest]

/-- Whatever `copyPart` does to the player, it only moves the cursor index. -/
theorem copyPart_player (cc n : Int) (st st1 : DrainState) (h : copyPart cc n st = some st1) :
    ∃ i : Int, st1.player = { st.player with currentFrameIndex := i } := by
  simp only [copyPart] at h
  split at h
  · split at h
    · exact absurd h (by simp)
    · simp only [Option.some.injEq] at h
      subst h
      exact ⟨_, rfl⟩
  · simp only [Option.some.injEq] at h
    subst h
    exact ⟨_, rfl⟩

/-- From a state that satisfies the loop invariant, `copyPart` has a result, the result
satisfies the invariant, and the cursor is exhausted unless the request is complete. -/
theorem copyPart_total (cc n : Int) (st : DrainState) (hcc : 1 ≤ cc)
    (hinv : DrainInv cc n st) :
    ∃ st1, copyPart cc n st = some st1 ∧ DrainInv cc n st1 ∧
      (st1.framesWritten < n →
        st1.player.currentChunk.frameCount ≤ st1.player.currentFrameIndex) := by
  obtain ⟨h0, hn, w, hw, hout⟩ := hinv
  by_cases h : (0 ≤ st.player.currentFrameIndex * cc ∧
      0 < min (n - st.framesWritten) (st.player.currentChunk.frameCount - st.player.currentFrameIndex) * cc ∧
      st.player.currentFrameIndex * cc +
        min (n - st.framesWritten) (st.player.currentChunk.frameCount - st.player.currentFrameIndex) * cc
          ≤ (st.player.currentChunk.data.length : Int) ∧
      st.framesWritten * cc +
        min (n - st.framesWritten) (st.player.currentChunk.frameCount - st.player.currentFrameIndex) * cc
          ≤ n * cc)
  · refine ⟨_, copyPart_checked cc n st w hw hout h, ?_, ?_⟩
    · obtain ⟨h1, h2, h3, h4⟩ := h
      have hmin := min_le_left (n - st.framesWritten)
        (st.player.currentChunk.frameCount - st.player.currentFrameIndex)
      generalize min (n - st.framesWritten)
        (st.player.currentChunk.frameCount - st.player.currentFrameIndex) = ftc at *
      have hpos : 0 < ftc := by
        by_contra hneg
        have : ftc * cc ≤ 0 := by nlinarith
        omega
      refine ⟨by simp only; omega, by simp only; omega, _, ?_, rfl⟩
      simp only [List.length_append, List.length_map, List.length_take, List.length_drop,
        Nat.cast_add]
      have : (st.framesWritten + ftc) * cc = st.framesWritten * cc + ftc * cc := by ring
      omega
    · intro hlt
      simp only at hlt ⊢
      rcases min_choice (n - st.framesWritten)
        (st.player.currentChunk.frameCount - st.player.currentFrameIndex) with hm | hm
      · rw [hm] at hlt; omega
      · rw [hm]; omega
  · refine ⟨_, copyPart_discard cc n st h, ⟨h0, hn, w, hw, hout⟩, ?_⟩
    intro _
    exact le_refl _

/-- The frame relation is reflexive. -/
theorem DrainFrame.drain_refl (p : OboeAudioPlayer) : DrainFrame p p := by
  simp [DrainFrame]

/-- The frame relation is transitive. -/
theorem DrainFrame.drain_trans {p q r : OboeAudioPlayer} (h1 : DrainFrame p q) (h2 : DrainFrame q r) :
    DrainFrame p r := by
  unfold DrainFrame at *
  simp only [h2, h1, and_self]

/-- What one iteration does to the player: an iteration that stays in the loop keeps the
members of the frame and either keeps the chunks or moves the head of the queue into the
cursor; the iteration that leaves finds the cursor exhausted and the queue empty and applies the
underrun policy. -/
theorem drainStep_player (cc n : Int) (st st1 : DrainState) (b : Bool)
    (h : drainStep cc n st = some (st1, b)) :
    (b = false → DrainFrame st.player st1.player ∧
      ((st1.player.audioQueue = st.player.audioQueue ∧
          st1.player.currentChunk = st.player.currentChunk) ∨
        st.player.audioQueue = st1.player.currentChunk :: st1.player.audioQueue)) ∧
    (b = true → st.player.audioQueue = [] ∧
      st.player.currentChunk.frameCount ≤ st.player.currentFrameIndex ∧
      st1.player = underrunPolicy st.player ∧ st1.framesWritten = n) := by
  simp only [drainStep] at h
  split at h
  · rename_i hex
    split at h
    · rename_i c rest hq
      simp only [Option.map_eq_some', Prod.mk.injEq] at h
      obtain ⟨a, ha, rfl, rfl⟩ := h
      obtain ⟨i, hi⟩ := copyPart_player _ _ _ _ ha
      refine ⟨fun _ => ⟨?_, Or.inr ?_⟩, fun hb => absurd hb (by simp)⟩
      · simp [DrainFrame, hi]
      · simp [hi, hq]
    · rename_i hq
      simp only [Option.map_eq_some', Prod.mk.injEq] at h
      obtain ⟨a, ha, rfl, rfl⟩ := h
      refine ⟨fun hb => absurd hb (by simp), fun _ => ⟨hq, hex, ?_⟩⟩
      simp only [underrunBranch] at ha
      split at ha
      · exact absurd ha (by simp)
      · simp only [Option.some.injEq] at ha
        subst ha
        exact ⟨rfl, rfl⟩
  · simp only [Option.map_eq_some', Prod.mk.injEq] at h
    obtain ⟨a, ha, rfl, rfl⟩ := h
    obtain ⟨i, hi⟩ := copyPart_player _ _ _ _ ha
    refine ⟨fun _ => ⟨?_, Or.inl ?_⟩, fun hb => absurd hb (by simp)⟩
    · simp [DrainFrame, hi]
    · simp [hi]

/-- The empty-queue branch from a state that satisfies the loop invariant: the cells behind
the frames already written are filled with zeros. -/
theorem underrunBranch_total (cc n : Int) (st : DrainState) (w : List Int)
    (hw : (w.length : Int) = st.framesWritten * cc)
    (hout : st.out = w.map some ++ List.replicate ((n - st.framesWritten) * cc).toNat none) :
    underrunBranch cc n st = some ⟨underrunPolicy st.player, n,
      w.map some ++ List.replicate ((n - st.framesWritten) * cc).toNat (some 0)⟩ := by
  have := fill_n_append 0 ((n - st.framesWritten) * cc).toNat (w.map some)
    (List.replicate ((n - st.framesWritten) * cc).toNat none) [] (by simp)
  simp only [List.append_nil, List.length_map] at this
  simp only [underrunBranch, hout, ← hw, this]

/-- From a state that satisfies the loop invariant every iteration has a result, the result
satisfies the invariant, an iteration that stays in the loop with the request still incomplete
lowers the measure, and the iteration that leaves has filled the rest with zeros. -/
theorem drainStep_total (cc n : Int) (st : DrainState) (hcc : 1 ≤ cc)
    (hinv : DrainInv cc n st) (hfw : st.framesWritten < n) :
    ∃ st1 b, drainStep cc n st = some (st1, b) ∧ DrainInv cc n st1 ∧
      (b = false → st1.framesWritten < n → drainMeasure st1 < drainMeasure st) ∧
      (b = true → ∃ w : List Int, (w.length : Int) = st.framesWritten * cc ∧
        st1.out = w.map some ++ List.replicate ((n - st.framesWritten) * cc).toNat (some 0)) := by
  by_cases hex : st.player.currentChunk.frameCount ≤ st.player.currentFrameIndex
  · cases hq : st.player.audioQueue with
    | nil =>
        obtain ⟨h0, hn, w, hw, hout⟩ := hinv
        refine ⟨⟨underrunPolicy st.player, n,
          w.map some ++ List.replicate ((n - st.framesWritten) * cc).toNat (some 0)⟩, true,
          ?_, ?_, fun hb => absurd hb (by simp), fun _ => ⟨w, hw, rfl⟩⟩
        · simp only [drainStep, hex, if_true, hq, underrunBranch_total cc n st w hw hout,
            Option.map_some']
        · refine ⟨by simp only; omega, le_refl _, w ++ List.replicate ((n - st.framesWritten) * cc).toNat 0,
            ?_, ?_⟩
          · simp only [List.length_append, List.length_replicate, Nat.cast_add]
            have : (n - st.framesWritten) * cc = n * cc - st.framesWritten * cc := by ring
            have : 0 ≤ (n - st.framesWritten) * cc := by nlinarith
            omega
          · simp
    | cons c rest =>
        obtain ⟨st1, h1, h2, h3⟩ := copyPart_total cc n
          { st with player := { st.player with
              currentChunk := c, audioQueue := rest, currentFrameIndex := 0,
              chunksConsumed := st.player.chunksConsumed + 1, bufferSize := (rest.length : Int) } }
          hcc hinv
        obtain ⟨i, hi⟩ := copyPart_player _ _ _ _ h1
        refine ⟨st1, false, ?_, h2, ?_, fun hb => absurd hb (by simp)⟩
        · simp only [drainStep, hex, if_true, hq, h1, Option.map_some']
        · intro _ hlt
          have := h3 hlt
          simp only [drainMeasure, this, if_true, hex, hq, List.length_cons]
          rw [hi]
          simp
  · obtain ⟨st1, h1, h2, h3⟩ := copyPart_total cc n st hcc hinv
    obtain ⟨i, hi⟩ := copyPart_player _ _ _ _ h1
    refine ⟨st1, false, ?_, h2, ?_, fun hb => absurd hb (by simp)⟩
    · simp only [drainStep, hex, if_false, h1, Option.map_some']
    · intro _ hlt
      have := h3 hlt
      simp only [drainMeasure, this, if_true, hex, if_false]
      rw [hi]
      simp

/-! ## The drain loop -/

/-- A loop whose condition is false returns at once, whatever the budget. -/
theorem drainLoop_done (cc n : Int) (fuel : Nat) (st : DrainState)
    (h : ¬ st.framesWritten < n) : drainLoop cc n fuel st = some (st, false) := by
  cases fuel <;> simp [drainLoop, h]

/-- A result of the loop is reached by iterations that stay in the loop, followed either by a
false loop condition or by the iteration of the empty-queue branch. -/
theorem drainLoop_sound (cc n : Int) (fuel : Nat) :
    ∀ (st st1 : DrainState) (b : Bool), drainLoop cc n fuel st = some (st1, b) →
      ∃ s, Steps cc n st s ∧
        ((b = false ∧ st1 = s ∧ ¬ s.framesWritten < n) ∨
         (b = true ∧ s.framesWritten < n ∧ drainStep cc n s = some (st1, true))) := by
  induction fuel with
  | zero =>
      intro st st1 b h
      simp only [drainLoop] at h
      split at h
      · exact absurd h (by simp)
      · rename_i hc
        simp only [Option.some.injEq, Prod.mk.injEq] at h
        obtain ⟨rfl, rfl⟩ := h
        exact ⟨st, Steps.refl st, Or.inl ⟨rfl, rfl, hc⟩⟩
  | succ fuel ih =>
      intro st st1 b h
      simp only [drainLoop] at h
      split at h
      · rename_i hc
        split at h
        · exact absurd h (by simp)
        · rename_i s2 hs
          simp only [Option.some.injEq, Prod.mk.injEq] at h
          obtain ⟨rfl, rfl⟩ := h
          exact ⟨st, Steps.refl st, Or.inr ⟨rfl, hc, hs⟩⟩
        · rename_i s2 hs
          obtain ⟨s, hsteps, hres⟩ := ih s2 st1 b h
          exact ⟨s, Steps.step hc hs hsteps, hres⟩
      · rename_i hc
        simp only [Option.some.injEq, Prod.mk.injEq] at h
        obtain ⟨rfl, rfl⟩ := h
        exact ⟨st, Steps.refl st, Or.inl ⟨rfl, rfl, hc⟩⟩

/-- With a budget of at least the measure of the state, the loop has a result. -/
theorem drainLoop_total (cc n : Int) (hcc : 1 ≤ cc) (fuel : Nat) :
    ∀ st : DrainState, DrainInv cc n st → drainMeasure st ≤ fuel →
      ∃ st1 b, drainLoop cc n fuel st = some (st1, b) := by
  induction fuel with
  | zero =>
      intro st _ hm
      simp [drainMeasure] at hm
  | succ fuel ih =>
      intro st hinv hm
      by_cases hc : st.framesWritten < n
      · obtain ⟨s2, b, hs, hinv2, hdec, _⟩ := drainStep_total cc n st hcc hinv hc
        cases b with
        | true => exact ⟨s2, true, by simp only [drainLoop, hc, if_true, hs]⟩
        | false =>
            by_cases hc2 : s2.framesWritten < n
            · have := hdec rfl hc2
              obtain ⟨st1, b1, h1⟩ := ih s2 hinv2 (by omega)
              exact ⟨st1, b1, by simp only [drainLoop, hc, if_true, hs, h1]⟩
            · exact ⟨s2, false, by simp only [drainLoop, hc, if_true, hs, drainLoop_done cc n fuel s2 hc2]⟩
      · exact ⟨st, false, drainLoop_done cc n _ st hc⟩

/-- A result of the loop does not depend on the budget: every larger budget gives it too. -/
theorem drainLoop_fuel_mono (cc n : Int) (fuel : Nat) :
    ∀ (st : DrainState) (r : DrainState × Bool) (fuel1 : Nat), fuel ≤ fuel1 →
      drainLoop cc n fuel st = some r → drainLoop cc n fuel1 st = some r := by
  induction fuel with
  | zero =>
      intro st r fuel1 _ h
      simp only [drainLoop] at h
      split at h
      · simp at h
      · rename_i hc
        rw [drainLoop_done cc n fuel1 st hc]; exact h
  | succ fuel ih =>
      intro st r fuel1 hle h
      obtain ⟨f1, rfl⟩ : ∃ f1, fuel1 = f1 + 1 := ⟨fuel1 - 1, by omega⟩
      simp only [drainLoop] at h ⊢
      split
      · rename_i hc
        simp only [hc, if_true] at h
        split at h
        · simp at h
        · exact h
        · rename_i s2 hs
          exact ih s2 r f1 (by omega) h
      · rename_i hc
        simp only [hc, if_false] at h
        exact h

/-- A property kept by every iteration that stays in the loop holds along the loop. -/
theorem Steps.preserves {cc n : Int} (P : DrainState → Prop)
    (hP : ∀ s s1, P s → s.framesWritten < n → drainStep cc n s = some (s1, false) → P s1)
    {st st1 : DrainState} (h : Steps cc n st st1) : P st → P st1 := by
  induction h with
  | refl _ => exact id
  | step hc hs _ ih => exact fun hp => ih (hP _ _ hp hc hs)

/-- The loop invariant holds along the loop. -/
theorem Steps.drainInv {cc n : Int} (hcc : 1 ≤ cc) {st st1 : DrainState}
    (h : Steps cc n st st1) : DrainInv cc n st → DrainInv cc n st1 := by
  refine h.preserves (DrainInv cc n) ?_
  intro s s1 hinv hc hs
  obtain ⟨s2, b, hs2, hinv2, _⟩ := drainStep_total cc n s hcc hinv hc
  rw [hs] at hs2
  simp only [Option.some.injEq, Prod.mk.injEq] at hs2
  rw [hs2.1]
  exact hinv2

/-- The members of the frame are the same along the loop. -/
theorem Steps.frame {cc n : Int} {st st1 : DrainState} (h : Steps cc n st st1) :
    DrainFrame st.player st1.player := by
  refine h.preserves (fun s => DrainFrame st.player s.player) ?_ (DrainFrame.drain_refl _)
  intro s s1 hf _ hs
  exact hf.drain_trans ((drainStep_player cc n s s1 false hs).1 rfl).1

/-- Summary of the drain loop from a state that satisfies the invariant, for any budget of at
least the measure: the loop has a result, the whole buffer is written, and either the request
was met from chunk data and the frame is unchanged, or the loop left through the empty-queue
branch, which applied the underrun policy once and filled the rest with zeros. -/
theorem drainLoop_summary (cc n : Int) (hcc : 1 ≤ cc) (fuel : Nat) (st : DrainState)
    (hinv : DrainInv cc n st) (hm : drainMeasure st ≤ fuel) :
    ∃ st1 b, drainLoop cc n fuel st = some (st1, b) ∧
      (∃ samples : List Int, (samples.length : Int) = n * cc ∧ st1.out = samples.map some) ∧
      (b = false → DrainFrame st.player st1.player) ∧
      (b = true → ∃ s : DrainState, DrainFrame st.player s.player ∧ s.player.audioQueue = [] ∧
        s.player.currentChunk.frameCount ≤ s.player.currentFrameIndex ∧
        st1.player = underrunPolicy s.player ∧ 0 ≤ s.framesWritten ∧ s.framesWritten < n ∧
        ∃ w : List Int, (w.length : Int) = s.framesWritten * cc ∧
          st1.out = w.map some ++ List.replicate ((n - s.framesWritten) * cc).toNat (some 0)) := by
  obtain ⟨st1, b, hres⟩ := drainLoop_total cc n hcc fuel st hinv hm
  obtain ⟨s, hsteps, hcase⟩ := drainLoop_sound cc n fuel st st1 b hres
  have hinvs := hsteps.drainInv hcc hinv
  have hframe := hsteps.frame
  refine ⟨st1, b, hres, ?_, ?_, ?_⟩
  · rcases hcase with ⟨_, rfl, hc⟩ | ⟨_, hc, hs⟩
    · obtain ⟨h0, hn, w, hw, hout⟩ := hinvs
      have hfw : st1.framesWritten = n := by omega
      refine ⟨w, by rw [hw, hfw], ?_⟩
      rw [hout, hfw]
      simp
    · obtain ⟨s2, b2, hs2, hinv2, _, _⟩ := drainStep_total cc n s hcc hinvs hc
      rw [hs] at hs2
      simp only [Option.some.injEq, Prod.mk.injEq] at hs2
      obtain ⟨rfl, _⟩ := hs2
      have hfw := ((drainStep_player cc n s st1 true hs).2 rfl).2.2.2
      obtain ⟨h0, hn, w, hw, hout⟩ := hinv2
      refine ⟨w, by rw [hw, hfw], ?_⟩
      rw [hout, hfw]
      simp
  · intro hb
    rcases hcase with ⟨_, rfl, _⟩ | ⟨hb2, _, _⟩
    · exact hframe
    · rw [hb] at hb2; exact absurd hb2 (by simp)
  · intro hb
    rcases hcase with ⟨hb2, _, _⟩ | ⟨_, hc, hs⟩
    · rw [hb] at hb2; exact absurd hb2 (by simp)
    · obtain ⟨hq, hex, hpol, _⟩ := (drainStep_player cc n s st1 true hs).2 rfl
      obtain ⟨s2, b2, hs2, _, _, hz⟩ := drainStep_total cc n s hcc hinvs hc
      rw [hs] at hs2
      simp only [Option.some.injEq, Prod.mk.injEq] at hs2
      obtain ⟨rfl, rfl⟩ := hs2
      exact ⟨s, hframe, hq, hex, hpol, hinvs.1, hc, hz rfl⟩

/-! ## The render call -/

/-- The blank buffer at loop entry satisfies the loop invariant. -/
theorem drainInv_blank (p : OboeAudioPlayer) (cc n : Int) (hn : 0 ≤ n) :
    DrainInv cc n ⟨p, 0, blank cc n⟩ := by
  refine ⟨le_refl _, hn, [], by simp, ?_⟩
  simp [blank]

/-- The silence fill of the prebuffering block writes a zero into every cell. -/
theorem fill_n_blank (cc n : Int) :
    fill_n (n * cc).toNat (blank cc n) 0 0 = some (List.replicate (n * cc).toNat (some 0)) := by
  have := fill_n_append 0 (n * cc).toNat [] (blank cc n) [] (by simp [blank])
  simpa using this

/-- Summary of the drain of one render call, entered with the player state `p`. -/
theorem drain_summary (p : OboeAudioPlayer) (cc n : Int) (hn : 0 ≤ n) (hcc : 1 ≤ cc) :
    ∃ st1 b, drainLoop cc n (p.audioQueue.length + 2) ⟨p, 0, blank cc n⟩ = some (st1, b) ∧
      drain p cc n = some (epilogue st1.player n, st1.out) ∧
      (∃ samples : List Int, (samples.length : Int) = n * cc ∧ st1.out = samples.map some) ∧
      (b = false → DrainFrame p st1.player) ∧
      (b = true → ∃ s : DrainState, DrainFrame p s.player ∧ s.player.audioQueue = [] ∧
        s.player.currentChunk.frameCount ≤ s.player.currentFrameIndex ∧
        st1.player = underrunPolicy s.player ∧ 0 ≤ s.framesWritten ∧ s.framesWritten < n ∧
        ∃ w : List Int, (w.length : Int) = s.framesWritten * cc ∧
          st1.out = w.map some ++ List.replicate ((n - s.framesWritten) * cc).toNat (some 0)) := by
  have hm : drainMeasure ⟨p, 0, blank cc n⟩ ≤ p.audioQueue.length + 2 := by
    simp only [drainMeasure]; split <;> omega
  obtain ⟨st1, b, hres, h1, h2, h3⟩ :=
    drainLoop_summary cc n hcc _ ⟨p, 0, blank cc n⟩ (drainInv_blank p cc n hn) hm
  exact ⟨st1, b, hres, by simp only [drain, hres], h1, h2, h3⟩

end OboeAudioPlayer

/-! ## The drain loop on well-formed chunks -/

namespace OboeAudioPlayer

/-- On a chunk that satisfies the chunk invariant, with a cursor index that is not negative,
`copyPart` copies a segment `seg` of the undrained remainder of the chunk behind the samples
already written (an empty segment when the chunk is exhausted) and keeps the rest. -/
theorem copyPart_pending (cc n : Int) (st : DrainState) (u : List Int) (hcc : 1 ≤ cc)
    (h0 : 0 ≤ st.framesWritten) (hfw : st.framesWritten < n)
    (hu : (u.length : Int) = st.framesWritten * cc)
    (hout : st.out = (u.map (gainMap st.player.volumeLevel)).map some ++
      List.replicate ((n - st.framesWritten) * cc).toNat none)
    (hok : ChunkOk cc st.player.currentChunk) (hidx : 0 ≤ st.player.currentFrameIndex) :
    ∃ (st1 : DrainState) (seg : List Int), copyPart cc n st = some st1 ∧
      0 ≤ st1.framesWritten ∧ st1.framesWritten ≤ n ∧
      ((u ++ seg).length : Int) = st1.framesWritten * cc ∧
      st1.out = ((u ++ seg).map (gainMap st.player.volumeLevel)).map some ++
        List.replicate ((n - st1.framesWritten) * cc).toNat none ∧
      st.player.currentChunk.data.drop (st.player.currentFrameIndex * cc).toNat =
        seg ++ st.player.currentChunk.data.drop (st1.player.currentFrameIndex * cc).toNat ∧
      0 ≤ st1.player.currentFrameIndex := by
  unfold ChunkOk at hok
  by_cases hlt : st.player.currentFrameIndex < st.player.currentChunk.frameCount
  · have hm1 := min_le_left (n - st.framesWritten)
      (st.player.currentChunk.frameCount - st.player.currentFrameIndex)
    have hm2 := min_le_right (n - st.framesWritten)
      (st.player.currentChunk.frameCount - st.player.currentFrameIndex)
    have hm3 : 1 ≤ min (n - st.framesWritten)
      (st.player.currentChunk.frameCount - st.player.currentFrameIndex) := by
      apply le_min <;> omega
    have hwl : (((u.map (gainMap st.player.volumeLevel)).length : Nat) : Int)
        = st.framesWritten * cc := by simpa using hu
    have hchk := copyPart_checked cc n st (u.map (gainMap st.player.volumeLevel)) hwl hout
    generalize min (n - st.framesWritten)
      (st.player.currentChunk.frameCount - st.player.currentFrameIndex) = ftc at *
    have e1 : 0 ≤ st.player.currentFrameIndex * cc := by nlinarith
    have e2 : 0 < ftc * cc := by nlinarith
    have e3 : (st.player.currentFrameIndex + ftc) * cc
        ≤ st.player.currentChunk.frameCount * cc := by nlinarith
    have e3a : (st.player.currentFrameIndex + ftc) * cc
        = st.player.currentFrameIndex * cc + ftc * cc := by ring
    have e4 : (st.framesWritten + ftc) * cc ≤ n * cc := by nlinarith
    have e4a : (st.framesWritten + ftc) * cc = st.framesWritten * cc + ftc * cc := by ring
    refine ⟨_, (st.player.currentChunk.data.drop (st.player.currentFrameIndex * cc).toNat).take
        (ftc * cc).toNat, hchk ⟨e1, e2, by omega, by omega⟩, by simp only; omega,
        by simp only; omega, ?_, ?_, ?_, by simp only; omega⟩
    · simp only [List.length_append, List.length_take, List.length_drop, Nat.cast_add]
      omega
    · simp only [List.map_append]
    · simp only
      have hsum : ((st.player.currentFrameIndex + ftc) * cc).toNat
          = (st.player.currentFrameIndex * cc).toNat + (ftc * cc).toNat := by omega
      rw [hsum, ← List.drop_drop, List.take_append_drop]
  · have hm2 := min_le_right (n - st.framesWritten)
      (st.player.currentChunk.frameCount - st.player.currentFrameIndex)
    have hdis := copyPart_discard cc n st
    generalize min (n - st.framesWritten)
      (st.player.currentChunk.frameCount - st.player.currentFrameIndex) = ftc at *
    have e2 : ftc * cc ≤ 0 := by nlinarith
    have e5 : st.player.currentChunk.frameCount * cc ≤ st.player.currentFrameIndex * cc := by
      nlinarith
    have e6 : 0 ≤ st.player.currentChunk.frameCount := by
      by_contra hneg
      have : st.player.currentChunk.frameCount * cc < 0 := by nlinarith
      omega
    refine ⟨_, [], hdis (by omega), h0, le_of_lt hfw, by simpa using hu, by simpa using hout,
      ?_, e6⟩
    simp only [List.nil_append]
    rw [List.drop_of_length_le (by omega), List.drop_of_length_le (by omega)]

end OboeAudioPlayer

namespace OboeAudioPlayer

/-- An exhausted cursor on a well-formed chunk has no undrained remainder. -/
theorem drop_exhausted (cc : Int) (c : AudioChunk) (i : Int) (hcc : 1 ≤ cc) (hok : ChunkOk cc c)
    (hex : c.frameCount ≤ i) : c.data.drop (i * cc).toNat = [] := by
  unfold ChunkOk at hok
  have : c.frameCount * cc ≤ i * cc := by nlinarith
  exact List.drop_of_length_le (by omega)

/-- The underrun policy does not touch the chunks. -/
theorem underrunPolicy_chunks (p : OboeAudioPlayer) :
    (underrunPolicy p).audioQueue = p.audioQueue ∧
    (underrunPolicy p).currentChunk = p.currentChunk ∧
    (underrunPolicy p).currentFrameIndex = p.currentFrameIndex ∧
    (underrunPolicy p).volumeLevel = p.volumeLevel := by
  simp only [underrunPolicy]
  split
  · simp
  · split <;> simp

/-- An iteration that stays in the loop keeps the invariant on well-formed chunks. -/
theorem drainStep_pendingInv (cc n : Int) (stream : List Int) (vol : F32) (hcc : 1 ≤ cc)
    (s s1 : DrainState) (hinv : PendingInv cc n stream vol s) (hc : s.framesWritten < n)
    (hs : drainStep cc n s = some (s1, false)) : PendingInv cc n stream vol s1 := by
  obtain ⟨h0, _, hvol, ⟨hcur, hq⟩, hidx, u, hu, hout, hstream⟩ := hinv
  simp only [drainStep] at hs
  split at hs
  · rename_i hex
    split at hs
    · rename_i c rest hqe
      simp only [Option.map_eq_some', Prod.mk.injEq, and_true] at hs
      obtain ⟨a, ha, rfl⟩ := hs
      have hc_ok : ChunkOk cc c := hq c (by rw [hqe]; exact List.mem_cons_self _ _)
      obtain ⟨st1, seg, h1, h2, h3, h4, h5, h6, h7⟩ := copyPart_pending cc n
        { s with player := { s.player with
            currentChunk := c, audioQueue := rest, currentFrameIndex := 0,
            chunksConsumed := s.player.chunksConsumed + 1, bufferSize := (rest.length : Int) } }
        u hcc h0 hc hu (by simpa [hvol] using hout) hc_ok (le_refl _)
      rw [ha] at h1
      simp only [Option.some.injEq] at h1
      subst h1
      obtain ⟨i, hi⟩ := copyPart_player _ _ _ _ ha
      simp only [zero_mul, Int.toNat_zero, List.drop_zero, hvol] at h5 h6
      refine ⟨h2, h3, by rw [hi]; exact hvol, ⟨by rw [hi]; exact hc_ok, ?_⟩, h7, u ++ seg, h4, h5, ?_⟩
      · intro d hd
        rw [hi] at hd
        exact hq d (by rw [hqe]; exact List.mem_cons_of_mem _ hd)
      · rw [hstream]
        simp only [pending, hqe, queuedSamples, drop_exhausted cc _ _ hcc hcur hex, List.nil_append]
        rw [h6, hi]
        simp
    · simp only [Option.map_eq_some', Prod.mk.injEq] at hs
      obtain ⟨a, _, _, hb⟩ := hs
      exact absurd hb (by simp)
  · simp only [Option.map_eq_some', Prod.mk.injEq, and_true] at hs
    obtain ⟨a, ha, rfl⟩ := hs
    obtain ⟨st1, seg, h1, h2, h3, h4, h5, h6, h7⟩ := copyPart_pending cc n s u hcc h0 hc hu
      (by simpa [hvol] using hout) hcur hidx
    rw [ha] at h1
    simp only [Option.some.injEq] at h1
    subst h1
    obtain ⟨i, hi⟩ := copyPart_player _ _ _ _ ha
    rw [hvol] at h5
    refine ⟨h2, h3, by rw [hi]; exact hvol, ⟨by rw [hi]; exact hcur, ?_⟩, h7, u ++ seg, h4, h5, ?_⟩
    · intro d hd
      rw [hi] at hd
      exact hq d hd
    · rw [hstream]
      simp only [pending]
      rw [h6, hi]
      simp

/-- The invariant on well-formed chunks holds along the loop. -/
theorem Steps.pendingInv {cc n : Int} (stream : List Int) (vol : F32) (hcc : 1 ≤ cc)
    {st st1 : DrainState} (h : Steps cc n st st1) :
    PendingInv cc n stream vol st → PendingInv cc n stream vol st1 :=
  h.preserves (PendingInv cc n stream vol)
    (fun s s1 hinv hc hs => drainStep_pendingInv cc n stream vol hcc s s1 hinv hc hs)

end OboeAudioPlayer

namespace OboeAudioPlayer

/-- The drain loop on well-formed chunks, from loop entry: the output is the pending stream cut
to the size of the request, transformed by the gain and padded with zeros; what is left of the
stream stays pending; and the loop leaves through the empty-queue branch exactly when the
stream is shorter than the request. -/
theorem drainLoop_pending (p : OboeAudioPlayer) (cc n : Int) (hn : 0 ≤ n) (hcc : 1 ≤ cc)
    (hok : ChunksOk cc p) (hidx : 0 ≤ p.currentFrameIndex) :
    ∃ st1 b, drainLoop cc n (p.audioQueue.length + 2) ⟨p, 0, blank cc n⟩ = some (st1, b) ∧
      st1.out = ((((pending cc p).take (n * cc).toNat).map (gainMap p.volumeLevel)) ++
        List.replicate ((n * cc).toNat - (pending cc p).length) 0).map some ∧
      pending cc st1.player = (pending cc p).drop (n * cc).toNat ∧
      (b = true ↔ ((pending cc p).length : Int) < n * cc) ∧
      ChunksOk cc st1.player ∧ 0 ≤ st1.player.currentFrameIndex := by
  obtain ⟨st1, b, hres, _, _, _, _⟩ := drain_summary p cc n hn hcc
  obtain ⟨s, hsteps, hcase⟩ := drainLoop_sound cc n _ _ st1 b hres
  have hinv0 : PendingInv cc n (pending cc p) p.volumeLevel ⟨p, 0, blank cc n⟩ :=
    ⟨le_refl _, hn, rfl, hok, hidx, [], by simp, by simp [blank], by simp⟩
  obtain ⟨h0, hle, hvol, hoks, hidxs, u, hu, hout, hstream⟩ :=
    hsteps.pendingInv (pending cc p) p.volumeLevel hcc hinv0
  have hpos : 0 ≤ n * cc := by nlinarith
  refine ⟨st1, b, hres, ?_⟩
  rcases hcase with ⟨rfl, rfl, hc⟩ | ⟨rfl, hc, hs⟩
  · have hfw : st1.framesWritten = n := by omega
    rw [hfw] at hu hout
    have hlen : u.length = (n * cc).toNat := by omega
    refine ⟨?_, ?_, ?_, hoks, hidxs⟩
    · rw [hout, hstream, ← hlen, List.take_left]
      simp
    · rw [hstream, ← hlen, List.drop_left]
    · simp only [Bool.false_eq_true, false_iff, not_lt, hstream, List.length_append, Nat.cast_add]
      omega
  · obtain ⟨hq, hex, hpol, _⟩ := (drainStep_player cc n s st1 true hs).2 rfl
    have hpend : pending cc s.player = [] := by
      simp only [pending, hq, queuedSamples, drop_exhausted cc _ _ hcc hoks.1 hex, List.append_nil]
    rw [hpend, List.append_nil] at hstream
    have hub := underrunBranch_total cc n s (u.map (gainMap p.volumeLevel))
      (by simpa using hu) hout
    simp only [drainStep, hex, if_true, hq, hub, Option.map_some', Option.some.injEq,
      Prod.mk.injEq, and_true] at hs
    obtain ⟨hq1, hch1, hi1, _⟩ := underrunPolicy_chunks s.player
    have hlt : s.framesWritten * cc < n * cc := by nlinarith
    have hlen : u.length ≤ (n * cc).toNat := by omega
    have hrest : ((n - s.framesWritten) * cc).toNat = (n * cc).toNat - u.length := by
      have : (n - s.framesWritten) * cc = n * cc - s.framesWritten * cc := by ring
      omega
    refine ⟨?_, ?_, ?_, ?_, ?_⟩
    · rw [← hs, hstream, List.take_of_length_le hlen, hrest]
      simp
    · have e : pending cc (underrunPolicy s.player) = pending cc s.player := by
        simp only [pending, hq1, hch1, hi1]
      rw [← hs]
      simp only [e]
      rw [hstream, List.drop_of_length_le hlen]
      exact hpend
    · simp only [true_iff, hstream]
      omega
    · rw [← hs]
      exact ⟨by simp only [hch1]; exact hoks.1, by simp only [hq1]; exact hoks.2⟩
    · rw [← hs]
      simp only [hi1]
      exact hidxs

/-- The statements before and after the drain loop do not touch the chunks or the gain. -/
theorem prologue_chunks (p : OboeAudioPlayer) (now : Int) :
    (prologue p now).audioQueue = p.audioQueue ∧ (prologue p now).currentChunk = p.currentChunk ∧
    (prologue p now).currentFrameIndex = p.currentFrameIndex ∧
    (prologue p now).volumeLevel = p.volumeLevel ∧
    (prologue p now).isPrebuffering = p.isPrebuffering ∧
    (prologue p now).underrunCount = p.underrunCount := by
  simp only [prologue]
  split <;> simp

/-- The statements after the drain loop change the frame counter only. -/
theorem epilogue_chunks (p : OboeAudioPlayer) (n : Int) :
    (epilogue p n).audioQueue = p.audioQueue ∧ (epilogue p n).currentChunk = p.currentChunk ∧
    (epilogue p n).currentFrameIndex = p.currentFrameIndex ∧
    (epilogue p n).isPrebuffering = p.isPrebuffering ∧
    (epilogue p n).underrunCount = p.underrunCount := by
  simp only [epilogue]
  split <;> simp

/-- A render call made while playing on well-formed chunks, at any gain: the output is the
pending stream cut to the request, transformed by the gain and padded with zeros, and the rest
of the stream stays pending. -/
theorem onAudioReady_pending (p : OboeAudioPlayer) (cc n now : Int) (hn : 0 ≤ n) (hcc : 1 ≤ cc)
    (hplay : p.isPrebuffering = false) (hok : ChunksOk cc p) (hidx : 0 ≤ p.currentFrameIndex) :
    ∃ p1, p.onAudioReady cc n now = some (p1,
        ((((pending cc p).take (n * cc).toNat).map (gainMap p.volumeLevel)) ++
          List.replicate ((n * cc).toNat - (pending cc p).length) 0).map some) ∧
      pending cc p1 = (pending cc p).drop (n * cc).toNat ∧
      ChunksOk cc p1 ∧ 0 ≤ p1.currentFrameIndex := by
  obtain ⟨hq, hch, hi, hv, hpre, _⟩ := prologue_chunks p now
  have hok1 : ChunksOk cc (prologue p now) := by
    unfold ChunksOk at *
    rw [hq, hch]
    exact hok
  obtain ⟨st1, b, hres, hout, hpend, _, hok2, hidx2⟩ :=
    drainLoop_pending (prologue p now) cc n hn hcc hok1 (by rw [hi]; exact hidx)
  have hpeq : pending cc (prologue p now) = pending cc p := by
    simp only [pending, hq, hch, hi]
  rw [hpeq, hv] at hout
  rw [hpeq] at hpend
  obtain ⟨eq, ech, ei, _, _⟩ := epilogue_chunks st1.player n
  refine ⟨epilogue st1.player n, ?_, ?_, ?_, ?_⟩
  · have hp1 : (prologue p now).isPrebuffering = false := by rw [hpre]; exact hplay
    simp only [onAudioReady, hp1, Bool.false_eq_true, if_false, drain, hres, hout]
  · simp only [pending, eq, ech, ei]
    exact hpend
  · unfold ChunksOk at *
    rw [eq, ech]
    exact hok2
  · rw [ei]; exact hidx2

end OboeAudioPlayer

/-! ## What a render call leaves alone -/

namespace OboeAudioPlayer

/-- The render frame relation is reflexive. -/
theorem RenderFrame.render_refl (p : OboeAudioPlayer) : RenderFrame p p := by
  simp [RenderFrame]

/-- The render frame relation is transitive. -/
theorem RenderFrame.render_trans {p q r : OboeAudioPlayer} (h1 : RenderFrame p q)
    (h2 : RenderFrame q r) : RenderFrame p r := by
  unfold RenderFrame at *
  simp only [h2, h1, and_self]

/-- The frame of the drain loop contains the render frame. -/
theorem DrainFrame.renderFrame {p q : OboeAudioPlayer} (h : DrainFrame p q) :
    RenderFrame p q := by
  unfold DrainFrame at h
  unfold RenderFrame
  simp only [h, and_self]

/-- The chunks of a player come from themselves. -/
theorem ChunksFrom.chunks_refl (p : OboeAudioPlayer) : ChunksFrom p p :=
  ⟨⟨0, by simp⟩, Or.inl (Eq.refl _)⟩

/-- Chunks that keep queue and cursor chunk come from the same chunks. -/
theorem ChunksFrom.of_eq {p q r : OboeAudioPlayer} (h : ChunksFrom p q)
    (hq : r.audioQueue = q.audioQueue) (hc : r.currentChunk = q.currentChunk) :
    ChunksFrom p r := by
  unfold ChunksFrom at *
  rw [hq, hc]
  exact h

/-- The same, for a change made before the other. -/
theorem ChunksFrom.of_eq_left {p q r : OboeAudioPlayer} (h : ChunksFrom q r)
    (hq : q.audioQueue = p.audioQueue) (hc : q.currentChunk = p.currentChunk) :
    ChunksFrom p r := by
  unfold ChunksFrom at *
  rw [← hq, ← hc]
  exact h

/-- The statements before the lock keep the render frame. -/
theorem prologue_frame (p : OboeAudioPlayer) (now : Int) : RenderFrame p (prologue p now) := by
  simp only [prologue]
  split <;> simp [RenderFrame]

/-- The stall timeout keeps the render frame, the chunks and the underrun count. -/
theorem prebufferTimeout_frame (p : OboeAudioPlayer) :
    RenderFrame p (prebufferTimeout p) ∧
    (prebufferTimeout p).audioQueue = p.audioQueue ∧
    (prebufferTimeout p).currentChunk = p.currentChunk ∧
    (prebufferTimeout p).currentFrameIndex = p.currentFrameIndex ∧
    (prebufferTimeout p).underrunCount = p.underrunCount := by
  simp only [prebufferTimeout]
  split <;> simp [RenderFrame]

/-- Leaving prebuffering keeps the render frame. -/
theorem prebufferComplete_frame (p : OboeAudioPlayer) (now : Int) :
    RenderFrame p (prebufferComplete p now) := by
  simp [prebufferComplete, RenderFrame]

/-- The statements after the loop keep the render frame. -/
theorem epilogue_frame (p : OboeAudioPlayer) (n : Int) : RenderFrame p (epilogue p n) := by
  simp only [epilogue]
  split <;> simp [RenderFrame]

/-- The underrun policy keeps the render frame. -/
theorem underrunPolicy_frame (p : OboeAudioPlayer) : RenderFrame p (underrunPolicy p) := by
  simp only [underrunPolicy]
  split
  · simp [RenderFrame]
  · split <;> simp [RenderFrame]

/-- Along the loop the chunks come from the chunks at loop entry. -/
theorem Steps.chunksFrom {cc n : Int} {st st1 : DrainState} (h : Steps cc n st st1) :
    ChunksFrom st.player st1.player := by
  refine h.preserves (fun s => ChunksFrom st.player s.player) ?_ (ChunksFrom.chunks_refl _)
  intro s s1 ⟨⟨k, hk⟩, hcur⟩ _ hs
  rcases ((drainStep_player cc n s s1 false hs).1 rfl).2 with ⟨hq, hc⟩ | hpop
  · exact ⟨⟨k, by rw [hq, hk]⟩, by rw [hc]; exact hcur⟩
  · rw [hk] at hpop
    refine ⟨⟨k + 1, ?_⟩, Or.inr ?_⟩
    · have := congrArg List.tail hpop
      simp only [List.tail_drop, List.tail_cons] at this
      exact this.symm
    · apply List.mem_of_mem_drop (n := k)
      rw [hpop]
      exact List.mem_cons_self _ _

/-- A result of the drain loop keeps the members of the render frame, and its chunks come from
the chunks at loop entry. -/
theorem drainLoop_frame (cc n : Int) (fuel : Nat) (st st1 : DrainState) (b : Bool)
    (h : drainLoop cc n fuel st = some (st1, b)) :
    RenderFrame st.player st1.player ∧ ChunksFrom st.player st1.player := by
  obtain ⟨s, hsteps, hcase⟩ := drainLoop_sound cc n fuel st st1 b h
  rcases hcase with ⟨_, rfl, _⟩ | ⟨_, _, hs⟩
  · exact ⟨hsteps.frame.renderFrame, hsteps.chunksFrom⟩
  · obtain ⟨_, _, hpol, _⟩ := (drainStep_player cc n s st1 true hs).2 rfl
    obtain ⟨hq, hc, _, _⟩ := underrunPolicy_chunks s.player
    rw [hpol]
    exact ⟨hsteps.frame.renderFrame.render_trans (underrunPolicy_frame _),
      hsteps.chunksFrom.of_eq hq hc⟩

/-- The drain of a render call keeps the members of the render frame, and its chunks come from
the chunks before. -/
theorem drain_frame (p p1 : OboeAudioPlayer) (cc n : Int) (out : Buffer)
    (h : drain p cc n = some (p1, out)) : RenderFrame p p1 ∧ ChunksFrom p p1 := by
  simp only [drain] at h
  split at h
  · simp at h
  · rename_i st b hres
    simp only [Option.some.injEq, Prod.mk.injEq] at h
    obtain ⟨rfl, _⟩ := h
    obtain ⟨hf, hc⟩ := drainLoop_frame cc n _ _ st b hres
    obtain ⟨eq, ech, _⟩ := epilogue_chunks st.player n
    exact ⟨hf.render_trans (epilogue_frame _ _), hc.of_eq eq ech⟩

/-- A render call keeps the members of the render frame, and its chunks come from the chunks
before. -/
theorem onAudioReady_frame (p p1 : OboeAudioPlayer) (cc n now : Int) (out : Buffer)
    (h : p.onAudioReady cc n now = some (p1, out)) : RenderFrame p p1 ∧ ChunksFrom p p1 := by
  obtain ⟨hq, hch, _⟩ := prologue_chunks p now
  obtain ⟨hf2, hq2, hch2, _⟩ := prebufferTimeout_frame (prologue p now)
  simp only [onAudioReady] at h
  split at h
  · split at h
    · split at h
      · simp at h
      · simp only [Option.some.injEq, Prod.mk.injEq] at h
        obtain ⟨rfl, _⟩ := h
        exact ⟨(prologue_frame p now).render_trans hf2,
          (ChunksFrom.chunks_refl p).of_eq (by rw [hq2, hq]) (by rw [hch2, hch])⟩
    · obtain ⟨hf, hc⟩ := drain_frame _ _ _ _ _ h
      exact ⟨((prologue_frame p now).render_trans hf2).render_trans
          ((prebufferComplete_frame _ now).render_trans hf),
        hc.of_eq_left (q := prebufferComplete (prebufferTimeout (prologue p now)) now)
          (by simp only [prebufferComplete]; rw [hq2, hq])
          (by simp only [prebufferComplete]; rw [hch2, hch])⟩
  · obtain ⟨hf, hc⟩ := drain_frame _ _ _ _ _ h
    exact ⟨(prologue_frame p now).render_trans hf, hc.of_eq_left hq hch⟩

/-- A property kept by every call holds after every run that starts with it. -/
theorem run_preserves (P : OboeAudioPlayer → Prop)
    (hP : ∀ (p : OboeAudioPlayer) (op : Op) (p1 : OboeAudioPlayer),
      P p → p.step op = some p1 → P p1) :
    ∀ (ops : List Op) (p p1 : OboeAudioPlayer), P p → run p ops = some p1 → P p1 := by
  intro ops
  induction ops with
  | nil =>
      intro p p1 hp h
      simp only [run, Option.some.injEq] at h
      rw [← h]; exact hp
  | cons op ops ih =>
      intro p p1 hp h
      simp only [run] at h
      split at h
      · simp at h
      · rename_i p2 hstep
        exact ih p2 p1 (hP p op p2 hp hstep) h

end OboeAudioPlayer

/-! ## Submission -/

theorem samplesOfBytes_length (l : List Int) : (samplesOfBytes l).length = l.length / 2 := by
  induction l using samplesOfBytes.induct with
  | case1 lo hi rest ih => simp only [samplesOfBytes, List.length_cons, ih]; omega
  | case2 l h =>
      match l, h with
      | [], _ => simp [samplesOfBytes]
      | [x], _ => simp [samplesOfBytes]
      | lo :: hi :: rest, h => exact absurd rfl (h lo hi rest)

namespace OboeAudioPlayer

/-- The eviction loop leaves fewer than `MAX_QUEUE_SIZE` chunks. -/
theorem evictOldest_length (q : List AudioChunk) : (evictOldest q).length < MAX_QUEUE_SIZE := by
  induction q with
  | nil => simp [evictOldest, MAX_QUEUE_SIZE]
  | cons c rest ih =>
      simp only [evictOldest]
      split
      · exact ih
      · omega

/-- The eviction loop does nothing below the capacity. -/
theorem evictOldest_of_lt (q : List AudioChunk) (h : q.length < MAX_QUEUE_SIZE) :
    evictOldest q = q := by
  cases q with
  | nil => rfl
  | cons c rest =>
      simp only [evictOldest]
      rw [if_neg (by omega)]

/-- At the capacity the eviction loop drops exactly the oldest chunk. -/
theorem evictOldest_of_eq (q : List AudioChunk) (h : q.length = MAX_QUEUE_SIZE) :
    evictOldest q = q.tail := by
  cases q with
  | nil => rfl
  | cons c rest =>
      simp only [evictOldest, List.tail_cons]
      rw [if_pos (by omega)]
      exact evictOldest_of_lt rest (by simp only [List.length_cons] at h; omega)

/-- The chunk built from a submission of valid length satisfies the chunk invariant. -/
theorem buildChunk_ok (bytes : List Int) (length cc : Int) (hcc : 1 ≤ cc) (h0 : 0 ≤ length)
    (hlen : length ≤ (bytes.length : Int)) (hm : Int.tmod length (2 * cc) = 0) :
    ChunkOk cc (buildChunk bytes length cc) := by
  unfold ChunkOk buildChunk
  simp only [samplesOfBytes_length, List.length_take]
  rw [Int.tmod_eq_emod h0 (by omega)] at hm
  obtain ⟨k, hk⟩ := Int.dvd_of_emod_eq_zero hm
  have h2 : Int.tdiv length 2 = cc * k := by
    rw [Int.tdiv_eq_ediv h0 (by omega), hk, mul_assoc, Int.mul_ediv_cancel_left _ (by omega)]
  have hk0 : 0 ≤ cc * k := by rw [← h2]; exact Int.tdiv_nonneg h0 (by omega)
  rw [h2, Int.tdiv_eq_ediv hk0 (by omega), Int.mul_ediv_cancel_left _ (by omega)]
  have : (((min length.toNat bytes.length) / 2 : Nat) : Int) = length / 2 := by omega
  rw [this, hk, mul_assoc, Int.mul_ediv_cancel_left _ (by omega)]
  ring

/-- The members that the estimate update, the interval update and the push leave alone, and
the new queue. -/
theorem pushChunk_fields (p : OboeAudioPlayer) (f now : Int) (c : AudioChunk) :
    (pushChunk (updateInterval (updateEstimate p f) now) c).audioQueue
        = evictOldest p.audioQueue ++ [c] ∧
    (pushChunk (updateInterval (updateEstimate p f) now) c).currentChunk = p.currentChunk ∧
    (pushChunk (updateInterval (updateEstimate p f) now) c).currentFrameIndex
        = p.currentFrameIndex ∧
    (pushChunk (updateInterval (updateEstimate p f) now) c).stream = p.stream ∧
    (pushChunk (updateInterval (updateEstimate p f) now) c).configuredChannelCount
        = p.configuredChannelCount := by
  simp only [pushChunk, updateInterval, updateEstimate]
  split <;> split <;> (try split) <;> simp

/-- What an accepted submission has checked and what it returns. -/
theorem addAudioData_accepted (p p1 : OboeAudioPlayer) (bytes : List Int) (length now : Int)
    (h : p.addAudioData bytes length now = some (p1, true)) :
    p.stream = true ∧ p.isPlaying = true ∧ p.configuredChannelCount ≠ 0 ∧
    Int.tmod length (2 * p.configuredChannelCount) = 0 ∧ 0 ≤ length ∧
    length ≤ (bytes.length : Int) ∧ p.configuredSampleRate ≠ 0 ∧
    p1 = pushChunk (updateInterval (updateEstimate p
          (buildChunk bytes length p.configuredChannelCount).frameCount) now)
        (buildChunk bytes length p.configuredChannelCount) := by
  simp only [addAudioData] at h
  split at h
  · simp at h
  · rename_i h1
    split at h
    · simp at h
    · rename_i h2
      split at h
      · simp at h
      · rename_i h3
        split at h
        · simp at h
        · rename_i h4
          split at h
          · simp at h
          · rename_i h5
            simp only [Option.some.injEq, Prod.mk.injEq, and_true] at h
            simp only [not_or, Bool.not_eq_false, not_not, not_lt] at h1 h3 h4
            exact ⟨h1.1, h1.2, h2, h3, h4.1, h4.2, h5, h.symm⟩

/-- A submission that is not accepted leaves the state as it is. -/
theorem addAudioData_rejected (p p1 : OboeAudioPlayer) (bytes : List Int) (length now : Int)
    (h : p.addAudioData bytes length now = some (p1, false)) : p1 = p := by
  simp only [addAudioData] at h
  split at h
  · simp only [Option.some.injEq, Prod.mk.injEq, and_true] at h; exact h.symm
  · split at h
    · simp at h
    · split at h
      · simp only [Option.some.injEq, Prod.mk.injEq, and_true] at h; exact h.symm
      · split at h
        · simp at h
        · split at h <;> simp at h

end OboeAudioPlayer

/-! ## Invariants of runs -/

namespace OboeAudioPlayer

/-- The eviction loop keeps chunks of the queue only. -/
theorem evictOldest_subset (q : List AudioChunk) : ∀ c ∈ evictOldest q, c ∈ q := by
  induction q with
  | nil => intro c hc; simp [evictOldest] at hc
  | cons d rest ih =>
      intro c hc
      simp only [evictOldest] at hc
      split at hc
      · exact List.mem_cons_of_mem _ (ih c hc)
      · exact hc

/-- Creating the stream keeps the queue, whatever the outcome. -/
theorem createStream_queue (p : OboeAudioPlayer) (sr cc : Int) (ok : Bool) :
    (p.createStream sr cc ok).1.audioQueue = p.audioQueue := by
  simp only [createStream]
  split <;> rfl

/-- Every call keeps the queue within its capacity. -/
theorem step_queue_length (p : OboeAudioPlayer) (op : Op) (p1 : OboeAudioPlayer)
    (hp : p.audioQueue.length ≤ MAX_QUEUE_SIZE) (h : p.step op = some p1) :
    p1.audioQueue.length ≤ MAX_QUEUE_SIZE := by
  cases op with
  | createStream sr cc ok =>
      simp only [step, Option.some.injEq] at h
      rw [← h, createStream_queue]; exact hp
  | addAudioData bytes length now =>
      simp only [step, Option.map_eq_some', Prod.exists, exists_and_right, exists_eq_right] at h
      obtain ⟨b, hb⟩ := h
      cases b with
      | true =>
          obtain ⟨_, _, _, _, _, _, _, rfl⟩ := addAudioData_accepted p p1 bytes length now hb
          rw [(pushChunk_fields p _ now _).1, List.length_append, List.length_singleton]
          have := evictOldest_length p.audioQueue
          omega
      | false =>
          rw [addAudioData_rejected p p1 bytes length now hb]; exact hp
  | onAudioReady cc n now =>
      simp only [step] at h
      split at h
      · simp only [Option.map_eq_some', Prod.exists, exists_and_right, exists_eq_right] at h
        obtain ⟨out, hout⟩ := h
        obtain ⟨_, ⟨k, hk⟩, _⟩ := onAudioReady_frame p p1 cc n now out hout
        rw [hk, List.length_drop]; omega
      · simp at h
  | onErrorAfterClose ok =>
      simp only [step] at h
      split at h
      · simp only [Option.some.injEq] at h
        rw [← h]
        simp only [onErrorAfterClose]
        split <;> exact hp
      · simp at h
  | start => simp only [step, Option.some.injEq] at h; rw [← h]; exact hp
  | pause => simp only [step, Option.some.injEq] at h; rw [← h]; exact hp
  | stop => simp only [step, Option.some.injEq] at h; rw [← h]; simp [stop, clearQueue]
  | clearQueue => simp only [step, Option.some.injEq] at h; rw [← h]; simp [clearQueue]
  | setVolume v => simp only [step, Option.some.injEq] at h; rw [← h]; exact hp

/-- Every call that does not change the channel count keeps the chunk invariant for the
channel count `cc` of the session. -/
theorem step_chunksOk (cc : Int) (hcc : 1 ≤ cc) (p : OboeAudioPlayer) (op : Op)
    (p1 : OboeAudioPlayer) (hop : ∀ sr c ok, op = Op.createStream sr c ok → c = cc)
    (hp : ChunksOk cc p ∧ (p.stream = true → p.configuredChannelCount = cc))
    (h : p.step op = some p1) :
    ChunksOk cc p1 ∧ (p1.stream = true → p1.configuredChannelCount = cc) := by
  obtain ⟨⟨hcur, hq⟩, hconf⟩ := hp
  cases op with
  | createStream sr c ok =>
      have hc := hop sr c ok rfl
      subst hc
      simp only [step, Option.some.injEq] at h
      rw [← h]
      cases ok with
      | true => exact ⟨⟨by simp [createStream, ChunkOk], hq⟩, fun _ => rfl⟩
      | false => exact ⟨⟨hcur, hq⟩, fun hs => absurd hs (by simp [createStream])⟩
  | addAudioData bytes length now =>
      simp only [step, Option.map_eq_some', Prod.exists, exists_and_right, exists_eq_right] at h
      obtain ⟨b, hb⟩ := h
      cases b with
      | true =>
          obtain ⟨hs, _, _, hm, h0, hl, _, rfl⟩ := addAudioData_accepted p p1 bytes length now hb
          obtain ⟨e1, e2, _, e4, e5⟩ := pushChunk_fields p
            (buildChunk bytes length p.configuredChannelCount).frameCount now
            (buildChunk bytes length p.configuredChannelCount)
          have hcfg := hconf hs
          refine ⟨⟨by rw [e2]; exact hcur, ?_⟩, fun _ => by rw [e5]; exact hcfg⟩
          intro c hc
          rw [e1, List.mem_append, List.mem_singleton] at hc
          rcases hc with hc | hc
          · exact hq c (evictOldest_subset _ c hc)
          · rw [hc, hcfg]
            rw [hcfg] at hm
            exact buildChunk_ok bytes length cc hcc h0 hl hm
      | false =>
          rw [addAudioData_rejected p p1 bytes length now hb]; exact ⟨⟨hcur, hq⟩, hconf⟩
  | onAudioReady c n now =>
      simp only [step] at h
      split at h
      · simp only [Option.map_eq_some', Prod.exists, exists_and_right, exists_eq_right] at h
        obtain ⟨out, hout⟩ := h
        obtain ⟨hf, ⟨k, hk⟩, hch⟩ := onAudioReady_frame p p1 c n now out hout
        unfold RenderFrame at hf
        refine ⟨⟨?_, ?_⟩, fun hs => ?_⟩
        · rcases hch with hch | hch
          · rw [hch]; exact hcur
          · exact hq _ hch
        · intro d hd
          rw [hk] at hd
          exact hq d (List.mem_of_mem_drop hd)
        · rw [hf.2.2.2.2.2.2.2.1]
          exact hconf (by rw [← hf.1]; exact hs)
      · simp at h
  | onErrorAfterClose ok =>
      simp only [step] at h
      split at h
      · rename_i hs
        simp only [Option.some.injEq] at h
        rw [← h]
        simp only [onErrorAfterClose]
        split
        · exact ⟨⟨hcur, hq⟩, fun _ => hconf hs⟩
        · exact ⟨⟨hcur, hq⟩, hconf⟩
      · simp at h
  | start => simp only [step, Option.some.injEq] at h; rw [← h]; exact ⟨⟨hcur, hq⟩, hconf⟩
  | pause => simp only [step, Option.some.injEq] at h; rw [← h]; exact ⟨⟨hcur, hq⟩, hconf⟩
  | stop =>
      simp only [step, Option.some.injEq] at h; rw [← h]
      exact ⟨⟨by simp [stop, clearQueue, ChunkOk], by simp [stop, clearQueue]⟩, hconf⟩
  | clearQueue =>
      simp only [step, Option.some.injEq] at h; rw [← h]
      exact ⟨⟨by simp [clearQueue, ChunkOk], by simp [clearQueue]⟩, hconf⟩
  | setVolume v => simp only [step, Option.some.injEq] at h; rw [← h]; exact ⟨⟨hcur, hq⟩, hconf⟩

/-- The chunk invariant holds after every run whose `createStream` calls all ask for the same
channel count. -/
theorem run_chunksOk (cc : Int) (hcc : 1 ≤ cc) :
    ∀ (ops : List Op) (p p1 : OboeAudioPlayer),
      (∀ sr c ok, Op.createStream sr c ok ∈ ops → c = cc) →
      (ChunksOk cc p ∧ (p.stream = true → p.configuredChannelCount = cc)) →
      run p ops = some p1 →
      ChunksOk cc p1 ∧ (p1.stream = true → p1.configuredChannelCount = cc) := by
  intro ops
  induction ops with
  | nil =>
      intro p p1 _ hp h
      simp only [run, Option.some.injEq] at h
      rw [← h]; exact hp
  | cons op ops ih =>
      intro p p1 hsame hp h
      simp only [run] at h
      split at h
      · simp at h
      · rename_i p2 hstep
        refine ih p2 p1 (fun sr c ok hmem => hsame sr c ok (List.mem_cons_of_mem _ hmem))
          (step_chunksOk cc hcc p op p2 (fun sr c ok he => hsame sr c ok ?_) hp hstep) h
        rw [he]; exact List.mem_cons_self _ _

end OboeAudioPlayer

/-! ## The underrun policy -/

namespace OboeAudioPlayer

/-- The remainder by 10 of C++ is zero exactly when the floor remainder is. -/
theorem tmod_ten (x : Int) : Int.tmod x 10 = 0 ↔ x % 10 = 0 := by
  rw [← Int.dvd_iff_tmod_eq_zero]
  omega

/-- A multiple of 50 is a multiple of 10. -/
theorem tmod_fifty (x : Int) (h : Int.tmod x 50 = 0) : Int.tmod x 10 = 0 := by
  rw [← Int.dvd_iff_tmod_eq_zero] at h ⊢
  omega

/-- Inside the signed 32-bit range the reduction changes nothing. -/
theorem wrap32_id (x : Int) (h1 : -2147483648 ≤ x) (h2 : x ≤ 2147483647) : wrap32 x = x := by
  unfold wrap32
  omega

/-- The reduction lands in the signed 32-bit range. -/
theorem wrap32_range (x : Int) : -2147483648 ≤ wrap32 x ∧ wrap32 x ≤ 2147483647 := by
  unfold wrap32
  omega

/-- The underrun policy counts one underrun in 32 bits and, on an empty queue, goes back to
prebuffering exactly when the new count is a multiple of 10. -/
theorem underrunPolicy_empty (p : OboeAudioPlayer) (hq : p.audioQueue = [])
    (hplay : p.isPrebuffering = false) :
    (underrunPolicy p).underrunCount = wrap32 (p.underrunCount + 1) ∧
    ((underrunPolicy p).isPrebuffering = true ↔
      Int.tmod (wrap32 (p.underrunCount + 1)) 10 = 0) := by
  simp only [underrunPolicy, hq, List.length_nil, true_and]
  split
  · rename_i h
    simp [h]
  · rename_i h
    split
    · rename_i h2
      exact absurd (tmod_fifty _ h2.2) h
    · simp [hplay, h]

/-- Among ten consecutive values of the underrun count whose successors stay inside 32 bits,
exactly one makes the policy go back to prebuffering. -/
theorem underrunPolicy_once_per_ten (p : OboeAudioPlayer) (u : Int)
    (hlo : -2147483649 ≤ u) (hhi : u + 10 ≤ 2147483647) :
    ∃! j : Nat, j < 10 ∧
      (underrunPolicy { p with audioQueue := [], isPrebuffering := false,
                               underrunCount := u + (j : Int) }).isPrebuffering = true := by
  have key : ∀ j : Nat, j < 10 →
      ((underrunPolicy { p with audioQueue := [], isPrebuffering := false,
                                underrunCount := u + (j : Int) }).isPrebuffering = true
        ↔ (u + (j : Int) + 1) % 10 = 0) := by
    intro j hj
    rw [(underrunPolicy_empty _ rfl rfl).2, tmod_ten]
    simp only
    rw [wrap32_id _ (by omega) (by omega)]
  refine ⟨((9 - u % 10) % 10).toNat, ⟨by omega, (key _ (by omega)).2 (by omega)⟩, ?_⟩
  rintro j ⟨hj, hp⟩
  have := (key j hj).1 hp
  omega

end OboeAudioPlayer

/-! ## The prebuffering block -/

namespace OboeAudioPlayer

/-- The state after the stall timeout of a render call that begins while prebuffering: chunks,
cursor and estimate are untouched, and prebuffering ends exactly when the queue is empty and
the 32-bit count of consecutive prebuffering calls, this one included, exceeds 1000. -/
theorem filling_gate (p : OboeAudioPlayer) (now : Int) (hfill : p.isPrebuffering = true) :
    (prebufferTimeout (prologue p now)).audioQueue = p.audioQueue ∧
    (prebufferTimeout (prologue p now)).currentChunk = p.currentChunk ∧
    (prebufferTimeout (prologue p now)).currentFrameIndex = p.currentFrameIndex ∧
    (prebufferTimeout (prologue p now)).chunksConsumed = p.chunksConsumed ∧
    (prebufferTimeout (prologue p now)).underrunCount = p.underrunCount ∧
    (prebufferTimeout (prologue p now)).stream = p.stream ∧
    totalBufferMs (prebufferTimeout (prologue p now)) = totalBufferMs p ∧
    ((prebufferTimeout (prologue p now)).isPrebuffering = false ↔
      (p.audioQueue = [] ∧ 1000 < wrap32 (p.prebufferingCallbacks + 1))) ∧
    ((prebufferTimeout (prologue p now)).isPrebuffering = true →
      (prebufferTimeout (prologue p now)).prebufferingCallbacks
        = wrap32 (p.prebufferingCallbacks + 1)) := by
  have hpro : prologue p now = { p with totalCallbacks := p.totalCallbacks + 1 } := by
    simp [prologue, hfill]
  rw [hpro]
  simp only [prebufferTimeout, totalBufferMs]
  split
  · rename_i h
    simp only [List.length_eq_zero] at h
    simp [h.1, h.2]
  · rename_i h
    simp only [List.length_eq_zero, not_and] at h
    simp only [hfill, true_and, Bool.true_eq_false, false_iff, not_and, implies_true, and_true]
    intro hq hlt
    exact h hlt hq

/-- A render call that begins while prebuffering: below the target it writes zeros and returns
the state after the stall timeout; at the target it goes on to the drain loop as a playing
call. -/
theorem onAudioReady_filling (p : OboeAudioPlayer) (cc n now : Int)
    (hfill : p.isPrebuffering = true) :
    (totalBufferMs p < TARGET_PREBUFFER_MS →
      p.onAudioReady cc n now
        = some (prebufferTimeout (prologue p now), List.replicate (n * cc).toNat (some 0))) ∧
    (TARGET_PREBUFFER_MS ≤ totalBufferMs p →
      p.onAudioReady cc n now
        = drain (prebufferComplete (prebufferTimeout (prologue p now)) now) cc n) := by
  have hpre : (prologue p now).isPrebuffering = true := by
    rw [(prologue_chunks p now).2.2.2.2.1]; exact hfill
  have htot := (filling_gate p now hfill).2.2.2.2.2.2.1
  constructor
  · intro hlow
    simp only [onAudioReady, hpre, if_true, htot, hlow, fill_n_blank]
  · intro hhigh
    have : ¬ totalBufferMs p < TARGET_PREBUFFER_MS := by omega
    simp only [onAudioReady, hpre, if_true, htot, this, if_false]

/-- The outcome of the drain of a call that enters the loop playing: either no underrun is
counted and the player keeps playing, or exactly one is counted and the player goes back to
prebuffering exactly when the new count is a multiple of 10. -/
theorem drain_playing_outcome (q : OboeAudioPlayer) (cc n : Int) (hn : 0 ≤ n) (hcc : 1 ≤ cc)
    (hplay : q.isPrebuffering = false) :
    ∃ (p1 : OboeAudioPlayer) (out : Buffer), drain q cc n = some (p1, out) ∧
      ((p1.underrunCount = q.underrunCount ∧ p1.isPrebuffering = false) ∨
       (p1.underrunCount = wrap32 (q.underrunCount + 1) ∧
        (p1.isPrebuffering = true ↔ Int.tmod (wrap32 (q.underrunCount + 1)) 10 = 0))) := by
  obtain ⟨st, b, _, hdrain, _, hfalse, htrue⟩ := drain_summary q cc n hn hcc
  obtain ⟨_, _, _, epre, euc⟩ := epilogue_chunks st.player n
  refine ⟨_, _, hdrain, ?_⟩
  cases b with
  | false =>
      have hframe := hfalse rfl
      unfold DrainFrame at hframe
      exact Or.inl ⟨by rw [euc, hframe.2.1], by rw [epre, hframe.2.2.2.1]; exact hplay⟩
  | true =>
      obtain ⟨s, hframe, hsq, _, hpol, _⟩ := htrue rfl
      unfold DrainFrame at hframe
      have hsplay : s.player.isPrebuffering = false := by rw [hframe.2.2.2.1]; exact hplay
      obtain ⟨hu1, hu2⟩ := underrunPolicy_empty s.player hsq hsplay
      refine Or.inr ⟨by rw [euc, hpol, hu1, hframe.2.1], ?_⟩
      rw [epre, hpol, ← hframe.2.1]
      exact hu2

/-- A run of two sequences of calls is the run of the second from the result of the first. -/
theorem run_append (ops1 ops2 : List Op) :
    ∀ p : OboeAudioPlayer, run p (ops1 ++ ops2) = (run p ops1).bind (fun q => run q ops2) := by
  induction ops1 with
  | nil => intro p; simp [run]
  | cons op ops ih =>
      intro p
      simp only [List.cons_append, run]
      split
      · simp
      · exact ih _

end OboeAudioPlayer

/-! ## Gain -/

namespace F32

/-- A number below `2^k` has at most `k` binary digits, whatever the budget of halvings. -/
theorem bitLenAux_le (f : Nat) : ∀ (n k : Nat), n < 2 ^ k → bitLenAux f n ≤ k := by
  induction f with
  | zero => intro n k _; simp [bitLenAux]
  | succ f ih =>
      intro n k h
      simp only [bitLenAux]
      split
      · omega
      · rename_i hn
        cases k with
        | zero => simp at h; omega
        | succ k =>
            have : n / 2 < 2 ^ k := by
              rw [Nat.pow_succ] at h
              omega
            have := ih (n / 2) k this
            omega

/-- A number below `2^k` has at most `k` binary digits. -/
theorem bitLen_le (n k : Nat) (h : n < 2 ^ k) : bitLen n ≤ k := bitLenAux_le n n k h

/-- A value of at most 24 significant bits with an exponent in range is not changed by
rounding. -/
theorem round_exact (neg : Bool) (n : Nat) (e : Int) (hn : n < 2 ^ 24) (he : -149 ≤ e)
    (he2 : e ≤ 100) : round neg n e = fin neg n e := by
  have hb := bitLen_le n 24 hn
  have hd : max (bitLen n - 24) (-149 - e).toNat = 0 := by omega
  have hr : roundNE n 0 = n := by simp [roundNE, Nat.mod_one]
  simp only [round, hd, hr]
  rw [if_neg (by push_cast; omega)]
  simp

/-- The conversion of an integer of at most 24 bits to `float` is exact. -/
theorem ofInt_small (i : Int) (h : i.natAbs < 2 ^ 24) :
    ofInt i = fin (decide (i < 0)) i.natAbs 0 :=
  round_exact _ _ 0 h (by omega) (by omega)

end F32

/-- A value inside the 16-bit range is not changed by the reduction. -/
theorem wrap16_id (x : Int) (h1 : -32768 ≤ x) (h2 : x ≤ 32767) : wrap16 x = x := by
  unfold wrap16
  omega

/-- At gain 0.5 the gain loop halves a 16-bit sample and truncates toward zero. -/
theorem scaleSample_half (s : Int) (h1 : -32768 ≤ s) (h2 : s ≤ 32767) :
    scaleSample F32.half s = Int.tdiv s 2 := by
  have hs : s.natAbs < 2 ^ 24 := by omega
  have hs1 : s.natAbs * 1 < 2 ^ 24 := by omega
  have hmul : F32.mul (F32.ofInt s) F32.half = F32.fin (decide (s < 0)) s.natAbs (-1) := by
    rw [F32.ofInt_small s hs]
    simp only [F32.half, F32.mul]
    rw [F32.round_exact _ _ (0 + -1) hs1 (by omega) (by omega)]
    simp
  have htr : ∀ (sg : Bool) (a : Nat), F32.trunc (F32.fin sg a (-1))
      = if sg then -((a / 2 : Nat) : Int) else ((a / 2 : Nat) : Int) := by
    intro sg a
    simp [F32.trunc]
  simp only [scaleSample, toInt16, hmul, htr]
  by_cases hneg : s < 0
  · have e1 : Int.tdiv s 2 = -((-s) / 2) := by
      have : s = -(-s) := by omega
      rw [this, Int.neg_tdiv, Int.tdiv_eq_ediv (by omega) (by omega)]
      simp
    have e2 : ((s.natAbs / 2 : Nat) : Int) = (-s) / 2 := by omega
    simp only [hneg, decide_True, if_true, e1, e2]
    exact wrap16_id _ (by omega) (by omega)
  · have e1 : Int.tdiv s 2 = s / 2 := Int.tdiv_eq_ediv (by omega) (by omega)
    have e2 : ((s.natAbs / 2 : Nat) : Int) = s / 2 := by omega
    simp only [hneg, decide_False, Bool.false_eq_true, if_false, e1, e2]
    exact wrap16_id _ (by omega) (by omega)

/-- Halving with truncation toward zero is off by less than 1. -/
theorem tdiv_two_error (s : Int) :
    |2 * Int.tdiv s 2 - s| < 2 ∧ |((Int.tdiv s 2 : Int) : ℚ) - (s : ℚ) * (1 / 2)| < 1 := by
  have h : -2 < 2 * Int.tdiv s 2 - s ∧ 2 * Int.tdiv s 2 - s < 2 := by
    by_cases hneg : s < 0
    · have e1 : Int.tdiv s 2 = -((-s) / 2) := by
        have : s = -(-s) := by omega
        rw [this, Int.neg_tdiv, Int.tdiv_eq_ediv (by omega) (by omega)]
        simp
      rw [e1]; omega
    · rw [Int.tdiv_eq_ediv (by omega) (by omega)]; omega
  obtain ⟨ha, hb⟩ := h
  have ha' : (-2 : ℚ) < 2 * ((Int.tdiv s 2 : Int) : ℚ) - (s : ℚ) := by exact_mod_cast ha
  have hb' : 2 * ((Int.tdiv s 2 : Int) : ℚ) - (s : ℚ) < 2 := by exact_mod_cast hb
  refine ⟨abs_lt.mpr ⟨ha, hb⟩, abs_lt.mpr ⟨by linarith, by linarith⟩⟩

/-- The three gains of the volume tests select the three regimes. -/
theorem gainMap_regimes :
    gainMap F32.one = id ∧ gainMap F32.zero = (fun _ => 0) ∧
    gainMap F32.half = scaleSample F32.half := by
  have h1 : F32.le F32.c099 F32.one = true := by decide
  have h2 : F32.le F32.c099 F32.zero = false := by decide
  have h3 : F32.le F32.zero F32.c001 = true := by decide
  have h4 : F32.le F32.c099 F32.half = false := by decide
  have h5 : F32.le F32.half F32.c001 = false := by decide
  refine ⟨?_, ?_, ?_⟩
  · simp only [gainMap, h1, if_true]
  · simp only [gainMap, h2, h3, Bool.false_eq_true, if_false, if_true]
  · simp only [gainMap, h4, h5, Bool.false_eq_true, if_false]

/-- The cell of a pending sample in the output of a drain. -/
theorem output_cell (g : Int → Int) (stream : List Int) (k z i : Nat) (s : Int) (hi : i < k)
    (hs : stream[i]? = some s) :
    (((stream.take k).map g ++ List.replicate z 0).map some)[i]? = some (some (g s)) := by
  have hlen : i < stream.length := by
    by_contra hc
    rw [List.getElem?_eq_none (by omega)] at hs
    simp at hs
  have h1 : i < ((stream.take k).map g).length := by
    simp only [List.length_map, List.length_take]; omega
  rw [List.getElem?_map, List.getElem?_append_left h1, List.getElem?_map,
    List.getElem?_take_of_lt hi, hs]
  rfl

/-! ## The gain setter -/

namespace F32

/-- For values that are not NaN, `a < b` false means `b <= a`. -/
theorem le_of_lt_eq_false (a b : F32) (ha : a ≠ nan) (hb : b ≠ nan) (h : lt a b = false) :
    le b a = true := by
  cases a with
  | nan => exact absurd rfl ha
  | inf s =>
      cases b with
      | nan => exact absurd rfl hb
      | inf t => cases s <;> cases t <;> simp_all [lt, le]
      | fin t b eb => cases s <;> simp_all [lt, le]
  | fin s a ea =>
      cases b with
      | nan => exact absurd rfl hb
      | inf t => cases t <;> simp_all [lt, le]
      | fin t b eb =>
          simp only [lt, decide_eq_false_iff_not, not_lt] at h
          simp only [le, decide_eq_true_eq]
          rw [min_comm eb ea]
          exact h

/-- The clamp of the code is the `min(max(x, 0.0), 1.0)` of the specification. -/
theorem clamp_eq_clampSpec (x : F32) : clamp x zero one = clampSpec x := by
  have h10 : lt one zero = false := by decide
  simp only [clamp, clampSpec, fmin, fmax]
  by_cases h : lt x zero = true
  · simp [h, h10]
  · simp [h]

/-- The clamp of a value that is not NaN lies between 0.0 and 1.0. -/
theorem clamp_unit (x : F32) (hx : x ≠ nan) :
    le zero (clamp x zero one) = true ∧ le (clamp x zero one) one = true := by
  simp only [clamp]
  cases h0 : lt x zero with
  | true => simp only [if_true]; decide
  | false =>
      cases h1 : lt one x with
      | true => simp only [Bool.false_eq_true, if_false, if_true]; decide
      | false =>
          simp only [Bool.false_eq_true, if_false]
          exact ⟨le_of_lt_eq_false x zero hx (by decide) h0,
            le_of_lt_eq_false one x (by decide) hx h1⟩

/-- A value between 0.0 and 1.0 is not below 0.0 and not above 1.0. -/
theorem lt_eq_false_of_le (a b : F32) (h : le a b = true) : lt b a = false := by
  cases a with
  | nan => simp [le] at h
  | inf s =>
      cases b with
      | nan => simp [le] at h
      | inf t => cases s <;> cases t <;> simp_all [lt, le]
      | fin t b eb => cases s <;> simp_all [lt, le]
  | fin s a ea =>
      cases b with
      | nan => simp [le] at h
      | inf t => cases t <;> simp_all [lt, le]
      | fin t b eb =>
          simp only [le, decide_eq_true_eq] at h
          simp only [lt, decide_eq_false_iff_not, not_lt]
          rw [min_comm eb ea]
          exact h

/-- A scaled magnitude with a positive sign is not negative. -/
theorem scaled_nonneg (m : Nat) (e base : Int) : 0 ≤ scaled false m e base := by
  simp only [scaled, Bool.false_eq_true, if_false]
  exact Int.ofNat_nonneg _

/-- A scaled magnitude with a negative sign is not positive. -/
theorem scaled_nonpos (m : Nat) (e base : Int) : scaled true m e base ≤ 0 := by
  simp only [scaled, if_true]
  have := Int.ofNat_nonneg (m * 2 ^ (e - base).toNat)
  omega

/-- A value above 1.0 is not below 0.0. -/
theorem lt_zero_of_one_lt (x : F32) (h : lt one x = true) : lt x zero = false := by
  cases x with
  | nan => rfl
  | inf s => cases s <;> simp_all [lt, one, zero]
  | fin s a e =>
      simp only [lt, one, decide_eq_true_eq] at h
      simp only [lt, zero, decide_eq_false_iff_not, not_lt]
      cases s with
      | true =>
          have h1 := scaled_nonneg 1 0 (min 0 e)
          have h2 := scaled_nonpos a e (min 0 e)
          omega
      | false =>
          have h1 := scaled_nonneg a e (min e 0)
          have h2 : scaled false 0 0 (min e 0) = 0 := by simp [scaled]
          omega

/-- The clamp leaves a value between 0.0 and 1.0 as it is. -/
theorem clamp_of_unit (x : F32) (h0 : le zero x = true) (h1 : le x one = true) :
    clamp x zero one = x := by
  simp only [clamp, lt_eq_false_of_le zero x h0, lt_eq_false_of_le x one h1,
    Bool.false_eq_true, if_false]

/-- The clamp is idempotent. -/
theorem clamp_idem (x : F32) : clamp (clamp x zero one) zero one = clamp x zero one := by
  have h00 : lt zero zero = false := by decide
  have h10 : lt one zero = false := by decide
  have h11 : lt one one = false := by decide
  simp only [clamp]
  cases h0 : lt x zero with
  | true => simp [h00, h10]
  | false =>
      cases h1 : lt one x with
      | true => simp [h10, h11]
      | false => simp [h0, h1]

end F32

/-! ## Session control -/

namespace OboeAudioPlayer

/-- The estimate after an accepted submission is the estimate after `updateEstimate`. -/
theorem pushChunk_estimate (p : OboeAudioPlayer) (f now : Int) (c : AudioChunk) :
    (pushChunk (updateInterval (updateEstimate p f) now) c).estimatedChunkMs
      = (updateEstimate p f).estimatedChunkMs := by
  simp only [pushChunk, updateInterval]
  split
  · split <;> rfl
  · rfl

/-- Every call but `start` keeps a player that is not playing not playing, with an empty queue. -/
theorem step_stopped (p : OboeAudioPlayer) (op : Op) (p1 : OboeAudioPlayer)
    (hop : op ≠ Op.start) (hp : p.isPlaying = false ∧ p.audioQueue = [])
    (h : p.step op = some p1) : p1.isPlaying = false ∧ p1.audioQueue = [] := by
  obtain ⟨hplay, hq⟩ := hp
  cases op with
  | createStream sr cc ok =>
      simp only [step, Option.some.injEq] at h
      rw [← h]
      simp only [createStream]
      split <;> exact ⟨hplay, hq⟩
  | addAudioData bytes length now =>
      simp only [step, addAudioData, hplay, or_true, if_true, Option.map_some',
        Option.some.injEq] at h
      rw [← h]; exact ⟨hplay, hq⟩
  | onAudioReady cc n now =>
      simp only [step] at h
      split at h
      · simp only [Option.map_eq_some', Prod.exists, exists_and_right, exists_eq_right] at h
        obtain ⟨out, hout⟩ := h
        obtain ⟨hf, ⟨k, hk⟩, _⟩ := onAudioReady_frame p p1 cc n now out hout
        unfold RenderFrame at hf
        exact ⟨by rw [hf.2.1]; exact hplay, by rw [hk, hq]; simp⟩
      · simp at h
  | onErrorAfterClose ok =>
      simp only [step] at h
      split at h
      · simp only [Option.some.injEq] at h
        rw [← h]
        simp only [onErrorAfterClose]
        split <;> exact ⟨hplay, hq⟩
      · simp at h
  | start => exact absurd rfl hop
  | pause => simp only [step, Option.some.injEq] at h; rw [← h]; exact ⟨hplay, hq⟩
  | stop => simp only [step, Option.some.injEq] at h; rw [← h]; simp [stop, clearQueue]
  | clearQueue =>
      simp only [step, Option.some.injEq] at h; rw [← h]
      exact ⟨hplay, by simp [clearQueue]⟩
  | setVolume v => simp only [step, Option.some.injEq] at h; rw [← h]; exact ⟨hplay, hq⟩

/-- A run without `start` keeps a player that is not playing not playing, with an empty
queue. -/
theorem run_stopped :
    ∀ (ops : List Op) (p p1 : OboeAudioPlayer), Op.start ∉ ops →
      p.isPlaying = false ∧ p.audioQueue = [] → run p ops = some p1 →
      p1.isPlaying = false ∧ p1.audioQueue = [] := by
  intro ops
  induction ops with
  | nil =>
      intro p p1 _ hp h
      simp only [run, Option.some.injEq] at h
      rw [← h]; exact hp
  | cons op ops ih =>
      intro p p1 hno hp h
      simp only [run] at h
      split at h
      · simp at h
      · rename_i p2 hstep
        simp only [List.mem_cons, not_or] at hno
        exact ih p2 p1 hno.2 (step_stopped p op p2 (fun he => hno.1 he.symm) hp hstep) h

end OboeAudioPlayer

/-! ## Idle render calls -/

namespace OboeAudioPlayer

/-- The state after `k` render calls on a prebuffering player with an empty queue, as long as
the count of consecutive prebuffering calls does not pass 1000: the two callback counts grow
by `k` and nothing else changes. -/
theorem filling_idle_state (cc n now : Int) (k : Nat) :
    ∀ p : OboeAudioPlayer, p.stream = true → p.isPrebuffering = true → p.audioQueue = [] →
      0 ≤ p.prebufferingCallbacks → p.prebufferingCallbacks + (k : Int) ≤ 1000 →
      run p (List.replicate k (Op.onAudioReady cc n now))
        = some { p with totalCallbacks := p.totalCallbacks + (k : Int),
                        prebufferingCallbacks := p.prebufferingCallbacks + (k : Int) } := by
  induction k with
  | zero =>
      intro p _ _ _ _ _
      cases p
      simp [run]
  | succ k ih =>
      intro p hs hf hq h0 hle
      have hlow : totalBufferMs p < TARGET_PREBUFFER_MS := by
        simp [totalBufferMs, hq, TARGET_PREBUFFER_MS]
      have hcall := (onAudioReady_filling p cc n now hf).1 hlow
      have hw : wrap32 (p.prebufferingCallbacks + 1) = p.prebufferingCallbacks + 1 := by
        push_cast at hle
        exact wrap32_id _ (by omega) (by omega)
      have hstate : prebufferTimeout (prologue p now)
          = { p with totalCallbacks := p.totalCallbacks + 1,
                     prebufferingCallbacks := p.prebufferingCallbacks + 1 } := by
        have hpro : prologue p now = { p with totalCallbacks := p.totalCallbacks + 1 } := by
          simp [prologue, hf]
        have hno : ¬ (1000 < p.prebufferingCallbacks + 1 ∧ p.audioQueue.length = 0) := by
          push_cast at hle
          omega
        rw [hpro]
        simp only [prebufferTimeout, hw, hno, if_false]
      have hih := ih { p with totalCallbacks := p.totalCallbacks + 1,
                              prebufferingCallbacks := p.prebufferingCallbacks + 1 } hs hf hq
        (by show 0 ≤ p.prebufferingCallbacks + 1
            omega)
        (by show p.prebufferingCallbacks + 1 + (k : Int) ≤ 1000
            push_cast at hle
            omega)
      simp only [List.replicate_succ, run, step, if_pos hs, hcall, Option.map_some',
        Option.bind_eq_bind, Option.some_bind, hstate]
      refine hih.trans ?_
      cases p
      simp only [Option.some.injEq, mk.injEq, true_and, and_true]
      constructor <;> (push_cast; ring)

/-- On an empty queue the rule for a low buffer cannot fire: the two policies agree. -/
theorem underrunPolicy_noLow (p : OboeAudioPlayer) (hq : p.audioQueue = []) :
    underrunPolicy p = underrunPolicyNoLow p := by
  simp only [underrunPolicy, underrunPolicyNoLow, hq, List.length_nil, true_and]
  split
  · rfl
  · rename_i h
    split
    · rename_i h2
      exact absurd (tmod_fifty _ h2.2) h
    · rfl

/-- The iterations of the two drain loops agree. -/
theorem drainStep_noLow (cc n : Int) (st : DrainState) :
    drainStep cc n st = drainStepNoLow cc n st := by
  simp only [drainStep, drainStepNoLow]
  split
  · split
    · rfl
    · rename_i hq
      simp only [underrunBranch, underrunBranchNoLow, underrunPolicy_noLow st.player hq]
  · rfl

/-- The two drain loops agree. -/
theorem drainLoop_noLow (cc n : Int) (fuel : Nat) :
    ∀ st : DrainState, drainLoop cc n fuel st = drainLoopNoLow cc n fuel st := by
  induction fuel with
  | zero => intro st; rfl
  | succ fuel ih =>
      intro st
      simp only [drainLoop, drainLoopNoLow, drainStep_noLow, ih]

end OboeAudioPlayer

/-! ## The cursor invariant -/

namespace OboeAudioPlayer

/-- The cursor invariant depends on the queue, the cursor chunk and the cursor index only. -/
theorem cursorInv_of_chunks (p q : OboeAudioPlayer) (hq : q.audioQueue = p.audioQueue)
    (hc : q.currentChunk = p.currentChunk) (hi : q.currentFrameIndex = p.currentFrameIndex)
    (h : CursorInv p) : CursorInv q := by
  unfold CursorInv CursorOk FramesNonneg at *
  rw [hq, hc, hi]
  exact h

/-- While the request is incomplete, `copyPart` on a chunk whose frame count is not negative
leaves the cursor inside the chunk, whatever the cursor was before. -/
theorem copyPart_cursor (cc n : Int) (st st1 : DrainState) (h : copyPart cc n st = some st1)
    (hfw : st.framesWritten < n) (hfc : 0 ≤ st.player.currentChunk.frameCount) :
    CursorOk st1.player ∧ st1.player.audioQueue = st.player.audioQueue := by
  simp only [copyPart] at h
  split at h
  · rename_i hchk
    obtain ⟨h1, h2, _, h4⟩ := hchk
    split at h
    · exact absurd h (by simp)
    · simp only [Option.some.injEq] at h
      subst h
      have hmin1 := min_le_left (n - st.framesWritten)
        (st.player.currentChunk.frameCount - st.player.currentFrameIndex)
      have hmin2 := min_le_right (n - st.framesWritten)
        (st.player.currentChunk.frameCount - st.player.currentFrameIndex)
      generalize min (n - st.framesWritten)
        (st.player.currentChunk.frameCount - st.player.currentFrameIndex) = ftc at *
      have hcc : 0 < cc := by
        by_contra hneg
        have hcc0 : cc ≤ 0 := by omega
        have hftc : ftc < 0 := by
          by_contra hh
          have : ftc * cc ≤ 0 := by nlinarith
          omega
        have hne : cc ≠ 0 := by
          intro h0
          rw [h0] at h2
          simp at h2
        have hlt : cc < 0 := by omega
        have hpos : 0 < (st.framesWritten + ftc - n) * cc :=
          mul_pos_of_neg_of_neg (by omega) hlt
        have : (st.framesWritten + ftc - n) * cc
            = st.framesWritten * cc + ftc * cc - n * cc := by ring
        omega
      have hftc : 0 < ftc := by
        by_contra hh
        have : ftc * cc ≤ 0 := by nlinarith
        omega
      have hidx : 0 ≤ st.player.currentFrameIndex := by
        by_contra hh
        have : st.player.currentFrameIndex * cc < 0 := by nlinarith
        omega
      refine ⟨⟨?_, ?_⟩, rfl⟩
      · simp only; omega
      · simp only; omega
  · simp only [Option.some.injEq] at h
    subst h
    exact ⟨⟨hfc, le_refl _⟩, rfl⟩

/-- Every iteration of the drain loop keeps the cursor invariant. -/
theorem drainStep_cursor (cc n : Int) (st st1 : DrainState) (b : Bool)
    (h : drainStep cc n st = some (st1, b)) (hfw : st.framesWritten < n)
    (hinv : CursorInv st.player) : CursorInv st1.player := by
  obtain ⟨⟨h0, hle⟩, hq⟩ := hinv
  simp only [drainStep] at h
  split at h
  · split at h
    · rename_i c rest hqueue
      simp only [Option.map_eq_some', Prod.mk.injEq] at h
      obtain ⟨a, ha, rfl, _⟩ := h
      have hc : 0 ≤ c.frameCount := hq c (by rw [hqueue]; exact List.mem_cons_self _ _)
      obtain ⟨hcur, hqa⟩ := copyPart_cursor cc n _ a ha hfw hc
      refine ⟨hcur, ?_⟩
      intro x hx
      rw [hqa] at hx
      exact hq x (by rw [hqueue]; exact List.mem_cons_of_mem _ hx)
    · simp only [Option.map_eq_some', Prod.mk.injEq] at h
      obtain ⟨a, ha, rfl, _⟩ := h
      simp only [underrunBranch] at ha
      split at ha
      · exact absurd ha (by simp)
      · simp only [Option.some.injEq] at ha
        subst ha
        obtain ⟨e1, e2, e3, _⟩ := underrunPolicy_chunks st.player
        exact cursorInv_of_chunks st.player _ e1 e2 e3 ⟨⟨h0, hle⟩, hq⟩
  · simp only [Option.map_eq_some', Prod.mk.injEq] at h
    obtain ⟨a, ha, rfl, _⟩ := h
    obtain ⟨hcur, hqa⟩ := copyPart_cursor cc n st a ha hfw (by omega)
    refine ⟨hcur, ?_⟩
    intro x hx
    rw [hqa] at hx
    exact hq x hx

/-- The drain of a render call keeps the cursor invariant. -/
theorem drain_cursor (p p1 : OboeAudioPlayer) (cc n : Int) (out : Buffer)
    (h : drain p cc n = some (p1, out)) (hinv : CursorInv p) : CursorInv p1 := by
  simp only [drain] at h
  split at h
  · simp at h
  · rename_i st b hres
    simp only [Option.some.injEq, Prod.mk.injEq] at h
    obtain ⟨rfl, _⟩ := h
    obtain ⟨s, hsteps, hcase⟩ := drainLoop_sound cc n _ _ st b hres
    have hs : CursorInv s.player :=
      hsteps.preserves (fun s => CursorInv s.player)
        (fun a a1 ha hc hstep => drainStep_cursor cc n a a1 false hstep hc ha) hinv
    obtain ⟨eq, ech, ei, _⟩ := epilogue_chunks st.player n
    apply cursorInv_of_chunks _ _ eq ech ei
    rcases hcase with ⟨_, rfl, _⟩ | ⟨_, hc, hstep⟩
    · exact hs
    · exact drainStep_cursor cc n s st true hstep hc hs

/-- A render call keeps the cursor invariant. -/
theorem onAudioReady_cursor (p p1 : OboeAudioPlayer) (cc n now : Int) (out : Buffer)
    (h : p.onAudioReady cc n now = some (p1, out)) (hinv : CursorInv p) : CursorInv p1 := by
  obtain ⟨hq, hch, hi, _⟩ := prologue_chunks p now
  obtain ⟨_, hq2, hch2, hi2, _⟩ := prebufferTimeout_frame (prologue p now)
  have h1 : CursorInv (prologue p now) := cursorInv_of_chunks p _ hq hch hi hinv
  have h2 : CursorInv (prebufferTimeout (prologue p now)) :=
    cursorInv_of_chunks _ _ hq2 hch2 hi2 h1
  simp only [onAudioReady] at h
  split at h
  · split at h
    · split at h
      · simp at h
      · simp only [Option.some.injEq, Prod.mk.injEq] at h
        obtain ⟨rfl, _⟩ := h
        exact h2
    · exact drain_cursor _ _ _ _ _ h
        (cursorInv_of_chunks (prebufferTimeout (prologue p now)) _ rfl rfl rfl h2)
  · exact drain_cursor _ _ _ _ _ h h1

/-- Every call keeps the cursor invariant, provided that a submission of a length that is not
negative builds a chunk whose frame count is not negative. -/
theorem step_cursor (p : OboeAudioPlayer) (op : Op) (p1 : OboeAudioPlayer)
    (hinv : CursorInv p)
    (hop : ∀ bytes length now, op = Op.addAudioData bytes length now → 0 ≤ length →
      0 ≤ (buildChunk bytes length p.configuredChannelCount).frameCount)
    (h : p.step op = some p1) : CursorInv p1 := by
  cases op with
  | createStream sr c ok =>
      simp only [step, Option.some.injEq] at h
      rw [← h]
      cases ok with
      | true => exact ⟨⟨le_refl _, le_refl _⟩, hinv.2⟩
      | false => exact hinv
  | addAudioData bytes length now =>
      simp only [step, Option.map_eq_some', Prod.exists, exists_and_right, exists_eq_right] at h
      obtain ⟨b, hb⟩ := h
      cases b with
      | true =>
          obtain ⟨_, _, _, _, hl, _, _, rfl⟩ := addAudioData_accepted p p1 bytes length now hb
          obtain ⟨e1, e2, e3, _, _⟩ := pushChunk_fields p
            (buildChunk bytes length p.configuredChannelCount).frameCount now
            (buildChunk bytes length p.configuredChannelCount)
          refine ⟨?_, ?_⟩
          · unfold CursorOk
            rw [e2, e3]
            exact hinv.1
          · intro c hc
            rw [e1, List.mem_append, List.mem_singleton] at hc
            rcases hc with hc | hc
            · exact hinv.2 c (evictOldest_subset _ c hc)
            · rw [hc]
              exact hop bytes length now rfl hl
      | false =>
          rw [addAudioData_rejected p p1 bytes length now hb]; exact hinv
  | onAudioReady c n now =>
      simp only [step] at h
      split at h
      · simp only [Option.map_eq_some', Prod.exists, exists_and_right, exists_eq_right] at h
        obtain ⟨out, hout⟩ := h
        exact onAudioReady_cursor p p1 c n now out hout hinv
      · simp at h
  | onErrorAfterClose ok =>
      simp only [step] at h
      split at h
      · simp only [Option.some.injEq] at h
        rw [← h]
        simp only [onErrorAfterClose]
        split <;> exact hinv
      · simp at h
  | start => simp only [step, Option.some.injEq] at h; rw [← h]; exact hinv
  | pause => simp only [step, Option.some.injEq] at h; rw [← h]; exact hinv
  | stop =>
      simp only [step, Option.some.injEq] at h; rw [← h]
      exact ⟨⟨le_refl _, le_refl _⟩, by simp [FramesNonneg, stop, clearQueue]⟩
  | clearQueue =>
      simp only [step, Option.some.injEq] at h; rw [← h]
      exact ⟨⟨le_refl _, le_refl _⟩, by simp [FramesNonneg, clearQueue]⟩
  | setVolume v => simp only [step, Option.some.injEq] at h; rw [← h]; exact hinv

/-- With a channel count of at least 1, an accepted length gives a frame count that is not
negative. -/
theorem buildChunk_frames_nonneg (bytes : List Int) (length cc : Int) (hcc : 1 ≤ cc)
    (h0 : 0 ≤ length) : 0 ≤ (buildChunk bytes length cc).frameCount := by
  simp only [buildChunk]
  exact Int.tdiv_nonneg (Int.tdiv_nonneg h0 (by omega)) (by omega)

/-- Only `createStream` changes the configured channel count. -/
theorem step_configured (p : OboeAudioPlayer) (op : Op) (p1 : OboeAudioPlayer)
    (h : p.step op = some p1) :
    p1.configuredChannelCount = p.configuredChannelCount ∨
    ∃ sr c ok, op = Op.createStream sr c ok ∧ p1.configuredChannelCount = c := by
  cases op with
  | createStream sr c ok =>
      simp only [step, Option.some.injEq] at h
      rw [← h]
      refine Or.inr ⟨sr, c, ok, rfl, ?_⟩
      cases ok <;> rfl
  | addAudioData bytes length now =>
      simp only [step, Option.map_eq_some', Prod.exists, exists_and_right, exists_eq_right] at h
      obtain ⟨b, hb⟩ := h
      cases b with
      | true =>
          obtain ⟨_, _, _, _, _, _, _, rfl⟩ := addAudioData_accepted p p1 bytes length now hb
          exact Or.inl (pushChunk_fields p _ now _).2.2.2.2
      | false =>
          rw [addAudioData_rejected p p1 bytes length now hb]; exact Or.inl rfl
  | onAudioReady c n now =>
      simp only [step] at h
      split at h
      · simp only [Option.map_eq_some', Prod.exists, exists_and_right, exists_eq_right] at h
        obtain ⟨out, hout⟩ := h
        exact Or.inl (onAudioReady_frame p p1 c n now out hout).1.2.2.2.2.2.2.2.1
      · simp at h
  | onErrorAfterClose ok =>
      simp only [step] at h
      split at h
      · simp only [Option.some.injEq] at h
        rw [← h]
        simp only [onErrorAfterClose]
        split <;> exact Or.inl rfl
      · simp at h
  | start => simp only [step, Option.some.injEq] at h; rw [← h]; exact Or.inl rfl
  | pause => simp only [step, Option.some.injEq] at h; rw [← h]; exact Or.inl rfl
  | stop => simp only [step, Option.some.injEq] at h; rw [← h]; exact Or.inl rfl
  | clearQueue => simp only [step, Option.some.injEq] at h; rw [← h]; exact Or.inl rfl
  | setVolume v => simp only [step, Option.some.injEq] at h; rw [← h]; exact Or.inl rfl

/-- Every call keeps the cursor invariant together with a configured channel count of at
least 1, when the call does not create a stream of fewer channels. -/
theorem step_cursor_configured (p : OboeAudioPlayer) (op : Op) (p1 : OboeAudioPlayer)
    (hop : ∀ sr c ok, op = Op.createStream sr c ok → 1 ≤ c)
    (hp : CursorInv p ∧ 1 ≤ p.configuredChannelCount) (h : p.step op = some p1) :
    CursorInv p1 ∧ 1 ≤ p1.configuredChannelCount := by
  obtain ⟨hinv, hcfg⟩ := hp
  refine ⟨step_cursor p op p1 hinv ?_ h, ?_⟩
  · intro bytes length now _ h0
    exact buildChunk_frames_nonneg bytes length _ hcfg h0
  · rcases step_configured p op p1 h with he | ⟨sr, c, ok, hc, he⟩
    · rw [he]; exact hcfg
    · rw [he]; exact hop sr c ok hc

/-- The cursor invariant holds after every run whose `createStream` calls all ask for at least
one channel. -/
theorem run_cursor :
    ∀ (ops : List Op) (p p1 : OboeAudioPlayer),
      (∀ sr c ok, Op.createStream sr c ok ∈ ops → 1 ≤ c) →
      (CursorInv p ∧ 1 ≤ p.configuredChannelCount) → run p ops = some p1 →
      CursorInv p1 ∧ 1 ≤ p1.configuredChannelCount := by
  intro ops
  induction ops with
  | nil =>
      intro p p1 _ hp h
      simp only [run, Option.some.injEq] at h
      rw [← h]; exact hp
  | cons op ops ih =>
      intro p p1 hall hp h
      simp only [run] at h
      split at h
      · simp at h
      · rename_i p2 hstep
        refine ih p2 p1 (fun sr c ok hmem => hall sr c ok (List.mem_cons_of_mem _ hmem))
          (step_cursor_configured p op p2 (fun sr c ok he => hall sr c ok ?_) hp hstep) h
        rw [he]; exact List.mem_cons_self _ _

end OboeAudioPlayer

/-! ## Termination of the drain loop -/

namespace OboeAudioPlayer

/-- From a state that satisfies the loop invariant with the request incomplete, `copyPart`
either copies at least one frame or discards the chunk, which leaves the cursor exhausted. -/
theorem copyPart_progress (cc n : Int) (st : DrainState) (hcc : 1 ≤ cc)
    (hinv : DrainInv cc n st) :
    ∃ st1, copyPart cc n st = some st1 ∧ DrainInv cc n st1 ∧
      st1.player.audioQueue = st.player.audioQueue ∧
      ((st.framesWritten < st1.framesWritten ∧ st1.framesWritten ≤ n) ∨
       (st1.framesWritten = st.framesWritten ∧ st1.out = st.out ∧
        st1.player.currentChunk.frameCount ≤ st1.player.currentFrameIndex)) := by
  obtain ⟨st1, h1, hinv1, _⟩ := copyPart_total cc n st hcc hinv
  have hle := hinv1.2.1
  refine ⟨st1, h1, hinv1, ?_, ?_⟩
  · obtain ⟨i, hi⟩ := copyPart_player _ _ _ _ h1
    rw [hi]
  · simp only [copyPart] at h1
    split at h1
    · rename_i hchk
      split at h1
      · simp at h1
      · simp only [Option.some.injEq] at h1
        subst h1
        obtain ⟨_, h2, _, _⟩ := hchk
        simp only at hle ⊢
        generalize min (n - st.framesWritten)
          (st.player.currentChunk.frameCount - st.player.currentFrameIndex) = ftc at *
        have hpos : 0 < ftc := by
          by_contra hneg
          have : ftc * cc ≤ 0 := by nlinarith
          omega
        exact Or.inl ⟨by omega, hle⟩
    · simp only [Option.some.injEq] at h1
      subst h1
      exact Or.inr ⟨rfl, rfl, le_refl _⟩

/-- An iteration of the drain loop either fills the rest of the output and leaves the loop, or
copies at least one frame, or discards one chunk. -/
theorem drainStep_progress (cc n : Int) (st : DrainState) (hcc : 1 ≤ cc)
    (hinv : DrainInv cc n st) (hfw : st.framesWritten < n) :
    ∃ st1 b, drainStep cc n st = some (st1, b) ∧
      (b = true → st1.framesWritten = n ∧ st.player.audioQueue = [] ∧
        st.player.currentChunk.frameCount ≤ st.player.currentFrameIndex) ∧
      (b = false →
        (st.framesWritten < st1.framesWritten ∧ st1.framesWritten ≤ n) ∨
        (st1.framesWritten = st.framesWritten ∧ st1.out = st.out ∧
          chunksLeft st1.player < chunksLeft st.player)) := by
  by_cases hex : st.player.currentChunk.frameCount ≤ st.player.currentFrameIndex
  · cases hq : st.player.audioQueue with
    | nil =>
        obtain ⟨st1, b, hs, _⟩ := drainStep_total cc n st hcc hinv hfw
        cases b with
        | true =>
            obtain ⟨_, _, _, hn⟩ := (drainStep_player cc n st st1 true hs).2 rfl
            exact ⟨st1, true, hs, fun _ => ⟨hn, rfl, hex⟩, fun hb => absurd hb (by simp)⟩
        | false =>
            exfalso
            simp only [drainStep, hex, if_true, hq, Option.map_eq_some', Prod.mk.injEq] at hs
            obtain ⟨_, _, _, hb⟩ := hs
            exact absurd hb (by simp)
    | cons c rest =>
        obtain ⟨st1, h1, _, hqa, hprog⟩ := copyPart_progress cc n
          { st with player := { st.player with
              currentChunk := c, audioQueue := rest, currentFrameIndex := 0,
              chunksConsumed := st.player.chunksConsumed + 1, bufferSize := (rest.length : Int) } }
          hcc hinv
        refine ⟨st1, false, ?_, fun hb => absurd hb (by simp), fun _ => ?_⟩
        · simp only [drainStep, hex, if_true, hq, h1, Option.map_some']
        · rcases hprog with hcopy | ⟨hsame, hout, hexh⟩
          · exact Or.inl hcopy
          · refine Or.inr ⟨hsame, hout, ?_⟩
            simp only [chunksLeft, hexh, if_true, hex, hq, hqa, List.length_cons]
            omega
  · obtain ⟨st1, h1, _, hqa, hprog⟩ := copyPart_progress cc n st hcc hinv
    refine ⟨st1, false, ?_, fun hb => absurd hb (by simp), fun _ => ?_⟩
    · simp only [drainStep, hex, if_false, h1, Option.map_some']
    · rcases hprog with hcopy | ⟨hsame, hout, hexh⟩
      · exact Or.inl hcopy
      · refine Or.inr ⟨hsame, hout, ?_⟩
        simp only [chunksLeft, hexh, if_true, hex, if_false, hqa]
        omega

/-- A loop whose condition is false makes no iteration, whatever the budget. -/
theorem drainIterations_done (cc n : Int) (fuel : Nat) (st : DrainState)
    (h : ¬ st.framesWritten < n) : drainIterations cc n fuel st = some 0 := by
  cases fuel <;> simp [drainIterations, h]

/-- A loop that makes `k` iterations makes them with every budget of at least `k`, and the
loop has a result with such a budget. -/
theorem drainIterations_exact (cc n : Int) (fuel : Nat) :
    ∀ (st : DrainState) (k : Nat), drainIterations cc n fuel st = some k →
      ∀ fuel1 : Nat, k ≤ fuel1 →
        drainIterations cc n fuel1 st = some k ∧ ∃ r, drainLoop cc n fuel1 st = some r := by
  induction fuel with
  | zero =>
      intro st k h fuel1 _
      simp only [drainIterations] at h
      split at h
      · simp at h
      · rename_i hc
        simp only [Option.some.injEq] at h
        subst h
        exact ⟨drainIterations_done cc n fuel1 st hc, _, drainLoop_done cc n fuel1 st hc⟩
  | succ fuel ih =>
      intro st k h fuel1 hle
      simp only [drainIterations] at h
      split at h
      · rename_i hc
        split at h
        · simp at h
        · rename_i s2 hs
          simp only [Option.some.injEq] at h
          subst h
          obtain ⟨f1, rfl⟩ : ∃ f1, fuel1 = f1 + 1 := ⟨fuel1 - 1, by omega⟩
          exact ⟨by simp only [drainIterations, hc, if_true, hs],
            (s2, true), by simp only [drainLoop, hc, if_true, hs]⟩
        · rename_i s2 hs
          simp only [Option.map_eq_some'] at h
          obtain ⟨k1, hk1, rfl⟩ := h
          obtain ⟨f1, rfl⟩ : ∃ f1, fuel1 = f1 + 1 := ⟨fuel1 - 1, by omega⟩
          obtain ⟨h1, r, h2⟩ := ih s2 k1 hk1 f1 (by omega)
          exact ⟨by simp only [drainIterations, hc, if_true, hs, h1, Option.map_some'],
            r, by simp only [drainLoop, hc, if_true, hs, h2]⟩
      · rename_i hc
        simp only [Option.some.injEq] at h
        subst h
        exact ⟨drainIterations_done cc n fuel1 st hc, _, drainLoop_done cc n fuel1 st hc⟩

/-- With a budget of at least the measure of the state, the loop makes a number of iterations
that is at most the measure. -/
theorem drainIterations_total (cc n : Int) (hcc : 1 ≤ cc) (fuel : Nat) :
    ∀ st : DrainState, DrainInv cc n st → drainMeasure st ≤ fuel →
      ∃ k, drainIterations cc n fuel st = some k ∧ k ≤ drainMeasure st := by
  induction fuel with
  | zero =>
      intro st _ hm
      simp [drainMeasure] at hm
  | succ fuel ih =>
      intro st hinv hm
      have hpos : 1 ≤ drainMeasure st := by simp [drainMeasure]
      by_cases hc : st.framesWritten < n
      · obtain ⟨s2, b, hs, hinv2, hdec, _⟩ := drainStep_total cc n st hcc hinv hc
        cases b with
        | true => exact ⟨1, by simp only [drainIterations, hc, if_true, hs], hpos⟩
        | false =>
            by_cases hc2 : s2.framesWritten < n
            · have := hdec rfl hc2
              obtain ⟨k1, h1, hk1⟩ := ih s2 hinv2 (by omega)
              exact ⟨k1 + 1, by simp only [drainIterations, hc, if_true, hs, h1, Option.map_some'],
                by omega⟩
            · exact ⟨1, by simp only [drainIterations, hc, if_true, hs,
                drainIterations_done cc n fuel s2 hc2, Option.map_some'], hpos⟩
      · exact ⟨0, drainIterations_done cc n _ st hc, by omega⟩

end OboeAudioPlayer

/-! ## Indices of the buffer accesses -/

/-- A read that has a result reads inside the vector. -/
theorem readAt_range (data : List Int) (i v : Int) (h : readAt data i = some v) :
    0 ≤ i ∧ i < (data.length : Int) := by
  simp only [readAt] at h
  split at h
  · assumption
  · simp at h

/-- A write that has a result writes inside the buffer, and the buffer keeps its length. -/
theorem writeAt_range (out : Buffer) (i v : Int) (out1 : Buffer)
    (h : writeAt out i v = some out1) :
    0 ≤ i ∧ i < (out.length : Int) ∧ out1.length = out.length := by
  simp only [writeAt] at h
  split at h
  · rename_i hc
    simp only [Option.some.injEq] at h
    subst h
    exact ⟨hc.1, hc.2, List.length_set _ _ _⟩
  · simp at h

/-- A fill that has a result has written inside the buffer only. -/
theorem fill_n_range (v : Int) (k : Nat) :
    ∀ (out : Buffer) (d : Int) (out1 : Buffer), fill_n k out d v = some out1 →
      out1.length = out.length ∧ (0 < k → 0 ≤ d ∧ d + (k : Int) ≤ (out.length : Int)) := by
  induction k with
  | zero =>
      intro out d out1 h
      simp only [fill_n, Option.some.injEq] at h
      subst h
      exact ⟨rfl, fun hk => absurd hk (by decide)⟩
  | succ k ih =>
      intro out d out1 h
      simp only [fill_n] at h
      split at h
      · simp at h
      · rename_i out2 hw
        obtain ⟨hw0, hw1, hwl⟩ := writeAt_range out d v out2 hw
        obtain ⟨hl, hr⟩ := ih out2 (d + 1) out1 h
        refine ⟨by rw [hl, hwl], fun _ => ?_⟩
        rcases Nat.eq_zero_or_pos k with hk | hk
        · subst hk
          push_cast
          omega
        · have := hr hk
          push_cast
          omega

/-- A copy that has a result has read inside the source and written inside the buffer only. -/
theorem copyLoop_range (f : Int → Int) (src : List Int) (k : Nat) :
    ∀ (out : Buffer) (so d : Int) (out1 : Buffer), copyLoop f src k out so d = some out1 →
      out1.length = out.length ∧
      (0 < k → 0 ≤ so ∧ so + (k : Int) ≤ (src.length : Int) ∧
        0 ≤ d ∧ d + (k : Int) ≤ (out.length : Int)) := by
  induction k with
  | zero =>
      intro out so d out1 h
      simp only [copyLoop, Option.some.injEq] at h
      subst h
      exact ⟨rfl, fun hk => absurd hk (by decide)⟩
  | succ k ih =>
      intro out so d out1 h
      simp only [copyLoop] at h
      split at h
      · simp at h
      · rename_i x hr
        split at h
        · simp at h
        · rename_i out2 hw
          obtain ⟨hr0, hr1⟩ := readAt_range src so x hr
          obtain ⟨hw0, hw1, hwl⟩ := writeAt_range out d (f x) out2 hw
          obtain ⟨hl, hrange⟩ := ih out2 (so + 1) (d + 1) out1 h
          refine ⟨by rw [hl, hwl], fun _ => ?_⟩
          rcases Nat.eq_zero_or_pos k with hk | hk
          · subst hk
            push_cast
            omega
          · have := hrange hk
            push_cast
            omega

namespace OboeAudioPlayer

/-- The buffer of a state that satisfies the loop invariant has one cell per requested
sample. -/
theorem drainInv_length (cc n : Int) (st : DrainState) (hcc : 1 ≤ cc)
    (hinv : DrainInv cc n st) : (st.out.length : Int) = n * cc := by
  obtain ⟨h0, hn, w, hw, hout⟩ := hinv
  rw [hout]
  simp only [List.length_append, List.length_map, List.length_replicate, Nat.cast_add, hw]
  have : 0 ≤ (n - st.framesWritten) * cc := by nlinarith
  have : (n - st.framesWritten) * cc = n * cc - st.framesWritten * cc := by ring
  omega

end OboeAudioPlayer

/-! ## The reported buffer size -/

namespace OboeAudioPlayer

/-- The exactness of the reported count depends on the queue and the count only. -/
theorem bufferExact_of_eq (p q : OboeAudioPlayer) (hq : q.audioQueue = p.audioQueue)
    (hb : q.bufferSize = p.bufferSize) (h : BufferExact p) : BufferExact q := by
  unfold BufferExact at *
  rw [hq, hb]
  exact h

/-- The underrun policy keeps the reported count. -/
theorem underrunPolicy_bufferSize (p : OboeAudioPlayer) :
    (underrunPolicy p).bufferSize = p.bufferSize := by
  simp only [underrunPolicy]
  split
  · rfl
  · split <;> rfl

/-- The statements before the drain loop keep the reported count. -/
theorem prologue_bufferSize (p : OboeAudioPlayer) (now : Int) :
    (prologue p now).bufferSize = p.bufferSize := by
  simp only [prologue]
  split <;> rfl

/-- The stall timeout keeps the reported count. -/
theorem prebufferTimeout_bufferSize (p : OboeAudioPlayer) :
    (prebufferTimeout p).bufferSize = p.bufferSize := by
  simp only [prebufferTimeout]
  split <;> rfl

/-- The statements after the drain loop keep the reported count. -/
theorem epilogue_bufferSize (p : OboeAudioPlayer) (n : Int) :
    (epilogue p n).bufferSize = p.bufferSize := by
  simp only [epilogue]
  split <;> rfl

/-- Every iteration of the drain loop keeps the reported count exact: a pop stores the new
size of the queue. -/
theorem drainStep_bufferExact (cc n : Int) (st st1 : DrainState) (b : Bool)
    (h : drainStep cc n st = some (st1, b)) (hinv : BufferExact st.player) :
    BufferExact st1.player := by
  simp only [drainStep] at h
  split at h
  · split at h
    · rename_i c rest hqueue
      simp only [Option.map_eq_some', Prod.mk.injEq] at h
      obtain ⟨a, ha, rfl, _⟩ := h
      obtain ⟨i, hi⟩ := copyPart_player _ _ _ _ ha
      unfold BufferExact
      rw [hi]
    · simp only [Option.map_eq_some', Prod.mk.injEq] at h
      obtain ⟨a, ha, rfl, _⟩ := h
      simp only [underrunBranch] at ha
      split at ha
      · exact absurd ha (by simp)
      · simp only [Option.some.injEq] at ha
        subst ha
        exact bufferExact_of_eq st.player _ (underrunPolicy_chunks st.player).1
          (underrunPolicy_bufferSize st.player) hinv
  · simp only [Option.map_eq_some', Prod.mk.injEq] at h
    obtain ⟨a, ha, rfl, _⟩ := h
    obtain ⟨i, hi⟩ := copyPart_player _ _ _ _ ha
    unfold BufferExact
    rw [hi]
    exact hinv

/-- The drain of a render call keeps the reported count exact. -/
theorem drain_bufferExact (p p1 : OboeAudioPlayer) (cc n : Int) (out : Buffer)
    (h : drain p cc n = some (p1, out)) (hinv : BufferExact p) : BufferExact p1 := by
  simp only [drain] at h
  split at h
  · simp at h
  · rename_i st b hres
    simp only [Option.some.injEq, Prod.mk.injEq] at h
    obtain ⟨rfl, _⟩ := h
    obtain ⟨s, hsteps, hcase⟩ := drainLoop_sound cc n _ _ st b hres
    have hs : BufferExact s.player :=
      hsteps.preserves (fun s => BufferExact s.player)
        (fun a a1 ha _ hstep => drainStep_bufferExact cc n a a1 false hstep ha) hinv
    apply bufferExact_of_eq _ _ (epilogue_chunks st.player n).1 (epilogue_bufferSize st.player n)
    rcases hcase with ⟨_, rfl, _⟩ | ⟨_, _, hstep⟩
    · exact hs
    · exact drainStep_bufferExact cc n s st true hstep hs

/-- A render call keeps the reported count exact. -/
theorem onAudioReady_bufferExact (p p1 : OboeAudioPlayer) (cc n now : Int) (out : Buffer)
    (h : p.onAudioReady cc n now = some (p1, out)) (hinv : BufferExact p) : BufferExact p1 := by
  have h1 : BufferExact (prologue p now) :=
    bufferExact_of_eq p _ (prologue_chunks p now).1 (prologue_bufferSize p now) hinv
  have h2 : BufferExact (prebufferTimeout (prologue p now)) :=
    bufferExact_of_eq _ _ (prebufferTimeout_frame (prologue p now)).2.1
      (prebufferTimeout_bufferSize (prologue p now)) h1
  simp only [onAudioReady] at h
  split at h
  · split at h
    · split at h
      · simp at h
      · simp only [Option.some.injEq, Prod.mk.injEq] at h
        obtain ⟨rfl, _⟩ := h
        exact h2
    · exact drain_bufferExact _ _ _ _ _ h
        (bufferExact_of_eq (prebufferTimeout (prologue p now)) _ rfl rfl h2)
  · exact drain_bufferExact _ _ _ _ _ h h1

/-- A submission, accepted or rejected, keeps the reported count exact; an accepted one makes
it exact whatever it was. -/
theorem addAudioData_bufferExact (p p1 : OboeAudioPlayer) (bytes : List Int)
    (length now : Int) (b : Bool) (h : p.addAudioData bytes length now = some (p1, b)) :
    (b = true → BufferExact p1) ∧ (BufferExact p → BufferExact p1) := by
  cases b with
  | true =>
      obtain ⟨_, _, _, _, _, _, _, rfl⟩ := addAudioData_accepted p p1 bytes length now h
      have hex : BufferExact (pushChunk (updateInterval (updateEstimate p
          (buildChunk bytes length p.configuredChannelCount).frameCount) now)
          (buildChunk bytes length p.configuredChannelCount)) := by
        unfold BufferExact pushChunk
        rfl
      exact ⟨fun _ => hex, fun _ => hex⟩
  | false =>
      rw [addAudioData_rejected p p1 bytes length now h]
      exact ⟨fun hb => absurd hb (by simp), id⟩

/-- Every call keeps the reported count exact. -/
theorem step_bufferExact (p : OboeAudioPlayer) (op : Op) (p1 : OboeAudioPlayer)
    (hinv : BufferExact p) (h : p.step op = some p1) : BufferExact p1 := by
  cases op with
  | createStream sr c ok =>
      simp only [step, Option.some.injEq] at h
      rw [← h]
      cases ok <;> exact hinv
  | addAudioData bytes length now =>
      simp only [step, Option.map_eq_some', Prod.exists, exists_and_right, exists_eq_right] at h
      obtain ⟨b, hb⟩ := h
      exact (addAudioData_bufferExact p p1 bytes length now b hb).2 hinv
  | onAudioReady c n now =>
      simp only [step] at h
      split at h
      · simp only [Option.map_eq_some', Prod.exists, exists_and_right, exists_eq_right] at h
        obtain ⟨out, hout⟩ := h
        exact onAudioReady_bufferExact p p1 c n now out hout hinv
      · simp at h
  | onErrorAfterClose ok =>
      simp only [step] at h
      split at h
      · simp only [Option.some.injEq] at h
        rw [← h]
        simp only [onErrorAfterClose]
        split <;> exact hinv
      · simp at h
  | start => simp only [step, Option.some.injEq] at h; rw [← h]; exact hinv
  | pause => simp only [step, Option.some.injEq] at h; rw [← h]; exact hinv
  | stop =>
      simp only [step, Option.some.injEq] at h; rw [← h]
      simp [BufferExact, stop, clearQueue]
  | clearQueue =>
      simp only [step, Option.some.injEq] at h; rw [← h]
      simp [BufferExact, clearQueue]
  | setVolume v => simp only [step, Option.some.injEq] at h; rw [← h]; exact hinv

end OboeAudioPlayer

/-! ## The chunk estimate -/

namespace OboeAudioPlayer

/-- The local `chunkDurationMs` is the value that `updateEstimate` tests and averages in. -/
theorem updateEstimate_eq (p : OboeAudioPlayer) (f : Int) :
    (updateEstimate p f).estimatedChunkMs =
      if 0 < p.chunksAdded ∧ 5 < chunkDurationMs p f ∧ chunkDurationMs p f < 50 then
        Int.tdiv (p.estimatedChunkMs * 9 + chunkDurationMs p f) 10
      else p.estimatedChunkMs := by
  simp only [updateEstimate, chunkDurationMs]
  split <;> rfl

/-- The smoothing step on values that are not negative lies between the old estimate and the
observation, and it keeps the estimate exactly when `e ≤ r ≤ e + 9`. -/
theorem smoothing_step (e r : Int) (he : 0 ≤ e) (hr : 0 ≤ r) :
    min e r ≤ Int.tdiv (e * 9 + r) 10 ∧ Int.tdiv (e * 9 + r) 10 ≤ max e r ∧
    (Int.tdiv (e * 9 + r) 10 = e ↔ (e ≤ r ∧ r ≤ e + 9)) := by
  rw [Int.tdiv_eq_ediv (by omega) (by omega)]
  refine ⟨by omega, by omega, ?_⟩
  constructor
  · intro h; omega
  · intro h; omega

/-- The update of the estimate keeps it between 6 and 49. -/
theorem updateEstimate_ok (p : OboeAudioPlayer) (f : Int) (h : EstimateOk p) :
    EstimateOk (updateEstimate p f) := by
  unfold EstimateOk at *
  rw [updateEstimate_eq]
  split
  · rename_i hc
    obtain ⟨h1, h2, _⟩ := smoothing_step p.estimatedChunkMs (chunkDurationMs p f)
      (by omega) (by omega)
    omega
  · exact h

/-- Every call keeps the estimate between 6 and 49. -/
theorem step_estimateOk (p : OboeAudioPlayer) (op : Op) (p1 : OboeAudioPlayer)
    (hinv : EstimateOk p) (h : p.step op = some p1) : EstimateOk p1 := by
  cases op with
  | createStream sr c ok =>
      simp only [step, Option.some.injEq] at h
      rw [← h]
      cases ok with
      | true =>
          show (6 : Int) ≤ 20 ∧ (20 : Int) ≤ 49
          decide
      | false => exact hinv
  | addAudioData bytes length now =>
      simp only [step, Option.map_eq_some', Prod.exists, exists_and_right, exists_eq_right] at h
      obtain ⟨b, hb⟩ := h
      cases b with
      | true =>
          obtain ⟨_, _, _, _, _, _, _, rfl⟩ := addAudioData_accepted p p1 bytes length now hb
          unfold EstimateOk
          rw [pushChunk_estimate]
          exact updateEstimate_ok p _ hinv
      | false =>
          rw [addAudioData_rejected p p1 bytes length now hb]; exact hinv
  | onAudioReady c n now =>
      simp only [step] at h
      split at h
      · simp only [Option.map_eq_some', Prod.exists, exists_and_right, exists_eq_right] at h
        obtain ⟨out, hout⟩ := h
        have he := (onAudioReady_frame p p1 c n now out hout).1.2.2.2.2.2.2.2.2
        unfold EstimateOk
        rw [he]
        exact hinv
      · simp at h
  | onErrorAfterClose ok =>
      simp only [step] at h
      split at h
      · simp only [Option.some.injEq] at h
        rw [← h]
        simp only [onErrorAfterClose]
        split <;> exact hinv
      · simp at h
  | start => simp only [step, Option.some.injEq] at h; rw [← h]; exact hinv
  | pause => simp only [step, Option.some.injEq] at h; rw [← h]; exact hinv
  | stop => simp only [step, Option.some.injEq] at h; rw [← h]; exact hinv
  | clearQueue => simp only [step, Option.some.injEq] at h; rw [← h]; exact hinv
  | setVolume v => simp only [step, Option.some.injEq] at h; rw [← h]; exact hinv

/-- In every reachable state the estimate lies between 6 and 49 and the queue holds at most
500 chunks. -/
theorem reachable_estimate (p : OboeAudioPlayer) (h : Reachable p) :
    EstimateOk p ∧ p.audioQueue.length ≤ MAX_QUEUE_SIZE := by
  obtain ⟨ops, hrun⟩ := h
  exact ⟨run_preserves EstimateOk step_estimateOk ops initial p (by decide) hrun,
    run_preserves (fun q => q.audioQueue.length ≤ MAX_QUEUE_SIZE) step_queue_length ops initial p
      (by simp [initial]) hrun⟩

/-- A submission that passes every check of `addAudioData` is accepted. -/
theorem addAudioData_accepts_eq (p : OboeAudioPlayer) (bytes : List Int) (length now : Int)
    (hs : p.stream = true) (hp : p.isPlaying = true) (hcc : p.configuredChannelCount ≠ 0)
    (hm : Int.tmod length (2 * p.configuredChannelCount) = 0) (h0 : 0 ≤ length)
    (hl : length ≤ (bytes.length : Int)) (hsr : p.configuredSampleRate ≠ 0) :
    p.addAudioData bytes length now
      = some (pushChunk (updateInterval (updateEstimate p
          (buildChunk bytes length p.configuredChannelCount).frameCount) now)
          (buildChunk bytes length p.configuredChannelCount), true) := by
  have h4 : ¬ (length < 0 ∨ (bytes.length : Int) < length) := by omega
  simp only [addAudioData, hs, hp, Bool.true_eq_false, or_self, if_false, hcc, hm, ne_eq,
    not_true_eq_false, h4, hsr]

/-- The session members that an accepted submission leaves alone, and the count of accepted
chunks. -/
theorem pushChunk_session (p : OboeAudioPlayer) (f now : Int) (c : AudioChunk) :
    (pushChunk (updateInterval (updateEstimate p f) now) c).isPlaying = p.isPlaying ∧
    (pushChunk (updateInterval (updateEstimate p f) now) c).isPrebuffering = p.isPrebuffering ∧
    (pushChunk (updateInterval (updateEstimate p f) now) c).configuredSampleRate
      = p.configuredSampleRate ∧
    (pushChunk (updateInterval (updateEstimate p f) now) c).chunksAdded = p.chunksAdded + 1 := by
  simp only [pushChunk, updateInterval, updateEstimate]
  split <;> split <;> (try split) <;> simp

/-- The state after `k` equal submissions, each of a duration `r` between 5 and 50, to a
player that accepts them and has accepted a chunk before: all are accepted, the estimate is
the smoothing step applied `k` times, and the queue grows up to its capacity. -/
theorem observe_run (bytes : List Int) (length now sr cc r : Int) (hcc : cc ≠ 0)
    (hm : Int.tmod length (2 * cc) = 0) (h0 : 0 ≤ length) (hl : length ≤ (bytes.length : Int))
    (hsr : sr ≠ 0)
    (hr : Int.tdiv (wrap32 ((buildChunk bytes length cc).frameCount * 1000)) sr = r)
    (h5 : 5 < r) (h50 : r < 50) (k : Nat) :
    ∀ p : OboeAudioPlayer, Accepting p sr cc → 0 < p.chunksAdded →
      p.audioQueue.length ≤ MAX_QUEUE_SIZE →
      ∃ p1, run p (List.replicate k (Op.addAudioData bytes length now)) = some p1 ∧
        Accepting p1 sr cc ∧ p1.chunksAdded = p.chunksAdded + (k : Int) ∧
        p1.isPrebuffering = p.isPrebuffering ∧
        p1.estimatedChunkMs
          = Nat.iterate (fun e => Int.tdiv (e * 9 + r) 10) k p.estimatedChunkMs ∧
        p1.audioQueue.length = min MAX_QUEUE_SIZE (p.audioQueue.length + k) := by
  induction k with
  | zero =>
      intro p hacc hc hq
      refine ⟨p, rfl, hacc, by simp, rfl, rfl, ?_⟩
      simp only [Nat.add_zero]
      omega
  | succ k ih =>
      intro p hacc hc hq
      obtain ⟨hs, hp, hsrp, hccp⟩ := hacc
      have hadd := addAudioData_accepts_eq p bytes length now hs hp (by rw [hccp]; exact hcc)
        (by rw [hccp]; exact hm) h0 hl (by rw [hsrp]; exact hsr)
      obtain ⟨e1, _, _, e4, e5⟩ := pushChunk_fields p
        (buildChunk bytes length p.configuredChannelCount).frameCount now
        (buildChunk bytes length p.configuredChannelCount)
      obtain ⟨s1, s2, s3, s4⟩ := pushChunk_session p
        (buildChunk bytes length p.configuredChannelCount).frameCount now
        (buildChunk bytes length p.configuredChannelCount)
      have hest := pushChunk_estimate p
        (buildChunk bytes length p.configuredChannelCount).frameCount now
        (buildChunk bytes length p.configuredChannelCount)
      have hdur : chunkDurationMs p (buildChunk bytes length p.configuredChannelCount).frameCount
          = r := by
        simp only [chunkDurationMs, hccp, hsrp]
        exact hr
      rw [updateEstimate_eq, hdur, if_pos ⟨hc, h5, h50⟩] at hest
      have hlen : (evictOldest p.audioQueue ++
          [buildChunk bytes length p.configuredChannelCount]).length
          = min MAX_QUEUE_SIZE (p.audioQueue.length + 1) := by
        rw [List.length_append, List.length_singleton]
        rcases Nat.lt_or_ge p.audioQueue.length MAX_QUEUE_SIZE with hlt | hge
        · rw [evictOldest_of_lt _ hlt]
          omega
        · rw [evictOldest_of_eq _ (by omega), List.length_tail]
          simp only [MAX_QUEUE_SIZE] at hq hge ⊢
          omega
      obtain ⟨p1, hrun, hacc1, hc1, hpre1, hest1, hq1⟩ := ih
        (pushChunk (updateInterval (updateEstimate p
          (buildChunk bytes length p.configuredChannelCount).frameCount) now)
          (buildChunk bytes length p.configuredChannelCount))
        ⟨by rw [e4]; exact hs, by rw [s1]; exact hp, by rw [s3]; exact hsrp,
          by rw [e5]; exact hccp⟩
        (by rw [s4]; omega)
        (by rw [e1, hlen]; exact Nat.min_le_left _ _)
      refine ⟨p1, ?_, hacc1, ?_, ?_, ?_, ?_⟩
      · simp only [List.replicate_succ, run, step, hadd, Option.map_some']
        exact hrun
      · rw [hc1, s4]
        push_cast
        ring
      · rw [hpre1, s2]
      · rw [hest1, hest, Function.iterate_succ_apply]
      · rw [hq1, e1, hlen]
        simp only [MAX_QUEUE_SIZE]
        omega

/-- Observations of 10 ms lower an estimate between 10 and 20 by one each, down to 10. -/
theorem iterate_down (k : Nat) :
    ∀ e : Int, 10 ≤ e → e ≤ 20 →
      Nat.iterate (fun e => Int.tdiv (e * 9 + 10) 10) k e = max 10 (e - (k : Int)) := by
  induction k with
  | zero =>
      intro e he _
      simp only [Function.iterate_zero, id_eq, Nat.cast_zero, sub_zero]
      exact (max_eq_right he).symm
  | succ k ih =>
      intro e he he20
      rw [Function.iterate_succ_apply]
      rcases (by omega : e = 10 ∨ 11 ≤ e) with h10 | h11
      · subst h10
        have hstep : Int.tdiv ((10 : Int) * 9 + 10) 10 = 10 := by decide
        rw [hstep, ih 10 (le_refl _) (by omega), max_eq_left (by omega),
          max_eq_left (by push_cast; omega)]
      · have hstep : Int.tdiv (e * 9 + 10) 10 = e - 1 := by
          rw [Int.tdiv_eq_ediv (by omega) (by omega)]
          omega
        have hsub : e - 1 - (k : Int) = e - ((k + 1 : Nat) : Int) := by
          push_cast
          ring
        rw [hstep, ih (e - 1) (by omega) (by omega), hsub]

/-- Observations of 20 ms raise an estimate of 10 to 11 and leave it there. -/
theorem iterate_stall (k : Nat) :
    ∀ e : Int, (e = 10 ∨ e = 11) →
      Nat.iterate (fun e => Int.tdiv (e * 9 + 20) 10) k e ≤ 11 ∧
      (1 ≤ k → Nat.iterate (fun e => Int.tdiv (e * 9 + 20) 10) k e = 11) := by
  induction k with
  | zero => intro e he; simp only [Function.iterate_zero, id_eq]; omega
  | succ k ih =>
      intro e he
      have hstep : Int.tdiv (e * 9 + 20) 10 = 11 := by
        rcases he with rfl | rfl <;> decide
      rw [Function.iterate_succ_apply, hstep]
      obtain ⟨h1, h2⟩ := ih 11 (Or.inr rfl)
      refine ⟨h1, fun _ => ?_⟩
      rcases Nat.eq_zero_or_pos k with hk | hk
      · subst hk; rfl
      · exact h2 hk

/-- The facts about the mono session after one submission on which its runs rest. -/
theorem monoOnce_facts :
    run initial [Op.createStream 8000 1 true, Op.start, Op.addAudioData tenMsBytes 160 0]
      = some monoOnce ∧
    Accepting monoOnce 8000 1 ∧ monoOnce.chunksAdded = 1 ∧ monoOnce.isPrebuffering = true ∧
    monoOnce.estimatedChunkMs = 20 ∧ monoOnce.audioQueue.length = 1 := by
  set_option maxRecDepth 100000 in
  exact ⟨by decide, by decide, by decide, by decide, by decide, by decide⟩

/-- The state after `k` further submissions of 10 ms to the mono session. -/
theorem monoOnce_tenMs (k : Nat) :
    ∃ p1, run monoOnce (List.replicate k (Op.addAudioData tenMsBytes 160 0)) = some p1 ∧
      Accepting p1 8000 1 ∧ p1.chunksAdded = 1 + (k : Int) ∧ p1.isPrebuffering = true ∧
      p1.estimatedChunkMs = max 10 (20 - (k : Int)) ∧
      p1.audioQueue.length = min MAX_QUEUE_SIZE (1 + k) := by
  obtain ⟨_, hacc, hc, hpre, hest, hq⟩ := monoOnce_facts
  obtain ⟨p1, hrun, hacc1, hc1, hpre1, hest1, hq1⟩ :=
    observe_run tenMsBytes 160 0 8000 1 10 (by decide) (by decide) (by decide)
      (by simp only [tenMsBytes, List.length_replicate]; decide) (by decide) (by decide) (by decide) (by decide) k monoOnce hacc
      (by rw [hc]; decide) (by rw [hq]; decide)
  refine ⟨p1, hrun, hacc1, by rw [hc1, hc], by rw [hpre1, hpre], ?_, by rw [hq1, hq]⟩
  rw [hest1, hest]
  exact iterate_down k 20 (by decide) (by decide)

/-- The mono session after eleven submissions of 10 ms is reachable, accepts submissions and
has the estimate 10. -/
theorem tenSession_facts :
    Reachable tenSession ∧ Accepting tenSession 8000 1 ∧ tenSession.chunksAdded = 11 ∧
    tenSession.estimatedChunkMs = 10 ∧ tenSession.audioQueue.length = 11 := by
  obtain ⟨p1, hrun, hacc1, hc1, _, hest1, hq1⟩ := monoOnce_tenMs 10
  have hten : tenSession = p1 := by
    simp only [tenSession, hrun, Option.getD_some]
  rw [hten]
  refine ⟨⟨[Op.createStream 8000 1 true, Op.start, Op.addAudioData tenMsBytes 160 0] ++
    List.replicate 10 (Op.addAudioData tenMsBytes 160 0), ?_⟩, hacc1, ?_, ?_, ?_⟩
  · have happ := run_append
      [Op.createStream 8000 1 true, Op.start, Op.addAudioData tenMsBytes 160 0]
      (List.replicate 10 (Op.addAudioData tenMsBytes 160 0)) initial
    rw [monoOnce_facts.1] at happ
    simp only [Option.bind_eq_bind, Option.some_bind] at happ
    exact happ.trans hrun
  · rw [hc1]; decide
  · rw [hest1]; decide
  · rw [hq1]; decide

/-- The mono session after 500 submissions of 10 ms is reachable and prebuffering with a full
queue. -/
theorem fullSession_facts :
    Reachable fullSession ∧ fullSession.isPrebuffering = true ∧
    fullSession.audioQueue.length = MAX_QUEUE_SIZE ∧ fullSession.estimatedChunkMs = 10 := by
  obtain ⟨p1, hrun, _, _, hpre1, hest1, hq1⟩ := monoOnce_tenMs 499
  have hfull : fullSession = p1 := by
    simp only [fullSession, hrun, Option.getD_some]
  rw [hfull]
  refine ⟨⟨[Op.createStream 8000 1 true, Op.start, Op.addAudioData tenMsBytes 160 0] ++
    List.replicate 499 (Op.addAudioData tenMsBytes 160 0), ?_⟩, hpre1, ?_, ?_⟩
  · have happ := run_append
      [Op.createStream 8000 1 true, Op.start, Op.addAudioData tenMsBytes 160 0]
      (List.replicate 499 (Op.addAudioData tenMsBytes 160 0)) initial
    rw [monoOnce_facts.1] at happ
    simp only [Option.bind_eq_bind, Option.some_bind] at happ
    exact happ.trans hrun
  · rw [hq1]; decide
  · rw [hest1]; decide

/-- The mono session with a full queue accepts submissions at 8 kHz mono. -/
theorem fullSession_accepting : Accepting fullSession 8000 1 := by
  obtain ⟨p1, hrun, hacc1, _⟩ := monoOnce_tenMs 499
  have hfull : fullSession = p1 := by
    simp only [fullSession, hrun, Option.getD_some]
  rw [hfull]
  exact hacc1

end OboeAudioPlayer

/-! ## Starved sessions -/

namespace OboeAudioPlayer

/-- A state reached by a run from a reachable state is reachable. -/
theorem reachable_extend (p q : OboeAudioPlayer) (ops : List Op) (h : Reachable p)
    (hrun : run p ops = some q) : Reachable q := by
  obtain ⟨ops0, h0⟩ := h
  refine ⟨ops0 ++ ops, ?_⟩
  have happ := run_append ops0 ops initial
  rw [h0] at happ
  simp only [Option.bind_eq_bind, Option.some_bind] at happ
  exact happ.trans hrun

/-- The run of one call. -/
theorem run_single (p q : OboeAudioPlayer) (op : Op) (h : p.step op = some q) :
    run p [op] = some q := by
  simp only [run, h]

/-- The run of two sequences of calls that both have a result. -/
theorem run_append_some (p q r : OboeAudioPlayer) (ops1 ops2 : List Op)
    (h1 : run p ops1 = some q) (h2 : run q ops2 = some r) : run p (ops1 ++ ops2) = some r := by
  have happ := run_append ops1 ops2 p
  rw [h1] at happ
  simp only [Option.bind_eq_bind, Option.some_bind] at happ
  exact happ.trans h2

/-- The drain of a request of at least one frame on an empty queue with an exhausted cursor:
the output is zeros and the underrun policy is applied once. -/
theorem drain_starved (q : OboeAudioPlayer) (cc n : Int) (hn : 0 < n)
    (hq : q.audioQueue = []) (hex : q.currentChunk.frameCount ≤ q.currentFrameIndex) :
    drain q cc n
      = some (epilogue (underrunPolicy q) n, List.replicate (n * cc).toNat (some 0)) := by
  have hb := underrunBranch_total cc n ⟨q, 0, blank cc n⟩ [] (by simp) (by simp [blank])
  have hloop : drainLoop cc n (q.audioQueue.length + 1 + 1) ⟨q, 0, blank cc n⟩
      = some (⟨underrunPolicy q, n,
          ([] : List Int).map some ++ List.replicate ((n - 0) * cc).toNat (some 0)⟩, true) := by
    simp only [drainLoop, hn, if_true, drainStep, hex, hq, hb, Option.map_some']
  have hfuel : q.audioQueue.length + 2 = q.audioQueue.length + 1 + 1 := rfl
  simp only [drain, hfuel, hloop, List.map_nil, List.nil_append, sub_zero]

/-- A render call of at least one frame made while playing on an empty queue with an exhausted
cursor is an underrun: the stream, the empty queue and the cursor stay, the count advances in
32 bits, and the player goes back to prebuffering, with the count of prebuffering calls at
zero, exactly when the new count is a multiple of 10. -/
theorem starved_underrun (p : OboeAudioPlayer) (cc n now : Int) (hn : 0 < n)
    (hs : p.stream = true) (hplay : p.isPrebuffering = false) (hq : p.audioQueue = [])
    (hex : p.currentChunk.frameCount ≤ p.currentFrameIndex) :
    ∃ p1 : OboeAudioPlayer, p.step (Op.onAudioReady cc n now) = some p1 ∧
      p1.stream = true ∧ p1.audioQueue = [] ∧
      p1.currentChunk.frameCount ≤ p1.currentFrameIndex ∧
      p1.underrunCount = wrap32 (p.underrunCount + 1) ∧
      (p1.isPrebuffering = true ↔ Int.tmod (wrap32 (p.underrunCount + 1)) 10 = 0) ∧
      (p1.isPrebuffering = true → p1.prebufferingCallbacks = 0) := by
  obtain ⟨gq, gch, gi, _, gpre, guc⟩ := prologue_chunks p now
  have hp1 : (prologue p now).isPrebuffering = false := by rw [gpre]; exact hplay
  have hcall : p.onAudioReady cc n now
      = some (epilogue (underrunPolicy (prologue p now)) n,
          List.replicate (n * cc).toNat (some 0)) := by
    simp only [onAudioReady, hp1, Bool.false_eq_true, if_false]
    exact drain_starved _ cc n hn (by rw [gq]; exact hq) (by rw [gch, gi]; exact hex)
  obtain ⟨uq, uch, ui, _⟩ := underrunPolicy_chunks (prologue p now)
  obtain ⟨hu1, hu2⟩ := underrunPolicy_empty (prologue p now) (by rw [gq]; exact hq) hp1
  obtain ⟨eq, ech, ei, epre, euc⟩ := epilogue_chunks (underrunPolicy (prologue p now)) n
  have hstream := (onAudioReady_frame p _ cc n now _ hcall).1.1
  refine ⟨epilogue (underrunPolicy (prologue p now)) n, ?_, by rw [hstream]; exact hs,
    by rw [eq, uq, gq]; exact hq, by rw [ech, ei, uch, ui, gch, gi]; exact hex,
    by rw [euc, hu1, guc], by rw [epre, hu2, guc], ?_⟩
  · simp only [step, hs, if_true, hcall, Option.map_some']
  · intro hfill
    rw [epre] at hfill
    have hpc : (epilogue (underrunPolicy (prologue p now)) n).prebufferingCallbacks
        = (underrunPolicy (prologue p now)).prebufferingCallbacks := by
      simp only [epilogue]
      split <;> rfl
    rw [hpc]
    revert hfill
    simp only [underrunPolicy]
    split
    · intro _; rfl
    · split
      · intro _; rfl
      · intro hfill
        rw [hp1] at hfill
        exact absurd hfill (by simp)

/-- Underruns that do not bring the count to a multiple of 10 keep a starved session playing. -/
theorem playing_underruns (j : Nat) :
    ∀ (p : OboeAudioPlayer) (u : Int), StarvedPlaying p u → 0 ≤ u →
      u + (j : Int) ≤ 2147483647 →
      (∀ i : Nat, i < j → (u + (i : Int) + 1) % 10 ≠ 0) →
      ∃ q, run p (List.replicate j (Op.onAudioReady 1 1 0)) = some q ∧
        StarvedPlaying q (u + (j : Int)) := by
  induction j with
  | zero =>
      intro p u hp _ _ _
      exact ⟨p, rfl, by simpa using hp⟩
  | succ j ih =>
      intro p u ⟨hs, hplay, hq, hex, huc⟩ h0 hmax hno
      obtain ⟨p1, hstep, s1, s2, s3, s4, s5, _⟩ :=
        starved_underrun p 1 1 0 (by decide) hs hplay hq hex
      have hw : wrap32 (p.underrunCount + 1) = u + 1 := by
        rw [huc]
        push_cast at hmax
        exact wrap32_id _ (by omega) (by omega)
      rw [hw] at s4 s5
      have hstay : p1.isPrebuffering = false := by
        cases hb : p1.isPrebuffering with
        | false => rfl
        | true =>
            have h10 := (tmod_ten _).1 (s5.1 hb)
            have := hno 0 (by omega)
            simp only [Nat.cast_zero, add_zero] at this
            exact absurd h10 this
      obtain ⟨q, hrun, hq1⟩ := ih p1 (u + 1) ⟨s1, hstay, s2, s3, s4⟩ (by omega)
        (by push_cast at hmax; omega)
        (fun i hi => by
          have := hno (i + 1) (by omega)
          push_cast at this
          intro hc
          apply this
          rw [← hc]
          ring_nf)
      refine ⟨q, ?_, ?_⟩
      · simp only [List.replicate_succ, run, hstep]
        exact hrun
      · have he : u + 1 + (j : Int) = u + ((j + 1 : Nat) : Int) := by
          push_cast
          ring
        rw [← he]
        exact hq1

/-- The stall of a starved session: after 1001 render calls without data it plays. -/
theorem starving_stall (p : OboeAudioPlayer) (u : Int) (hp : Starving p u) :
    ∃ q, run p (List.replicate 1001 (Op.onAudioReady 1 1 0)) = some q ∧
      StarvedPlaying q u := by
  obtain ⟨hs, hf, hq, hex, hpc, huc⟩ := hp
  have hidle := filling_idle_state 1 1 0 1000 p hs hf hq (by rw [hpc])
    (by rw [hpc]; decide)
  obtain ⟨p1, hrun1, f1, f2, f3, f4, f5, f6⟩ : ∃ p1 : OboeAudioPlayer,
      run p (List.replicate 1000 (Op.onAudioReady 1 1 0)) = some p1 ∧ p1.stream = true ∧
      p1.isPrebuffering = true ∧ p1.audioQueue = [] ∧
      p1.currentChunk.frameCount ≤ p1.currentFrameIndex ∧ p1.underrunCount = u ∧
      p1.prebufferingCallbacks = 1000 :=
    ⟨_, hidle, hs, hf, hq, hex, huc, by simp only [hpc]; decide⟩
  obtain ⟨g1, g2, g3, _, g5, g6, _, g8, _⟩ := filling_gate p1 0 f2
  have hlow : totalBufferMs p1 < TARGET_PREBUFFER_MS := by
    simp [totalBufferMs, f3, TARGET_PREBUFFER_MS]
  have hcall := (onAudioReady_filling p1 1 1 0 f2).1 hlow
  have hsplit : List.replicate 1001 (Op.onAudioReady 1 1 0)
      = List.replicate 1000 (Op.onAudioReady 1 1 0) ++ [Op.onAudioReady 1 1 0] := by
    rw [← List.replicate_succ']
  refine ⟨prebufferTimeout (prologue p1 0), ?_, by rw [g6]; exact f1,
    g8.2 ⟨f3, by rw [f6]; decide⟩, by rw [g1]; exact f3, by rw [g2, g3]; exact f4,
    by rw [g5]; exact f5⟩
  rw [hsplit]
  refine run_append_some _ _ _ _ _ hrun1 (run_single _ _ _ ?_)
  simp only [step, f1, if_true, hcall, Option.map_some']

/-- One cycle of a starved session: 1001 calls of stall and ten underruns bring it back to
the start of a stall with ten more underruns counted. -/
theorem starving_cycle (p : OboeAudioPlayer) (u : Int) (hp : Starving p u) (h0 : 0 ≤ u)
    (h10 : u % 10 = 0) (hmax : u + 10 ≤ 2147483647) :
    ∃ (ops : List Op) (q : OboeAudioPlayer), run p ops = some q ∧ Starving q (u + 10) := by
  obtain ⟨q1, hrun1, hq1⟩ := starving_stall p u hp
  obtain ⟨q2, hrun2, hs2, hplay2, hqu2, hex2, huc2⟩ := playing_underruns 9 q1 u hq1 h0
    (by push_cast; omega) (fun i hi => by omega)
  obtain ⟨q3, hstep3, s1, s2, s3, s4, s5, s6⟩ :=
    starved_underrun q2 1 1 0 (by decide) hs2 hplay2 hqu2 hex2
  have hw : wrap32 (q2.underrunCount + 1) = u + 10 := by
    rw [huc2]
    push_cast
    rw [wrap32_id _ (by omega) (by omega)]
    ring
  rw [hw] at s4 s5
  have hfill : q3.isPrebuffering = true := s5.2 ((tmod_ten _).2 (by omega))
  exact ⟨_, q3, run_append_some _ _ _ _ _ (run_append_some _ _ _ _ _ hrun1 hrun2)
    (run_single _ _ _ hstep3), s1, hfill, s2, s3, s6 hfill, s4⟩

/-- Every multiple of 10 up to 2147483640 is the underrun count of a reachable starved
session. -/
theorem reachable_starving (m : Nat) :
    (10 * (m : Int) ≤ 2147483640) →
      ∃ p : OboeAudioPlayer, Reachable p ∧ Starving p (10 * (m : Int)) := by
  induction m with
  | zero =>
      intro _
      exact ⟨startedSession, ⟨[Op.createStream 48000 2 true, Op.start], by decide⟩, by decide⟩
  | succ m ih =>
      intro hle
      push_cast at hle
      obtain ⟨p, hreach, hp⟩ := ih (by omega)
      obtain ⟨ops, q, hrun, hq⟩ := starving_cycle p _ hp (by omega) (by omega) (by omega)
      refine ⟨q, reachable_extend p q ops hreach hrun, ?_⟩
      have he : 10 * (((m + 1 : Nat)) : Int) = 10 * (m : Int) + 10 := by
        push_cast
        ring
      rw [he]
      exact hq

/-- A session that plays on an empty queue with 2147483647 underruns counted is reachable. -/
theorem reachable_last_count :
    ∃ p : OboeAudioPlayer, Reachable p ∧ StarvedPlaying p 2147483647 := by
  obtain ⟨p, hreach, hp⟩ := reachable_starving 214748364 (by decide)
  obtain ⟨q1, hrun1, hq1⟩ := starving_stall p _ hp
  obtain ⟨q2, hrun2, hq2⟩ := playing_underruns 7 q1 _ hq1 (by decide) (by decide)
    (fun i hi => by push_cast; omega)
  refine ⟨q2, reachable_extend q1 q2 _ (reachable_extend p q1 _ hreach hrun1) hrun2, ?_⟩
  have he : (10 * ((214748364 : Nat) : Int) + ((7 : Nat) : Int)) = 2147483647 := by decide
  rw [← he]
  exact hq2

end OboeAudioPlayer

/-! ## Claims -/

namespace OboeAudioPlayer

/-- C1. For every player state (prebuffering or playing, any cursor, any queue, any gain) and
every render call with `numFrames ≥ 0` and `channelCount ≥ 1`, the call has a result and every
one of the `numFrames * channelCount` cells of the output buffer holds a sample written by the
call. -/
theorem onAudioReady_fills_output (p : OboeAudioPlayer) (channelCount numFrames now : Int)
    (hn : 0 ≤ numFrames) (hcc : 1 ≤ channelCount) :
    ∃ (p1 : OboeAudioPlayer) (samples : List Int),
      p.onAudioReady channelCount numFrames now = some (p1, samples.map some) ∧
      (samples.length : Int) = numFrames * channelCount := by
  have hpos : 0 ≤ numFrames * channelCount := by nlinarith
  simp only [onAudioReady]
  split
  · split
    · refine ⟨prebufferTimeout (prologue p now),
        List.replicate (numFrames * channelCount).toNat 0, ?_, ?_⟩
      · simp only [fill_n_blank, List.map_replicate]
      · simp only [List.length_replicate]; omega
    · obtain ⟨st1, b, _, hd, ⟨samples, hl, ho⟩, _⟩ :=
        drain_summary (prebufferComplete (prebufferTimeout (prologue p now)) now)
          channelCount numFrames hn hcc
      exact ⟨_, samples, by rw [hd, ho], hl⟩
  · obtain ⟨st1, b, _, hd, ⟨samples, hl, ho⟩, _⟩ :=
      drain_summary (prologue p now) channelCount numFrames hn hcc
    exact ⟨_, samples, by rw [hd, ho], hl⟩

/-- Witness of C1: a request of 25 stereo frames on the two-chunk scenario. -/
theorem onAudioReady_fills_output_witness :
    (0 : Int) ≤ 25 ∧ (1 : Int) ≤ 2 ∧
    ∃ (p1 : OboeAudioPlayer) (samples : List Int),
      drainScenario.onAudioReady 2 25 0 = some (p1, samples.map some) ∧
      (samples.length : Int) = 25 * 2 :=
  ⟨by decide, by decide, onAudioReady_fills_output drainScenario 2 25 0 (by decide) (by decide)⟩

/-- C2. A render call made while playing at gain 1.0 (or any gain of at least `0.99f`, the
regime of the direct copy), on chunks that all satisfy
`frameCount * channelCount = len(samples)` (with a cursor index that is not negative): the
output is the first `numFrames * channelCount` samples of the stream formed by the undrained
remainder of the cursor chunk followed by the queued chunks in order, padded with zeros when
the stream is shorter; afterwards cursor and queue hold exactly the rest of that stream. -/
theorem onAudioReady_drains_stream (p : OboeAudioPlayer) (channelCount numFrames now : Int)
    (hn : 0 ≤ numFrames) (hcc : 1 ≤ channelCount) (hplay : p.isPrebuffering = false)
    (hvol : F32.le F32.c099 p.volumeLevel = true) (hok : ChunksOk channelCount p)
    (hidx : 0 ≤ p.currentFrameIndex) :
    ∃ p1 : OboeAudioPlayer,
      p.onAudioReady channelCount numFrames now = some (p1,
        ((pending channelCount p).take (numFrames * channelCount).toNat ++
          List.replicate ((numFrames * channelCount).toNat - (pending channelCount p).length) 0).map
            some) ∧
      pending channelCount p1 = (pending channelCount p).drop (numFrames * channelCount).toNat := by
  obtain ⟨p1, h1, h2, _, _⟩ := onAudioReady_pending p channelCount numFrames now hn hcc hplay hok hidx
  have hg : gainMap p.volumeLevel = id := by
    simp only [gainMap, hvol, if_true]
  rw [hg, List.map_id] at h1
  exact ⟨p1, h1, h2⟩

/-- Witness of C2: chunks of 10 and 20 frames at 2 channels and a request of 25 frames; all of
chunk 1 and 15 frames of chunk 2 are consumed, the cursor is left at frame 15 of chunk 2 and
the queue is empty. -/
theorem onAudioReady_drains_stream_witness :
    ((0 : Int) ≤ 25 ∧ (1 : Int) ≤ 2 ∧ drainScenario.isPrebuffering = false ∧
      drainScenario.volumeLevel = F32.one ∧
      F32.le F32.c099 drainScenario.volumeLevel = true ∧ ChunksOk 2 drainScenario ∧
      0 ≤ drainScenario.currentFrameIndex) ∧
    (∃ p1 : OboeAudioPlayer,
      drainScenario.onAudioReady 2 25 0 = some (p1,
        ((pending 2 drainScenario).take (25 * 2 : Int).toNat ++
          List.replicate ((25 * 2 : Int).toNat - (pending 2 drainScenario).length) 0).map some) ∧
      pending 2 p1 = (pending 2 drainScenario).drop (25 * 2 : Int).toNat) ∧
    (drainScenario.onAudioReady 2 25 0).map
        (fun r => (r.1.currentChunk, r.1.currentFrameIndex, r.1.audioQueue, r.1.chunksConsumed))
      = some (rampChunk 20 100, 15, [], 2) := by
  have hok : ChunksOk 2 drainScenario := by
    unfold ChunksOk ChunkOk
    decide
  exact ⟨⟨by decide, by decide, rfl, rfl, by decide, hok, by decide⟩,
    onAudioReady_drains_stream drainScenario 2 25 0 (by decide) (by decide) rfl (by decide) hok
      (by decide), by decide⟩

/-- C3. In every reachable state the queue holds at most `MAX_QUEUE_SIZE = 500` chunks.  A
submission that passes the checks of `addAudioData` (open stream, playing, a length that is a
multiple of `2 * channelCount` inside the array, a sample rate other than zero) is accepted,
and an accepted submission turns the queue `q` into `q ++ [c]` when `q` holds fewer than 500
chunks and into `tail q ++ [c]` when it holds 500: exactly the oldest chunk is evicted, the
others keep their order and content, and the new chunk is last. -/
theorem queue_bounded_fifo (p : OboeAudioPlayer) (h : Reachable p) :
    MAX_QUEUE_SIZE = 500 ∧ p.audioQueue.length ≤ MAX_QUEUE_SIZE ∧
    (∀ (bytes : List Int) (length now : Int) (p1 : OboeAudioPlayer),
      p.addAudioData bytes length now = some (p1, true) →
      p1.audioQueue.length ≤ MAX_QUEUE_SIZE ∧
      (p.audioQueue.length < MAX_QUEUE_SIZE →
        p1.audioQueue = p.audioQueue ++ [buildChunk bytes length p.configuredChannelCount]) ∧
      (p.audioQueue.length = MAX_QUEUE_SIZE →
        p1.audioQueue
          = p.audioQueue.tail ++ [buildChunk bytes length p.configuredChannelCount])) ∧
    (∀ (bytes : List Int) (length now : Int),
      p.stream = true → p.isPlaying = true → p.configuredChannelCount ≠ 0 →
      Int.tmod length (2 * p.configuredChannelCount) = 0 → 0 ≤ length →
      length ≤ (bytes.length : Int) → p.configuredSampleRate ≠ 0 →
      ∃ p1 : OboeAudioPlayer, p.addAudioData bytes length now = some (p1, true) ∧
        p1.audioQueue.length = min MAX_QUEUE_SIZE (p.audioQueue.length + 1) ∧
        (p.audioQueue.length < MAX_QUEUE_SIZE →
          p1.audioQueue = p.audioQueue ++ [buildChunk bytes length p.configuredChannelCount]) ∧
        (p.audioQueue.length = MAX_QUEUE_SIZE →
          p1.audioQueue
            = p.audioQueue.tail ++ [buildChunk bytes length p.configuredChannelCount])) := by
  obtain ⟨ops, hrun⟩ := h
  have hlen : p.audioQueue.length ≤ MAX_QUEUE_SIZE :=
    run_preserves (fun q => q.audioQueue.length ≤ MAX_QUEUE_SIZE) step_queue_length ops initial p
      (by simp [initial]) hrun
  have hpush : ∀ (bytes : List Int) (length now : Int) (p1 : OboeAudioPlayer),
      p.addAudioData bytes length now = some (p1, true) →
      p1.audioQueue.length = min MAX_QUEUE_SIZE (p.audioQueue.length + 1) ∧
      (p.audioQueue.length < MAX_QUEUE_SIZE →
        p1.audioQueue = p.audioQueue ++ [buildChunk bytes length p.configuredChannelCount]) ∧
      (p.audioQueue.length = MAX_QUEUE_SIZE →
        p1.audioQueue
          = p.audioQueue.tail ++ [buildChunk bytes length p.configuredChannelCount]) := by
    intro bytes length now p1 hacc
    obtain ⟨_, _, _, _, _, _, _, rfl⟩ := addAudioData_accepted p p1 bytes length now hacc
    rw [(pushChunk_fields p _ now _).1]
    refine ⟨?_, fun hlt => by rw [evictOldest_of_lt _ hlt],
      fun heq => by rw [evictOldest_of_eq _ heq]⟩
    rw [List.length_append, List.length_singleton]
    rcases Nat.lt_or_ge p.audioQueue.length MAX_QUEUE_SIZE with hlt | hge
    · rw [evictOldest_of_lt _ hlt]
      omega
    · rw [evictOldest_of_eq _ (by omega), List.length_tail]
      simp only [MAX_QUEUE_SIZE] at hlen hge ⊢
      omega
  refine ⟨rfl, hlen, ?_, ?_⟩
  · intro bytes length now p1 hacc
    obtain ⟨h1, h2, h3⟩ := hpush bytes length now p1 hacc
    refine ⟨?_, h2, h3⟩
    rw [h1]
    exact Nat.min_le_left _ _
  · intro bytes length now hs hp hcc hm h0 hl hsr
    have hacc := addAudioData_accepts_eq p bytes length now hs hp hcc hm h0 hl hsr
    exact ⟨_, hacc, hpush bytes length now _ hacc⟩

/-- Witness of C3: the reachable mono session whose queue holds 500 chunks accepts a further
chunk, drops its oldest chunk and still holds 500; the session that holds one chunk accepts a
second one, which is queued behind the first. -/
theorem queue_bounded_fifo_witness :
    Reachable fullSession ∧ fullSession.audioQueue.length = MAX_QUEUE_SIZE ∧
    (∃ p1 : OboeAudioPlayer, fullSession.addAudioData tenMsBytes 160 0 = some (p1, true) ∧
      p1.audioQueue.length = MAX_QUEUE_SIZE ∧
      p1.audioQueue = fullSession.audioQueue.tail ++
        [buildChunk tenMsBytes 160 fullSession.configuredChannelCount]) ∧
    Reachable oneChunkSession ∧
    (∃ p1 : OboeAudioPlayer, oneChunkSession.addAudioData [3, 0, 4, 0] 4 0 = some (p1, true) ∧
      p1.audioQueue = oneChunkSession.audioQueue ++
        [buildChunk [3, 0, 4, 0] 4 oneChunkSession.configuredChannelCount]) ∧
    (oneChunkSession.addAudioData [3, 0, 4, 0] 4 0).map (fun r => (r.1.audioQueue, r.2))
      = some ([⟨[1, 2], 1⟩, ⟨[3, 4], 1⟩], true) := by
  obtain ⟨hreach, _, hfull, _⟩ := fullSession_facts
  obtain ⟨hs, hp, hsr, hcc⟩ := fullSession_accepting
  have hr : Reachable oneChunkSession :=
    ⟨[Op.createStream 48000 2 true, Op.start, Op.addAudioData [1, 0, 2, 0] 4 0], by decide⟩
  obtain ⟨p1, hacc, hlen, _, hevict⟩ :=
    (queue_bounded_fifo fullSession hreach).2.2.2 tenMsBytes 160 0 hs hp
      (by rw [hcc]; decide) (by rw [hcc]; decide) (by decide)
      (by simp only [tenMsBytes, List.length_replicate]; decide) (by rw [hsr]; decide)
  obtain ⟨q1, hacc1, _, hpush1, _⟩ :=
    (queue_bounded_fifo oneChunkSession hr).2.2.2 [3, 0, 4, 0] 4 0 (by decide) (by decide)
      (by decide) (by decide) (by decide) (by decide) (by decide)
  refine ⟨hreach, hfull, ⟨p1, hacc, ?_, hevict hfull⟩, hr, ⟨q1, hacc1, hpush1 (by decide)⟩,
    by decide⟩
  rw [hlen, hfull]
  decide

/-- C4, evaluated at the failing input: a session created for two channels holds one
submitted chunk of 1 frame and 2 samples, which satisfies the chunk invariant; a successful
`createStream` for one channel keeps that chunk in the queue, so the reachable state after it
has a queued chunk with `frameCount * channelCount = 1` and 2 samples.  After `stop()`, which
clears the queue, the same `createStream` gives a state that satisfies the invariant. -/
theorem createStream_keeps_chunks :
    Reachable recreatedSession ∧
    recreatedSession = (oneChunkSession.createStream 48000 1 true).1 ∧
    (oneChunkSession.createStream 48000 1 true).2 = true ∧
    ChunksOk oneChunkSession.configuredChannelCount oneChunkSession ∧
    (recreatedSession.configuredChannelCount, recreatedSession.audioQueue)
      = (1, [⟨[1, 2], 1⟩]) ∧
    ¬ ChunksOk recreatedSession.configuredChannelCount recreatedSession ∧
    ChunksOk (oneChunkSession.stop.createStream 48000 1 true).1.configuredChannelCount
      (oneChunkSession.stop.createStream 48000 1 true).1 := by
  refine ⟨⟨[Op.createStream 48000 2 true, Op.start, Op.addAudioData [1, 0, 2, 0] 4 0,
    Op.createStream 48000 1 true], by decide⟩, rfl, by decide, ?_, by decide, ?_, ?_⟩
  · unfold ChunksOk ChunkOk
    decide
  · intro h
    have h1 := h.2 ⟨[1, 2], 1⟩ (by decide)
    unfold ChunkOk at h1
    revert h1
    decide
  · unfold ChunksOk ChunkOk
    decide

/-- The part of the chunk invariant that the code keeps.  For every accepted submission with a
configured channel count of at least 1, the chunk built satisfies `frameCount * channelCount = len(samples)` with
`frameCount = length / 2 / channelCount`, and it is the chunk queued last.  Hence, after every
run whose `createStream` calls all ask for the same channel count `cc ≥ 1`, every chunk in the
queue or in the cursor satisfies the invariant for `cc`, which is the configured channel count
whenever a stream is open. -/
theorem chunk_invariant :
    (∀ (p p1 : OboeAudioPlayer) (bytes : List Int) (length now : Int),
      1 ≤ p.configuredChannelCount → p.addAudioData bytes length now = some (p1, true) →
      0 ≤ length ∧
      ChunkOk p.configuredChannelCount (buildChunk bytes length p.configuredChannelCount) ∧
      (buildChunk bytes length p.configuredChannelCount).frameCount
        = length / 2 / p.configuredChannelCount ∧
      p1.audioQueue.getLast? = some (buildChunk bytes length p.configuredChannelCount)) ∧
    (∀ (cc : Int) (ops : List Op) (p : OboeAudioPlayer), 1 ≤ cc →
      (∀ sr c ok, Op.createStream sr c ok ∈ ops → c = cc) → run initial ops = some p →
      ChunksOk cc p ∧ (p.stream = true → p.configuredChannelCount = cc)) := by
  constructor
  · intro p p1 bytes length now hcc hacc
    obtain ⟨_, _, _, hm, h0, hl, _, rfl⟩ := addAudioData_accepted p p1 bytes length now hacc
    refine ⟨h0, buildChunk_ok bytes length _ hcc h0 hl hm, ?_, ?_⟩
    · simp only [buildChunk]
      rw [Int.tdiv_eq_ediv h0 (by omega), Int.tdiv_eq_ediv (by omega) (by omega)]
    · rw [(pushChunk_fields p _ now _).1]
      simp
  · intro cc ops p hcc hsame hrun
    exact run_chunksOk cc hcc ops initial p hsame
      ⟨⟨by simp [initial, ChunkOk], by simp [initial]⟩, by simp [initial]⟩ hrun

/-- An instance of `chunk_invariant`: the session created for two channels that holds one
submitted chunk. -/
theorem chunk_invariant_witness :
    ((1 : Int) ≤ 2 ∧
      run initial [Op.createStream 48000 2 true, Op.start, Op.addAudioData [1, 0, 2, 0] 4 0]
        = some oneChunkSession) ∧
    (ChunksOk 2 oneChunkSession ∧
      (oneChunkSession.stream = true → oneChunkSession.configuredChannelCount = 2)) ∧
    ((1 : Int) ≤ startedSession.configuredChannelCount ∧
      startedSession.addAudioData [1, 0, 2, 0] 4 0 = some (oneChunkSession, true)) ∧
    ((0 : Int) ≤ 4 ∧
      ChunkOk startedSession.configuredChannelCount
        (buildChunk [1, 0, 2, 0] 4 startedSession.configuredChannelCount) ∧
      (buildChunk [1, 0, 2, 0] 4 startedSession.configuredChannelCount).frameCount
        = 4 / 2 / startedSession.configuredChannelCount ∧
      oneChunkSession.audioQueue.getLast?
        = some (buildChunk [1, 0, 2, 0] 4 startedSession.configuredChannelCount)) :=
  have hrun : run initial [Op.createStream 48000 2 true, Op.start,
      Op.addAudioData [1, 0, 2, 0] 4 0] = some oneChunkSession := by decide
  have hacc : startedSession.addAudioData [1, 0, 2, 0] 4 0 = some (oneChunkSession, true) := by
    decide
  ⟨⟨by decide, hrun⟩,
    chunk_invariant.2 2 _ oneChunkSession (by decide)
      (fun sr c ok hm => by
        simp only [List.mem_cons, Op.createStream.injEq, List.mem_singleton, reduceCtorEq,
          or_false, List.not_mem_nil] at hm
        exact hm.2.1) hrun,
    ⟨by decide, hacc⟩,
    chunk_invariant.1 startedSession oneChunkSession [1, 0, 2, 0] 4 0 (by decide) hacc⟩

/-- Counterexample to C5 as stated: a session that is created but not started rejects a
submission whose length 4 is a multiple of `2 * channelCount = 4`. -/
theorem addAudioData_counterexample :
    Int.tmod 4 (2 * (initial.createStream 48000 2 true).1.configuredChannelCount) = 0 ∧
    (initial.createStream 48000 2 true).1.addAudioData [1, 0, 2, 0] 4 0
      = some ((initial.createStream 48000 2 true).1, false) := by
  decide

/-- C5, amended. For a session whose channel count is at least 1: a submission is rejected if
its length is not a multiple of `2 * channelCount`, and also, whatever its length, while no
stream is open or the session is not playing; a submission of a length that is such a multiple
and lies within the byte array, made while the session plays at a sample rate other than zero, is
accepted, converted into a chunk with `frameCount = length / 2 / channelCount` and pushed at the
back of the queue, behind what the eviction of a full queue leaves. -/
theorem addAudioData_accepts (p : OboeAudioPlayer) (bytes : List Int) (length now : Int)
    (hcc : 1 ≤ p.configuredChannelCount) :
    (Int.tmod length (2 * p.configuredChannelCount) ≠ 0 →
      p.addAudioData bytes length now = some (p, false)) ∧
    (p.stream = false ∨ p.isPlaying = false →
      p.addAudioData bytes length now = some (p, false)) ∧
    (p.stream = true → p.isPlaying = true → p.configuredSampleRate ≠ 0 →
      0 ≤ length → length ≤ (bytes.length : Int) →
      Int.tmod length (2 * p.configuredChannelCount) = 0 →
      ∃ p1 : OboeAudioPlayer, p.addAudioData bytes length now = some (p1, true) ∧
        p1.audioQueue = evictOldest p.audioQueue ++
          [buildChunk bytes length p.configuredChannelCount] ∧
        (buildChunk bytes length p.configuredChannelCount).frameCount
          = length / 2 / p.configuredChannelCount) := by
  have hne : p.configuredChannelCount ≠ 0 := by omega
  refine ⟨?_, ?_, ?_⟩
  · intro hm
    simp only [addAudioData, hne, if_false, hm, ne_eq, not_false_eq_true, if_true]
    split <;> rfl
  · intro h
    simp only [addAudioData, h, if_true]
  · intro hs hp hsr h0 hl hm
    refine ⟨pushChunk (updateInterval (updateEstimate p
        (buildChunk bytes length p.configuredChannelCount).frameCount) now)
        (buildChunk bytes length p.configuredChannelCount), ?_,
      (pushChunk_fields p _ now _).1, ?_⟩
    · have h1 : ¬ (p.stream = false ∨ p.isPlaying = false) := by simp [hs, hp]
      have h2 : ¬ (length < 0 ∨ (bytes.length : Int) < length) := by omega
      simp only [addAudioData, h1, if_false, hne, hm, ne_eq, not_true_eq_false, h2, hsr]
    · simp only [buildChunk]
      rw [Int.tdiv_eq_ediv h0 (by omega), Int.tdiv_eq_ediv (by omega) (by omega)]

/-- Witness of C5: the started stereo session accepts a submission of 4 bytes. -/
theorem addAudioData_accepts_witness :
    (1 : Int) ≤ startedSession.configuredChannelCount ∧
    startedSession.addAudioData [1, 0, 2, 0] 4 0 = some (oneChunkSession, true) ∧
    startedSession.addAudioData [1, 0, 2] 3 0 = some (startedSession, false) ∧
    ∃ p1 : OboeAudioPlayer, startedSession.addAudioData [1, 0, 2, 0] 4 0 = some (p1, true) ∧
      p1.audioQueue = evictOldest startedSession.audioQueue ++
        [buildChunk [1, 0, 2, 0] 4 startedSession.configuredChannelCount] ∧
      (buildChunk [1, 0, 2, 0] 4 startedSession.configuredChannelCount).frameCount
        = 4 / 2 / startedSession.configuredChannelCount :=
  ⟨by decide, by decide, by decide,
    (addAudioData_accepts startedSession [1, 0, 2, 0] 4 0 (by decide)).2.2
      rfl rfl (by decide) (by decide) (by decide) (by decide)⟩

/-- C6. Rejection is atomic: whenever `addAudioData` returns false, the whole state of the
player (queue, cursor, estimate, counters, flags) is the state before the call. -/
theorem addAudioData_rejection_atomic (p p1 : OboeAudioPlayer) (bytes : List Int)
    (length now : Int) (h : p.addAudioData bytes length now = some (p1, false)) : p1 = p :=
  addAudioData_rejected p p1 bytes length now h

/-- Witness of C6: a submission of 3 bytes to the started stereo session. -/
theorem addAudioData_rejection_atomic_witness :
    startedSession.addAudioData [1, 0, 2] 3 0 = some (startedSession, false) ∧
    startedSession = startedSession :=
  have h : startedSession.addAudioData [1, 0, 2] 3 0 = some (startedSession, false) := by decide
  ⟨h, addAudioData_rejection_atomic startedSession startedSession [1, 0, 2] 3 0 h⟩

/-- Counterexample to C8 as stated: a session that plays on an empty queue with 2147483647
underruns counted is reachable, and its next render call of one frame, an underrun, leaves
the 32-bit count at -2147483648: the count has not grown by 1. -/
theorem underrun_escalation_counterexample :
    ∃ p : OboeAudioPlayer, Reachable p ∧ p.isPrebuffering = false ∧ p.audioQueue = [] ∧
      p.currentChunk.frameCount ≤ p.currentFrameIndex ∧ p.underrunCount = 2147483647 ∧
      ∃ p1 : OboeAudioPlayer, (p.onAudioReady 1 1 0).map Prod.fst = some p1 ∧
        p1.underrunCount = -2147483648 ∧ p1.underrunCount ≠ p.underrunCount + 1 := by
  obtain ⟨p, hreach, hs, hplay, hq, hex, huc⟩ := reachable_last_count
  obtain ⟨p1, hstep, _, _, _, hcount, _, _⟩ :=
    starved_underrun p 1 1 0 (by decide) hs hplay hq hex
  simp only [step, hs, if_true] at hstep
  have hw : wrap32 (p.underrunCount + 1) = -2147483648 := by
    rw [huc]
    decide
  rw [hw] at hcount
  refine ⟨p, hreach, hplay, hq, hex, huc, p1, hstep, hcount, ?_⟩
  rw [hcount, huc]
  decide

/-- C8, amended. A render call made while playing has a result, the same for every loop budget
of at least `audioQueue.length + 2`.  When its drain loop leaves through the empty-queue branch
(the cursor is exhausted and the queue empty before the request is met; on well-formed chunks
this is exactly when fewer samples are pending than requested), the output ends with zeros
behind the frames copied, `underrunCount` grows by exactly 1 in 32-bit arithmetic (by 1 below
2147483647, and from 2147483647 to -2147483648) and the player is prebuffering afterwards if
and only if the new count is a multiple of 10.  When the request is met from chunk data,
`underrunCount` is unchanged and the player keeps playing.  Among any ten consecutive values of
the count whose successors stay inside 32 bits exactly one makes the empty-queue underrun go
back to prebuffering. -/
theorem underrun_escalation (p : OboeAudioPlayer) (channelCount numFrames now : Int)
    (hn : 0 ≤ numFrames) (hcc : 1 ≤ channelCount) (hplay : p.isPrebuffering = false) :
    ∃ (st : DrainState) (b : Bool) (p1 : OboeAudioPlayer),
      (∀ fuel : Nat, p.audioQueue.length + 2 ≤ fuel →
        drainLoop channelCount numFrames fuel
          ⟨prologue p now, 0, blank channelCount numFrames⟩ = some (st, b)) ∧
      p.onAudioReady channelCount numFrames now = some (p1, st.out) ∧
      (b = true →
        p1.audioQueue = [] ∧ p1.currentChunk.frameCount ≤ p1.currentFrameIndex ∧
        p1.underrunCount = wrap32 (p.underrunCount + 1) ∧
        (-2147483648 ≤ p.underrunCount + 1 → p.underrunCount < 2147483647 →
          p1.underrunCount = p.underrunCount + 1) ∧
        (p.underrunCount = 2147483647 → p1.underrunCount = -2147483648) ∧
        (p1.isPrebuffering = true ↔ Int.tmod p1.underrunCount 10 = 0) ∧
        ∃ (w : Int) (copied : List Int), 0 ≤ w ∧ w < numFrames ∧
          (copied.length : Int) = w * channelCount ∧
          st.out = copied.map some ++
            List.replicate ((numFrames - w) * channelCount).toNat (some 0)) ∧
      (b = false → p1.underrunCount = p.underrunCount ∧ p1.isPrebuffering = false) ∧
      (ChunksOk channelCount p → 0 ≤ p.currentFrameIndex →
        (b = true ↔ ((pending channelCount p).length : Int) < numFrames * channelCount)) ∧
      (∀ u : Int, -2147483649 ≤ u → u + 10 ≤ 2147483647 → ∃! j : Nat, j < 10 ∧
        (underrunPolicy { p with audioQueue := [], isPrebuffering := false,
                                 underrunCount := u + (j : Int) }).isPrebuffering = true) := by
  obtain ⟨hq, hch, hi, _, hpre, huc⟩ := prologue_chunks p now
  obtain ⟨st, b, hres, hdrain, _, hfalse, htrue⟩ := drain_summary (prologue p now)
    channelCount numFrames hn hcc
  obtain ⟨eq, ech, ei, epre, euc⟩ := epilogue_chunks st.player numFrames
  have hp1 : (prologue p now).isPrebuffering = false := by rw [hpre]; exact hplay
  refine ⟨st, b, epilogue st.player numFrames, ?_, ?_, ?_, ?_, ?_,
    fun u hlo hhi => underrunPolicy_once_per_ten p u hlo hhi⟩
  · intro fuel hfuel
    exact drainLoop_fuel_mono channelCount numFrames _ _ _ fuel (by rw [hq]; exact hfuel) hres
  · simp only [onAudioReady, hp1, Bool.false_eq_true, if_false, hdrain]
  · intro hb
    obtain ⟨s, hframe, hsq, hex, hpol, h0, hlt, w, hw, hout⟩ := htrue hb
    unfold DrainFrame at hframe
    have hsplay : s.player.isPrebuffering = false := by rw [hframe.2.2.2.1]; exact hp1
    obtain ⟨hu1, hu2⟩ := underrunPolicy_empty s.player hsq hsplay
    obtain ⟨pq, pc, pi, _⟩ := underrunPolicy_chunks s.player
    have hcount : s.player.underrunCount = p.underrunCount := by rw [hframe.2.1, huc]
    have hnew : (epilogue st.player numFrames).underrunCount
        = wrap32 (p.underrunCount + 1) := by rw [euc, hpol, hu1, hcount]
    refine ⟨by rw [eq, hpol, pq]; exact hsq, by rw [ech, ei, hpol, pc, pi]; exact hex,
      hnew, ?_, ?_, ?_, s.framesWritten, w, h0, hlt, hw, hout⟩
    · intro hlo hhi
      rw [hnew]
      exact wrap32_id _ hlo (by omega)
    · intro hmax
      rw [hnew, hmax]
      decide
    · rw [epre, euc, hpol, hu1]
      exact hu2
  · intro hb
    have hframe := hfalse hb
    unfold DrainFrame at hframe
    exact ⟨by rw [euc, hframe.2.1, huc], by rw [epre, hframe.2.2.2.1]; exact hp1⟩
  · intro hok hidx
    have hok1 : ChunksOk channelCount (prologue p now) := by
      unfold ChunksOk at *
      rw [hq, hch]; exact hok
    obtain ⟨st2, b2, hres2, _, _, hiff, _⟩ := drainLoop_pending (prologue p now)
      channelCount numFrames hn hcc hok1 (by rw [hi]; exact hidx)
    rw [hres] at hres2
    simp only [Option.some.injEq, Prod.mk.injEq] at hres2
    have hpeq : pending channelCount (prologue p now) = pending channelCount p := by
      simp only [pending, hq, hch, hi]
    rw [hres2.2, ← hpeq]
    exact hiff

/-- Witness of C8: on the two-chunk scenario (30 frames pending) a request of 40 frames is an
underrun, the first one, and a request of 25 frames is not; the same underrun from a count of
9 goes back to prebuffering, and from a count of 2147483647 it wraps. -/
theorem underrun_escalation_witness :
    ((0 : Int) ≤ 40 ∧ (1 : Int) ≤ 2 ∧ drainScenario.isPrebuffering = false) ∧
    (∃ (st : DrainState) (b : Bool) (p1 : OboeAudioPlayer),
      (∀ fuel : Nat, drainScenario.audioQueue.length + 2 ≤ fuel →
        drainLoop 2 40 fuel ⟨prologue drainScenario 0, 0, blank 2 40⟩ = some (st, b)) ∧
      drainScenario.onAudioReady 2 40 0 = some (p1, st.out) ∧
      (b = true →
        p1.audioQueue = [] ∧ p1.currentChunk.frameCount ≤ p1.currentFrameIndex ∧
        p1.underrunCount = wrap32 (drainScenario.underrunCount + 1) ∧
        (-2147483648 ≤ drainScenario.underrunCount + 1 →
          drainScenario.underrunCount < 2147483647 →
          p1.underrunCount = drainScenario.underrunCount + 1) ∧
        (drainScenario.underrunCount = 2147483647 → p1.underrunCount = -2147483648) ∧
        (p1.isPrebuffering = true ↔ Int.tmod p1.underrunCount 10 = 0) ∧
        ∃ (w : Int) (copied : List Int), 0 ≤ w ∧ w < 40 ∧
          (copied.length : Int) = w * 2 ∧
          st.out = copied.map some ++ List.replicate ((40 - w) * 2).toNat (some 0)) ∧
      (b = false → p1.underrunCount = drainScenario.underrunCount ∧ p1.isPrebuffering = false) ∧
      (ChunksOk 2 drainScenario → 0 ≤ drainScenario.currentFrameIndex →
        (b = true ↔ ((pending 2 drainScenario).length : Int) < 40 * 2)) ∧
      (∀ u : Int, -2147483649 ≤ u → u + 10 ≤ 2147483647 → ∃! j : Nat, j < 10 ∧
        (underrunPolicy { drainScenario with
            audioQueue := [], isPrebuffering := false,
            underrunCount := u + (j : Int) }).isPrebuffering = true)) ∧
    (drainScenario.onAudioReady 2 40 0).map (fun r => (r.1.underrunCount, r.1.isPrebuffering))
      = some (1, false) ∧
    (drainScenario.onAudioReady 2 25 0).map (fun r => (r.1.underrunCount, r.1.isPrebuffering))
      = some (0, false) ∧
    (onAudioReady { drainScenario with underrunCount := 9 } 2 40 0).map
        (fun r => (r.1.underrunCount, r.1.isPrebuffering)) = some (10, true) ∧
    (onAudioReady { drainScenario with underrunCount := 2147483647 } 2 40 0).map
        (fun r => (r.1.underrunCount, r.1.isPrebuffering)) = some (-2147483648, false) :=
  ⟨⟨by decide, by decide, rfl⟩,
    underrun_escalation drainScenario 2 40 0 (by decide) (by decide) rfl,
    by decide, by decide, by decide, by decide⟩

/-- Counterexample to C9 as stated: the filled session is reachable and prebuffering, and its
render call of one frame pops a chunk and outputs the samples 0 and 1 of that chunk. -/
theorem filling_silence_counterexample :
    Reachable filledSession ∧ filledSession.isPrebuffering = true ∧
    (filledSession.onAudioReady 2 1 0).map
        (fun r => (r.2, r.1.audioQueue.length, r.1.currentChunk, r.1.chunksConsumed))
      = some ([some 0, some 1], 49, ⟨[0, 1], 1⟩, 1) := by
  set_option maxRecDepth 100000 in
  exact ⟨⟨filledOps, by decide⟩, by decide, by decide⟩

/-- C9, amended. A render call that begins while prebuffering and finds
`queue.size() * estimatedChunkMs < 1000` fills the whole requested range with zeros and returns
without draining: no chunk is popped and the cursor is unchanged, whether or not the stall
timeout ends prebuffering in that call.  A call that finds the target reached leaves
prebuffering and goes on to the drain loop in the same call. -/
theorem filling_silence (p : OboeAudioPlayer) (channelCount numFrames now : Int)
    (hfill : p.isPrebuffering = true) :
    (totalBufferMs p < TARGET_PREBUFFER_MS →
      ∃ p1 : OboeAudioPlayer,
        p.onAudioReady channelCount numFrames now
          = some (p1, List.replicate (numFrames * channelCount).toNat (some 0)) ∧
        p1.audioQueue = p.audioQueue ∧ p1.currentChunk = p.currentChunk ∧
        p1.currentFrameIndex = p.currentFrameIndex ∧ p1.chunksConsumed = p.chunksConsumed ∧
        (p1.isPrebuffering = false ↔
          (p.audioQueue = [] ∧ 1000 < wrap32 (p.prebufferingCallbacks + 1)))) ∧
    (TARGET_PREBUFFER_MS ≤ totalBufferMs p →
      (prebufferComplete (prebufferTimeout (prologue p now)) now).isPrebuffering = false ∧
      p.onAudioReady channelCount numFrames now
        = drain (prebufferComplete (prebufferTimeout (prologue p now)) now)
            channelCount numFrames) := by
  obtain ⟨g1, g2, g3, g4, _, _, _, g8, _⟩ := filling_gate p now hfill
  obtain ⟨hlow, hhigh⟩ := onAudioReady_filling p channelCount numFrames now hfill
  exact ⟨fun h => ⟨_, hlow h, g1, g2, g3, g4, g8⟩, fun h => ⟨rfl, hhigh h⟩⟩

/-- Witness of C9: the session of one queued chunk, below the target, and the filled session,
at the target. -/
theorem filling_silence_witness :
    (oneChunkSession.isPrebuffering = true ∧
      totalBufferMs oneChunkSession < TARGET_PREBUFFER_MS) ∧
    (∃ p1 : OboeAudioPlayer,
      oneChunkSession.onAudioReady 2 3 0 = some (p1, List.replicate (3 * 2 : Int).toNat (some 0)) ∧
      p1.audioQueue = oneChunkSession.audioQueue ∧
      p1.currentChunk = oneChunkSession.currentChunk ∧
      p1.currentFrameIndex = oneChunkSession.currentFrameIndex ∧
      p1.chunksConsumed = oneChunkSession.chunksConsumed ∧
      (p1.isPrebuffering = false ↔
        (oneChunkSession.audioQueue = [] ∧
          1000 < wrap32 (oneChunkSession.prebufferingCallbacks + 1)))) ∧
    (filledSession.isPrebuffering = true ∧
      TARGET_PREBUFFER_MS ≤ totalBufferMs filledSession) ∧
    ((prebufferComplete (prebufferTimeout (prologue filledSession 0)) 0).isPrebuffering
        = false ∧
      filledSession.onAudioReady 2 3 0
        = drain (prebufferComplete (prebufferTimeout (prologue filledSession 0)) 0) 2 3) := by
  set_option maxRecDepth 100000 in
  exact ⟨⟨by decide, by decide⟩,
    (filling_silence oneChunkSession 2 3 0 (by decide)).1 (by decide),
    ⟨by decide, by decide⟩,
    (filling_silence filledSession 2 3 0 (by decide)).2 (by decide)⟩

/-- C10. In a render call made while playing on well-formed chunks, the output cell of every
pending sample `s` within the request holds `s` itself at gain 1.0 and `0` at gain 0.0; at
gain 0.5, for a 16-bit `s`, it holds `s * 0.5` truncated toward zero, which differs from the
exact value `s * 0.5` by less than 1.  In every state, the copy of a checked range writes the
source samples transformed by `gainMap`, which is the identity at gain 1.0, zero at gain 0.0
and the halving that truncates toward zero at gain 0.5 (the identity for every gain of at
least `0.99f`, zero for every gain of at most `0.01f`). -/
theorem volume_scaling (p : OboeAudioPlayer) (channelCount numFrames now : Int)
    (hn : 0 ≤ numFrames) (hcc : 1 ≤ channelCount) (hplay : p.isPrebuffering = false)
    (hok : ChunksOk channelCount p) (hidx : 0 ≤ p.currentFrameIndex) :
    (∃ (p1 : OboeAudioPlayer) (out : Buffer),
      p.onAudioReady channelCount numFrames now = some (p1, out) ∧
      ∀ (i : Nat) (s : Int), i < (numFrames * channelCount).toNat →
        (pending channelCount p)[i]? = some s →
        (p.volumeLevel = F32.one → out[i]? = some (some s)) ∧
        (p.volumeLevel = F32.zero → out[i]? = some (some 0)) ∧
        (p.volumeLevel = F32.half → -32768 ≤ s → s ≤ 32767 →
          out[i]? = some (some (Int.tdiv s 2)) ∧
          |2 * Int.tdiv s 2 - s| < 2 ∧
          |((Int.tdiv s 2 : Int) : ℚ) - (s : ℚ) * (1 / 2)| < 1)) ∧
    (∀ (vol : F32) (src written : List Int) (samplesToCopy sourceOffset : Int) (rest : Nat),
      0 ≤ sourceOffset → 0 < samplesToCopy →
      sourceOffset + samplesToCopy ≤ (src.length : Int) → samplesToCopy.toNat ≤ rest →
      copyWithVolume vol src samplesToCopy (written.map some ++ List.replicate rest none)
          sourceOffset (written.length : Int)
        = some ((written ++ ((src.drop sourceOffset.toNat).take samplesToCopy.toNat).map
              (gainMap vol)).map some ++ List.replicate (rest - samplesToCopy.toNat) none)) ∧
    (gainMap F32.one = id ∧ gainMap F32.zero = (fun _ => 0) ∧
      (∀ s : Int, -32768 ≤ s → s ≤ 32767 → gainMap F32.half s = Int.tdiv s 2) ∧
      (∀ vol : F32, F32.le F32.c099 vol = true → gainMap vol = id) ∧
      (∀ vol : F32, F32.le F32.c099 vol = false → F32.le vol F32.c001 = true →
        gainMap vol = (fun _ => 0))) := by
  obtain ⟨p1, hcall, _⟩ := onAudioReady_pending p channelCount numFrames now hn hcc hplay hok hidx
  obtain ⟨g1, g0, gh⟩ := gainMap_regimes
  refine ⟨⟨p1, _, hcall, ?_⟩,
    fun vol src written k so rest h1 h2 h3 h4 => copyWithVolume_ok vol src written k so rest h1 h2 h3 h4,
    g1, g0, fun s h1 h2 => by rw [gh, scaleSample_half s h1 h2],
    fun vol h => by simp only [gainMap, h, if_true],
    fun vol h1 h2 => by simp only [gainMap, h1, h2, Bool.false_eq_true, if_false, if_true]⟩
  intro i s hi hs
  have hcell := output_cell (gainMap p.volumeLevel) (pending channelCount p)
    (numFrames * channelCount).toNat
    ((numFrames * channelCount).toNat - (pending channelCount p).length) i s hi hs
  refine ⟨fun hv => ?_, fun hv => ?_, fun hv h1 h2 => ⟨?_, tdiv_two_error s⟩⟩
  · rw [hcell, hv, g1]; rfl
  · rw [hcell, hv, g0]
  · rw [hcell, hv, gh, scaleSample_half s h1 h2]

/-- Witness of C10: the two-chunk scenario at gain 0.5, whose first four samples 0, 1, 2, 3
come out as 0, 0, 1, 1; at gain 0.0 and 1.0; and the sample -3, which comes out as -1. -/
theorem volume_scaling_witness :
    ((0 : Int) ≤ 2 ∧ (1 : Int) ≤ 2 ∧ (gainScenario F32.half).isPrebuffering = false ∧
      ChunksOk 2 (gainScenario F32.half) ∧ 0 ≤ (gainScenario F32.half).currentFrameIndex) ∧
    (∃ (p1 : OboeAudioPlayer) (out : Buffer),
      (gainScenario F32.half).onAudioReady 2 2 0 = some (p1, out) ∧
      ∀ (i : Nat) (s : Int), i < ((2 : Int) * 2).toNat →
        (pending 2 (gainScenario F32.half))[i]? = some s →
        ((gainScenario F32.half).volumeLevel = F32.one → out[i]? = some (some s)) ∧
        ((gainScenario F32.half).volumeLevel = F32.zero → out[i]? = some (some 0)) ∧
        ((gainScenario F32.half).volumeLevel = F32.half → -32768 ≤ s → s ≤ 32767 →
          out[i]? = some (some (Int.tdiv s 2)) ∧
          |2 * Int.tdiv s 2 - s| < 2 ∧
          |((Int.tdiv s 2 : Int) : ℚ) - (s : ℚ) * (1 / 2)| < 1)) ∧
    gainMap F32.one = id ∧
    ((gainScenario F32.half).onAudioReady 2 2 0).map Prod.snd
      = some [some 0, some 0, some 1, some 1] ∧
    ((gainScenario F32.zero).onAudioReady 2 2 0).map Prod.snd
      = some [some 0, some 0, some 0, some 0] ∧
    ((gainScenario F32.one).onAudioReady 2 2 0).map Prod.snd
      = some [some 0, some 1, some 2, some 3] ∧
    scaleSample F32.half (-3) = -1 := by
  have hok : ChunksOk 2 (gainScenario F32.half) := by
    unfold ChunksOk ChunkOk
    decide
  have h := volume_scaling (gainScenario F32.half) 2 2 0 (by decide) (by decide) rfl hok
    (by decide)
  exact ⟨⟨by decide, by decide, rfl, hok, by decide⟩, h.1, h.2.2.1,
    by decide, by decide, by decide, by decide⟩

end OboeAudioPlayer

namespace OboeAudioPlayer

/-- C11. For every `x` that is not NaN, `setVolume(x)` reports success and stores
`min(max(x, 0.0), 1.0)`: the stored gain lies between 0.0 and 1.0, it is 0.0 for `x < 0.0`,
1.0 for `x > 1.0` and `x` itself for `x` between 0.0 and 1.0, setting the stored gain again
changes nothing, and no other member of the player is changed. -/
theorem setVolume_clamps (p : OboeAudioPlayer) (x : F32) (hx : x ≠ F32.nan) :
    (p.setVolume x).2 = true ∧
    (p.setVolume x).1.volumeLevel = F32.clampSpec x ∧
    F32.le F32.zero (p.setVolume x).1.volumeLevel = true ∧
    F32.le (p.setVolume x).1.volumeLevel F32.one = true ∧
    (F32.lt x F32.zero = true → (p.setVolume x).1.volumeLevel = F32.zero) ∧
    (F32.lt F32.one x = true → (p.setVolume x).1.volumeLevel = F32.one) ∧
    (F32.le F32.zero x = true → F32.le x F32.one = true →
      (p.setVolume x).1.volumeLevel = x) ∧
    ((p.setVolume x).1.setVolume (p.setVolume x).1.volumeLevel).1 = (p.setVolume x).1 ∧
    (p.setVolume x).1 = { p with volumeLevel := (p.setVolume x).1.volumeLevel } := by
  obtain ⟨h0, h1⟩ := F32.clamp_unit x hx
  refine ⟨rfl, F32.clamp_eq_clampSpec x, h0, h1, ?_, ?_, ?_, ?_, rfl⟩
  · intro h
    simp only [setVolume, F32.clamp, h, if_true]
  · intro h
    have hz := F32.lt_zero_of_one_lt x h
    simp only [setVolume, F32.clamp, hz, h, Bool.false_eq_true, if_false, if_true]
  · intro hz ho
    exact F32.clamp_of_unit x hz ho
  · simp only [setVolume, F32.clamp_idem]

/-- Witness of C11: the gains 0.5, 2 and -1 given to the initial player. -/
theorem setVolume_clamps_witness :
    F32.half ≠ F32.nan ∧
    ((initial.setVolume F32.half).2 = true ∧
    (initial.setVolume F32.half).1.volumeLevel = F32.clampSpec F32.half ∧
    F32.le F32.zero (initial.setVolume F32.half).1.volumeLevel = true ∧
    F32.le (initial.setVolume F32.half).1.volumeLevel F32.one = true ∧
    (F32.lt F32.half F32.zero = true → (initial.setVolume F32.half).1.volumeLevel = F32.zero) ∧
    (F32.lt F32.one F32.half = true → (initial.setVolume F32.half).1.volumeLevel = F32.one) ∧
    (F32.le F32.zero F32.half = true → F32.le F32.half F32.one = true →
      (initial.setVolume F32.half).1.volumeLevel = F32.half) ∧
    ((initial.setVolume F32.half).1.setVolume (initial.setVolume F32.half).1.volumeLevel).1
      = (initial.setVolume F32.half).1 ∧
    (initial.setVolume F32.half).1
      = { initial with volumeLevel := (initial.setVolume F32.half).1.volumeLevel }) ∧
    (initial.setVolume F32.half).1.volumeLevel = F32.half ∧
    (initial.setVolume (F32.fin false 2 0)).1.volumeLevel = F32.one ∧
    (initial.setVolume (F32.fin true 1 0)).1.volumeLevel = F32.zero ∧
    (initial.setVolume (F32.inf false)).1.volumeLevel = F32.one :=
  ⟨by decide, setVolume_clamps initial F32.half (by decide), by decide, by decide, by decide,
    by decide⟩

end OboeAudioPlayer

namespace OboeAudioPlayer

/-- Counterexample to C12 as stated: the session of one chunk after one render call is
reachable, and after `stop()` and `start()` it still counts one callback, one prebuffering
callback and one chunk added, where a freshly created and started session counts none. -/
theorem stop_start_counterexample :
    Reachable countedSession ∧
    (countedSession.stop.start.totalCallbacks, countedSession.stop.start.prebufferingCallbacks,
      countedSession.stop.start.chunksAdded) = (1, 1, 1) ∧
    ((initial.createStream 48000 2 true).1.start.totalCallbacks,
      (initial.createStream 48000 2 true).1.start.prebufferingCallbacks,
      (initial.createStream 48000 2 true).1.start.chunksAdded) = (0, 0, 0) :=
  ⟨⟨countedOps, by decide⟩, by decide, by decide⟩

/-- C12, amended. For every state, `stop()` followed by `start()` gives the queue, the cursor,
the reported buffered chunk count and the playing and prebuffering flags of a freshly created
session on which `start()` is called, so the buffered time `queue.size() * estimatedChunkMs`
is zero in both; `estimatedChunkMs` and the counters (total callbacks, consecutive prebuffering
callbacks, underrun count, chunks added, chunks consumed, frames written) keep the values
they had before `stop()`. -/
theorem stop_start_resets (p : OboeAudioPlayer) (sampleRate channelCount : Int) :
    (p.stop.start.audioQueue = (initial.createStream sampleRate channelCount true).1.start.audioQueue ∧
     p.stop.start.currentChunk
       = (initial.createStream sampleRate channelCount true).1.start.currentChunk ∧
     p.stop.start.currentFrameIndex
       = (initial.createStream sampleRate channelCount true).1.start.currentFrameIndex ∧
     p.stop.start.bufferSize
       = (initial.createStream sampleRate channelCount true).1.start.bufferSize ∧
     p.stop.start.isPlaying
       = (initial.createStream sampleRate channelCount true).1.start.isPlaying ∧
     p.stop.start.isPrebuffering
       = (initial.createStream sampleRate channelCount true).1.start.isPrebuffering ∧
     totalBufferMs p.stop.start = 0 ∧
     totalBufferMs (initial.createStream sampleRate channelCount true).1.start = 0) ∧
    (p.stop.start.estimatedChunkMs = p.estimatedChunkMs ∧
     p.stop.start.totalCallbacks = p.totalCallbacks ∧
     p.stop.start.prebufferingCallbacks = p.prebufferingCallbacks ∧
     p.stop.start.underrunCount = p.underrunCount ∧
     p.stop.start.chunksAdded = p.chunksAdded ∧
     p.stop.start.chunksConsumed = p.chunksConsumed ∧
     p.stop.start.totalFramesWritten = p.totalFramesWritten) := by
  refine ⟨⟨rfl, rfl, rfl, rfl, rfl, rfl, ?_, ?_⟩, rfl, rfl, rfl, rfl, rfl, rfl, rfl⟩
  · simp [totalBufferMs, stop, start, clearQueue]
  · simp [totalBufferMs, start, createStream, initial]

/-- Witness of C12: the counted session keeps its estimate and its counts over `stop()` and
`start()`, and its buffered time is zero afterwards. -/
theorem stop_start_resets_witness :
    totalBufferMs countedSession.stop.start = 0 ∧
    countedSession.stop.start.audioQueue = [] ∧
    (countedSession.stop.start.estimatedChunkMs = countedSession.estimatedChunkMs ∧
     countedSession.stop.start.totalCallbacks = countedSession.totalCallbacks ∧
     countedSession.stop.start.prebufferingCallbacks = countedSession.prebufferingCallbacks ∧
     countedSession.stop.start.underrunCount = countedSession.underrunCount ∧
     countedSession.stop.start.chunksAdded = countedSession.chunksAdded ∧
     countedSession.stop.start.chunksConsumed = countedSession.chunksConsumed ∧
     countedSession.stop.start.totalFramesWritten = countedSession.totalFramesWritten) ∧
    countedSession.totalCallbacks = 1 :=
  ⟨(stop_start_resets countedSession 48000 2).1.2.2.2.2.2.2.1, by decide,
    (stop_start_resets countedSession 48000 2).2, by decide⟩

/-- C13, evaluated at the failing input: a successful `createStream` on the session of one
chunk after one render call resets the cursor, the estimate and the counters of its reset
block, and leaves the queued chunk, the callback count and the prebuffering callback count. -/
theorem createStream_keeps_queue :
    (countedSession.audioQueue.length, countedSession.totalCallbacks,
      countedSession.prebufferingCallbacks) = (1, 1, 1) ∧
    (countedSession.createStream 48000 2 true).2 = true ∧
    ((countedSession.createStream 48000 2 true).1.audioQueue.length,
      (countedSession.createStream 48000 2 true).1.totalCallbacks,
      (countedSession.createStream 48000 2 true).1.prebufferingCallbacks) = (1, 1, 1) ∧
    ((countedSession.createStream 48000 2 true).1.currentChunk,
      (countedSession.createStream 48000 2 true).1.currentFrameIndex,
      (countedSession.createStream 48000 2 true).1.estimatedChunkMs,
      (countedSession.createStream 48000 2 true).1.underrunCount,
      (countedSession.createStream 48000 2 true).1.chunksAdded,
      (countedSession.createStream 48000 2 true).1.chunksConsumed)
      = (⟨[], 0⟩, 0, 20, 0, 0, 0) ∧
    Reachable countedSession :=
  ⟨by decide, by decide, by decide, by decide, ⟨countedOps, by decide⟩⟩

/-- Counterexample to C14 as stated: the first submission accepted by a started session, 80
frames at 8 kHz, has `rawMs = 10` between 5 and 50, and the estimate stays 20 where the
update rule gives `(20 * 9 + 10) / 10 = 19`. -/
theorem estimate_update_counterexample :
    (monoSession.addAudioData tenMsBytes 160 0).map
        (fun r => (r.2, r.1.estimatedChunkMs)) = some (true, 20) ∧
    monoSession.estimatedChunkMs = 20 ∧
    (buildChunk tenMsBytes 160 monoSession.configuredChannelCount).frameCount * 1000
      / monoSession.configuredSampleRate = 10 ∧
    (monoSession.estimatedChunkMs * 9 + 10) / 10 = 19 := by
  set_option maxRecDepth 100000 in
  exact ⟨by decide, by decide, by decide, by decide⟩

/-- C14, amended. The estimate is 20 in the initial player and after every successful
`createStream`.  For every accepted submission, with `rawMs` the quotient of
`frameCount * 1000` (in 32 bits) by the sample rate: if at least one chunk was accepted before
(`chunksAdded > 0`) and `5 < rawMs < 50`, the new estimate is `(old * 9 + rawMs) / 10`;
otherwise, and so for the first accepted chunk of a session, the estimate is unchanged.  The
product is `frameCount * 1000` itself for fewer than `2^31 / 1000` frames. -/
theorem estimate_update (p p1 : OboeAudioPlayer) (bytes : List Int) (length now : Int)
    (h : p.addAudioData bytes length now = some (p1, true)) :
    (0 < p.chunksAdded →
      5 < Int.tdiv (wrap32 ((buildChunk bytes length p.configuredChannelCount).frameCount * 1000))
          p.configuredSampleRate →
      Int.tdiv (wrap32 ((buildChunk bytes length p.configuredChannelCount).frameCount * 1000))
          p.configuredSampleRate < 50 →
      p1.estimatedChunkMs = Int.tdiv (p.estimatedChunkMs * 9 +
        Int.tdiv (wrap32 ((buildChunk bytes length p.configuredChannelCount).frameCount * 1000))
          p.configuredSampleRate) 10) ∧
    (¬ (0 < p.chunksAdded ∧
        5 < Int.tdiv (wrap32 ((buildChunk bytes length p.configuredChannelCount).frameCount * 1000))
          p.configuredSampleRate ∧
        Int.tdiv (wrap32 ((buildChunk bytes length p.configuredChannelCount).frameCount * 1000))
          p.configuredSampleRate < 50) →
      p1.estimatedChunkMs = p.estimatedChunkMs) ∧
    (p.chunksAdded = 0 → p1.estimatedChunkMs = p.estimatedChunkMs) ∧
    (0 ≤ (buildChunk bytes length p.configuredChannelCount).frameCount →
      (buildChunk bytes length p.configuredChannelCount).frameCount * 1000 < 2147483648 →
      0 < p.configuredSampleRate →
      Int.tdiv (wrap32 ((buildChunk bytes length p.configuredChannelCount).frameCount * 1000))
          p.configuredSampleRate
        = (buildChunk bytes length p.configuredChannelCount).frameCount * 1000
          / p.configuredSampleRate) ∧
    initial.estimatedChunkMs = 20 ∧
    (∀ (q : OboeAudioPlayer) (sr cc : Int),
      (q.createStream sr cc true).1.estimatedChunkMs = 20 ∧
      (q.createStream sr cc true).1.chunksAdded = 0) := by
  obtain ⟨_, _, _, _, _, _, _, rfl⟩ := addAudioData_accepted p p1 bytes length now h
  rw [pushChunk_estimate]
  refine ⟨?_, ?_, ?_, ?_, rfl, fun q sr cc => ⟨rfl, rfl⟩⟩
  · intro h1 h2 h3
    simp only [updateEstimate, h1, h2, h3, and_self, if_true]
  · intro hn
    simp only [updateEstimate, hn, if_false]
  · intro h0
    have hn : ¬ (0 < p.chunksAdded) := by omega
    simp only [updateEstimate, hn, false_and, if_false]
  · intro h0 hlt hsr
    have hw : wrap32 ((buildChunk bytes length p.configuredChannelCount).frameCount * 1000)
        = (buildChunk bytes length p.configuredChannelCount).frameCount * 1000 := by
      unfold wrap32
      omega
    rw [hw, Int.tdiv_eq_ediv (by omega) (by omega)]

/-- Witness of C14: the second submission of 10 ms to a started session moves the estimate
from 20 to 19, the first one does not. -/
theorem estimate_update_witness :
    (monoSession.addAudioData tenMsBytes 160 0 = some (monoOnce, true) ∧
      monoOnce.addAudioData tenMsBytes 160 0 = some (monoTwice, true) ∧
      monoSession.chunksAdded = 0 ∧ 0 < monoOnce.chunksAdded ∧
      Int.tdiv (wrap32 ((buildChunk tenMsBytes 160 monoOnce.configuredChannelCount).frameCount
        * 1000)) monoOnce.configuredSampleRate = 10) ∧
    monoOnce.estimatedChunkMs = monoSession.estimatedChunkMs ∧
    monoTwice.estimatedChunkMs = Int.tdiv (monoOnce.estimatedChunkMs * 9 +
      Int.tdiv (wrap32 ((buildChunk tenMsBytes 160 monoOnce.configuredChannelCount).frameCount
        * 1000)) monoOnce.configuredSampleRate) 10 ∧
    (monoSession.estimatedChunkMs, monoOnce.estimatedChunkMs, monoTwice.estimatedChunkMs)
      = (20, 20, 19) := by
  set_option maxRecDepth 100000 in
  have h1 : monoSession.addAudioData tenMsBytes 160 0 = some (monoOnce, true) := by decide
  set_option maxRecDepth 100000 in
  have h2 : monoOnce.addAudioData tenMsBytes 160 0 = some (monoTwice, true) := by decide
  set_option maxRecDepth 100000 in
  have h3 : Int.tdiv (wrap32 ((buildChunk tenMsBytes 160
      monoOnce.configuredChannelCount).frameCount * 1000)) monoOnce.configuredSampleRate = 10 := by
    decide
  set_option maxRecDepth 100000 in
  exact ⟨⟨h1, h2, by decide, by decide, h3⟩,
    (estimate_update monoSession monoOnce tenMsBytes 160 0 h1).2.2.1 (by decide),
    (estimate_update monoOnce monoTwice tenMsBytes 160 0 h2).1 (by decide)
      (by rw [h3]; decide) (by rw [h3]; decide),
    by decide⟩

/-- C16. For every state, after `stop()` the player is not playing and is prebuffering, the
queue is empty, the cursor is empty (no samples, frame count 0, frame index 0) and the
reported buffered chunk count is 0; and after any further calls other than `start()` the
player is still not playing with an empty queue, so that every submission is rejected and
leaves the state as it is. -/
theorem stop_clears (p : OboeAudioPlayer) :
    p.stop.isPlaying = false ∧ p.stop.isPrebuffering = true ∧ p.stop.audioQueue = [] ∧
    p.stop.currentChunk = ⟨[], 0⟩ ∧ p.stop.currentFrameIndex = 0 ∧
    getBufferSize p.stop = 0 ∧
    ∀ (ops : List Op) (q : OboeAudioPlayer), Op.start ∉ ops → run p.stop ops = some q →
      q.isPlaying = false ∧ q.audioQueue = [] ∧
      ∀ (bytes : List Int) (length now : Int),
        q.addAudioData bytes length now = some (q, false) := by
  refine ⟨rfl, rfl, rfl, rfl, rfl, rfl, ?_⟩
  intro ops q hno hrun
  obtain ⟨hplay, hq⟩ := run_stopped ops p.stop q hno ⟨rfl, rfl⟩ hrun
  refine ⟨hplay, hq, fun bytes length now => ?_⟩
  simp only [addAudioData, hplay, or_true, if_true]

/-- Witness of C16: the session of one chunk is stopped, its volume is set and its stream is
created again. -/
theorem stop_clears_witness :
    (Op.start ∉ [Op.setVolume F32.half, Op.createStream 44100 2 true] ∧
      run oneChunkSession.stop [Op.setVolume F32.half, Op.createStream 44100 2 true]
        = some ((oneChunkSession.stop.setVolume F32.half).1.createStream 44100 2 true).1) ∧
    (((oneChunkSession.stop.setVolume F32.half).1.createStream 44100 2 true).1.isPlaying = false ∧
      ((oneChunkSession.stop.setVolume F32.half).1.createStream 44100 2 true).1.audioQueue = [] ∧
      ∀ (bytes : List Int) (length now : Int),
        ((oneChunkSession.stop.setVolume F32.half).1.createStream 44100 2 true).1.addAudioData
            bytes length now
          = some (((oneChunkSession.stop.setVolume F32.half).1.createStream 44100 2 true).1,
              false)) ∧
    oneChunkSession.audioQueue.length = 1 ∧ oneChunkSession.stop.audioQueue = [] :=
  have hno : Op.start ∉ [Op.setVolume F32.half, Op.createStream 44100 2 true] := by decide
  have hrun : run oneChunkSession.stop [Op.setVolume F32.half, Op.createStream 44100 2 true]
      = some ((oneChunkSession.stop.setVolume F32.half).1.createStream 44100 2 true).1 := by
    decide
  ⟨⟨hno, hrun⟩, (stop_clears oneChunkSession).2.2.2.2.2.2 _ _ hno hrun, by decide, by decide⟩

end OboeAudioPlayer

namespace OboeAudioPlayer

/-- C15, evaluated at the failing input: the stalled session is reachable (fifty frames
played, ten underruns, 1000 render calls without data), prebuffering, and counts 900 frames
written; its next render call of 100 frames leaves prebuffering through the stall timeout
and still counts 900 frames, more than the 100 requested.  The exit through the prebuffer
target, on the filled session, resets the count: 100 frames after a call of 100 frames. -/
theorem stall_exit_keeps_frames :
    Reachable stalledSession ∧
    (stalledSession.isPrebuffering, stalledSession.audioQueue.length,
      stalledSession.prebufferingCallbacks, stalledSession.totalFramesWritten)
      = (true, 0, 1000, 900) ∧
    (stalledSession.onAudioReady 2 100 0).map
        (fun r => (r.1.isPrebuffering, r.1.totalFramesWritten)) = some (false, 900) ∧
    ¬ ((900 : Int) ≤ 100) ∧
    (filledSession.onAudioReady 2 100 0).map
        (fun r => (r.1.isPrebuffering, r.1.totalFramesWritten)) = some (false, 100) := by
  set_option maxRecDepth 100000 in
  have hrun : run initial starvedOps = some starvedSession := by decide
  set_option maxRecDepth 100000 in
  have hs : starvedSession.stream = true ∧ starvedSession.isPrebuffering = true ∧
      starvedSession.audioQueue = [] ∧ starvedSession.prebufferingCallbacks = 0 := by decide
  have hidle := filling_idle_state 2 100 0 1000 starvedSession hs.1 hs.2.1 hs.2.2.1
    (by rw [hs.2.2.2]) (by rw [hs.2.2.2]; decide)
  have hreach : Reachable stalledSession :=
    ⟨starvedOps ++ List.replicate 1000 (Op.onAudioReady 2 100 0), by
      rw [run_append, hrun]
      exact hidle⟩
  set_option maxRecDepth 100000 in
  exact ⟨hreach, by decide, by decide, by decide, by decide⟩

/-- C20. The rule of the underrun policy for a buffer that is low but not empty never fires:
the render callback is equal, for every state and every request, to the render callback
with that rule removed.  The branch that applies the policy runs on an empty queue only,
where the rule is reached only with an underrun count that is not a multiple of 10 and so
not a multiple of 50; on a queue that is not empty the two policies do differ. -/
theorem low_buffer_rule_dead :
    (∀ (p : OboeAudioPlayer) (channelCount numFrames now : Int),
      p.onAudioReady channelCount numFrames now
        = p.onAudioReadyNoLow channelCount numFrames now) ∧
    (∀ (channelCount numFrames : Int) (st st1 : DrainState),
      drainStep channelCount numFrames st = some (st1, true) →
      st.player.audioQueue = [] ∧ st1.player = underrunPolicy st.player) ∧
    (∀ p : OboeAudioPlayer, p.audioQueue = [] →
      underrunPolicy p = underrunPolicyNoLow p ∧
      (Int.tmod (p.underrunCount + 1) 10 ≠ 0 → Int.tmod (p.underrunCount + 1) 50 ≠ 0)) ∧
    underrunPolicy lowBufferScenario ≠ underrunPolicyNoLow lowBufferScenario := by
  refine ⟨?_, ?_, ?_, by decide⟩
  · intro p cc n now
    simp only [onAudioReady, onAudioReadyNoLow, drain, drainNoLow, drainLoop_noLow]
  · intro cc n st st1 h
    obtain ⟨hq, _, hpol, _⟩ := (drainStep_player cc n st st1 true h).2 rfl
    exact ⟨hq, hpol⟩
  · intro p hq
    exact ⟨underrunPolicy_noLow p hq, fun h10 h50 => h10 (tmod_fifty _ h50)⟩

/-- Witness of C20: a request of 40 stereo frames on the two-chunk scenario, which plays 30
frames and takes the underrun branch, gives the same result with and without the rule; the
result is defined and leaves one underrun counted. -/
theorem low_buffer_rule_dead_witness :
    drainScenario.onAudioReady 2 40 0 = drainScenario.onAudioReadyNoLow 2 40 0 ∧
    (drainScenario.onAudioReadyNoLow 2 40 0).map
        (fun r => (r.1.underrunCount, r.1.audioQueue.length)) = some (1, 0) ∧
    initial.audioQueue = [] ∧ underrunPolicy initial = underrunPolicyNoLow initial :=
  ⟨low_buffer_rule_dead.1 drainScenario 2 40 0, by decide, rfl,
    (low_buffer_rule_dead.2.2.1 initial rfl).1⟩

end OboeAudioPlayer

namespace OboeAudioPlayer

/-- C18. The cursor invariant `0 ≤ currentFrameIndex ≤ currentChunk.frameCount`, on chunks
whose frame counts are not negative, holds in the initial player and is kept by every call
(render, submission, start, pause, stop, clearQueue, createStream, setVolume, the error
callback) as long as a submission builds a chunk whose frame count is not negative, which it
does when the configured channel count is at least 1; so it holds after every run whose
`createStream` calls ask for at least one channel. -/
theorem cursor_invariant :
    CursorInv initial ∧
    (∀ (p p1 : OboeAudioPlayer) (op : Op), CursorInv p →
      (∀ bytes length now, op = Op.addAudioData bytes length now → 0 ≤ length →
        0 ≤ (buildChunk bytes length p.configuredChannelCount).frameCount) →
      p.step op = some p1 → CursorInv p1) ∧
    (∀ (p p1 : OboeAudioPlayer) (channelCount numFrames now : Int) (out : Buffer),
      CursorInv p → p.onAudioReady channelCount numFrames now = some (p1, out) →
      CursorInv p1) ∧
    (∀ (bytes : List Int) (length channelCount : Int), 1 ≤ channelCount → 0 ≤ length →
      0 ≤ (buildChunk bytes length channelCount).frameCount) ∧
    (∀ (ops : List Op) (p : OboeAudioPlayer),
      (∀ sr c ok, Op.createStream sr c ok ∈ ops → 1 ≤ c) →
      run initial ops = some p → CursorInv p) := by
  refine ⟨by decide, ?_, ?_, ?_, ?_⟩
  · intro p p1 op hinv hop h
    exact step_cursor p op p1 hinv hop h
  · intro p p1 cc n now out hinv h
    exact onAudioReady_cursor p p1 cc n now out h hinv
  · intro bytes length cc hcc h0
    exact buildChunk_frames_nonneg bytes length cc hcc h0
  · intro ops p hall h
    exact (run_cursor ops initial p hall ⟨by decide, by decide⟩ h).1

/-- Witness of C18: the render call of 25 frames on the two-chunk scenario leaves the cursor
at frame 15 of the chunk of 20 frames, and the run of the counted session keeps the invariant. -/
theorem cursor_invariant_witness :
    CursorInv drainScenario ∧
    drainScenario.step (Op.onAudioReady 2 25 0) = some drainedScenario ∧
    CursorInv drainedScenario ∧
    (drainedScenario.currentFrameIndex, drainedScenario.currentChunk.frameCount) = (15, 20) ∧
    (∀ sr c ok, Op.createStream sr c ok ∈ countedOps → 1 ≤ c) ∧
    run initial countedOps = some countedSession ∧ CursorInv countedSession := by
  have h1 : CursorInv drainScenario := by decide
  have h2 : drainScenario.step (Op.onAudioReady 2 25 0) = some drainedScenario := by decide
  have h3 : ∀ sr c ok, Op.createStream sr c ok ∈ countedOps → 1 ≤ c := by
    intro sr c ok hmem
    simp only [countedOps, List.mem_cons, Op.createStream.injEq, List.mem_singleton,
      reduceCtorEq, or_false, List.not_mem_nil] at hmem
    omega
  have h4 : run initial countedOps = some countedSession := by decide
  exact ⟨h1, h2, cursor_invariant.2.1 drainScenario drainedScenario (Op.onAudioReady 2 25 0) h1
    (fun _ _ _ he => absurd he (by simp)) h2, by decide, h3, h4,
    cursor_invariant.2.2.2.2 countedOps countedSession h3 h4⟩

end OboeAudioPlayer

namespace OboeAudioPlayer

/-- C19. For every player state and every `numFrames`, with a channel count of at least 1, the
drain loop of a render call terminates: it makes a number of iterations `k` that is at most
`numFrames + audioQueue.size() + 1` (and at most `audioQueue.size() + 2`), and every budget of
at least `k` iterations gives its result.  Every iteration made from a state of the loop
either fills the rest and leaves the loop with `framesWritten = numFrames`, or copies at least
one frame, or keeps `framesWritten` and discards one chunk, which lowers the number of chunks
left in the queue and the cursor. -/
theorem drain_terminates (p : OboeAudioPlayer) (channelCount numFrames : Int)
    (hcc : 1 ≤ channelCount) :
    (∃ k : Nat, k ≤ numFrames.toNat + p.audioQueue.length + 1 ∧ k ≤ p.audioQueue.length + 2 ∧
      ∀ fuel : Nat, k ≤ fuel →
        drainIterations channelCount numFrames fuel ⟨p, 0, blank channelCount numFrames⟩
          = some k ∧
        ∃ r, drainLoop channelCount numFrames fuel ⟨p, 0, blank channelCount numFrames⟩
          = some r) ∧
    (∀ st : DrainState, DrainInv channelCount numFrames st → st.framesWritten < numFrames →
      ∃ st1 b, drainStep channelCount numFrames st = some (st1, b) ∧
        (b = true → st1.framesWritten = numFrames ∧ st.player.audioQueue = [] ∧
          st.player.currentChunk.frameCount ≤ st.player.currentFrameIndex) ∧
        (b = false →
          (st.framesWritten < st1.framesWritten ∧ st1.framesWritten ≤ numFrames) ∨
          (st1.framesWritten = st.framesWritten ∧ st1.out = st.out ∧
            chunksLeft st1.player < chunksLeft st.player))) := by
  refine ⟨?_, fun st hinv hfw => drainStep_progress channelCount numFrames st hcc hinv hfw⟩
  by_cases hn : 0 < numFrames
  · have hm : drainMeasure ⟨p, 0, blank channelCount numFrames⟩ ≤ p.audioQueue.length + 2 := by
      simp only [drainMeasure]; split <;> omega
    obtain ⟨k, hk, hle⟩ := drainIterations_total channelCount numFrames hcc _
      ⟨p, 0, blank channelCount numFrames⟩ (drainInv_blank p channelCount numFrames (by omega)) hm
    refine ⟨k, by omega, by omega, fun fuel hf => ?_⟩
    exact drainIterations_exact channelCount numFrames _ _ k hk fuel hf
  · refine ⟨0, by omega, by omega, fun fuel _ => ?_⟩
    have hc : ¬ (⟨p, 0, blank channelCount numFrames⟩ : DrainState).framesWritten < numFrames := by
      simp only; omega
    exact ⟨drainIterations_done channelCount numFrames fuel _ hc, _,
      drainLoop_done channelCount numFrames fuel _ hc⟩

/-- Witness of C19: on the malformed scenario a request of 3 stereo frames takes 3 iterations
(one discard, one copy, one fill), within the bound `3 + 2 + 1`. -/
theorem drain_terminates_witness :
    (1 : Int) ≤ 2 ∧
    (∃ k : Nat, k ≤ (3 : Int).toNat + malformedScenario.audioQueue.length + 1 ∧
      k ≤ malformedScenario.audioQueue.length + 2 ∧
      ∀ fuel : Nat, k ≤ fuel →
        drainIterations 2 3 fuel ⟨malformedScenario, 0, blank 2 3⟩ = some k ∧
        ∃ r, drainLoop 2 3 fuel ⟨malformedScenario, 0, blank 2 3⟩ = some r) ∧
    drainIterations 2 3 3 ⟨malformedScenario, 0, blank 2 3⟩ = some 3 ∧
    drainIterations 2 3 2 ⟨malformedScenario, 0, blank 2 3⟩ = none :=
  ⟨by decide, (drain_terminates malformedScenario 2 3 (by decide)).1, by decide, by decide⟩

/-- C17. For every render call with `numFrames ≥ 0` and `channelCount ≥ 1`, whatever the
chunks record as their frame count: the call has a result with every cell written, so no read
or write of the call falls outside its vector; every iteration of the drain loop has a result
and keeps the output at `numFrames * channelCount` cells; a chunk whose next copy range
exceeds its samples is discarded without a read or a write, the cursor set to its end; the
next iteration takes the next queued chunk; with the queue empty the rest of the output is
filled with zeros.  A copy, a fill, a read or a write that has a result has used indices
inside the vectors only. -/
theorem malformed_chunks_contained (p : OboeAudioPlayer) (channelCount numFrames now : Int)
    (hn : 0 ≤ numFrames) (hcc : 1 ≤ channelCount) :
    (∃ (p1 : OboeAudioPlayer) (samples : List Int),
      p.onAudioReady channelCount numFrames now = some (p1, samples.map some) ∧
      (samples.length : Int) = numFrames * channelCount) ∧
    (∀ st : DrainState, DrainInv channelCount numFrames st → st.framesWritten < numFrames →
      ∃ st1 b, drainStep channelCount numFrames st = some (st1, b) ∧
        DrainInv channelCount numFrames st1 ∧
        (st1.out.length : Int) = numFrames * channelCount ∧
        (b = true → ∃ w : List Int, (w.length : Int) = st.framesWritten * channelCount ∧
          st1.out = w.map some ++
            List.replicate ((numFrames - st.framesWritten) * channelCount).toNat (some 0))) ∧
    (∀ st : DrainState,
      (st.player.currentChunk.data.length : Int) <
        st.player.currentFrameIndex * channelCount +
          min (numFrames - st.framesWritten)
            (st.player.currentChunk.frameCount - st.player.currentFrameIndex) * channelCount →
      copyPart channelCount numFrames st = some { st with player :=
        { st.player with currentFrameIndex := st.player.currentChunk.frameCount } }) ∧
    (∀ (st : DrainState) (c : AudioChunk) (rest : List AudioChunk),
      st.player.currentChunk.frameCount ≤ st.player.currentFrameIndex →
      st.player.audioQueue = c :: rest →
      drainStep channelCount numFrames st =
        (copyPart channelCount numFrames
          { st with player := { st.player with
              currentChunk := c, audioQueue := rest, currentFrameIndex := 0,
              chunksConsumed := st.player.chunksConsumed + 1,
              bufferSize := (rest.length : Int) } }).map fun st1 => (st1, false)) ∧
    (∀ (f : Int → Int) (src : List Int) (k : Nat) (out : Buffer) (so d : Int) (out1 : Buffer),
      copyLoop f src k out so d = some out1 → 0 < k →
      0 ≤ so ∧ so + (k : Int) ≤ (src.length : Int) ∧ 0 ≤ d ∧ d + (k : Int) ≤ (out.length : Int)) ∧
    (∀ (k : Nat) (out : Buffer) (d v : Int) (out1 : Buffer),
      fill_n k out d v = some out1 → 0 < k → 0 ≤ d ∧ d + (k : Int) ≤ (out.length : Int)) ∧
    (∀ (data : List Int) (i v : Int), readAt data i = some v →
      0 ≤ i ∧ i < (data.length : Int)) ∧
    (∀ (out : Buffer) (i v : Int) (out1 : Buffer), writeAt out i v = some out1 →
      0 ≤ i ∧ i < (out.length : Int)) := by
  refine ⟨?_, ?_, ?_, ?_, ?_, ?_, ?_, ?_⟩
  · have hpos : 0 ≤ numFrames * channelCount := by nlinarith
    simp only [onAudioReady]
    split
    · split
      · refine ⟨prebufferTimeout (prologue p now),
          List.replicate (numFrames * channelCount).toNat 0, ?_, ?_⟩
        · simp only [fill_n_blank, List.map_replicate]
        · simp only [List.length_replicate]; omega
      · obtain ⟨st1, b, _, hd, ⟨samples, hl, ho⟩, _⟩ :=
          drain_summary (prebufferComplete (prebufferTimeout (prologue p now)) now)
            channelCount numFrames hn hcc
        exact ⟨_, samples, by rw [hd, ho], hl⟩
    · obtain ⟨st1, b, _, hd, ⟨samples, hl, ho⟩, _⟩ :=
        drain_summary (prologue p now) channelCount numFrames hn hcc
      exact ⟨_, samples, by rw [hd, ho], hl⟩
  · intro st hinv hfw
    obtain ⟨st1, b, hs, hinv1, _, hz⟩ := drainStep_total channelCount numFrames st hcc hinv hfw
    exact ⟨st1, b, hs, hinv1, drainInv_length channelCount numFrames st1 hcc hinv1, hz⟩
  · intro st hshort
    exact copyPart_discard channelCount numFrames st (fun h => by omega)
  · intro st c rest hex hq
    simp only [drainStep, hex, if_true, hq]
  · intro f src k out so d out1 h hk
    exact (copyLoop_range f src k out so d out1 h).2 hk
  · intro k out d v out1 h hk
    exact (fill_n_range v k out d out1 h).2 hk
  · intro data i v h
    exact readAt_range data i v h
  · intro out i v out1 h
    exact ⟨(writeAt_range out i v out1 h).1, (writeAt_range out i v out1 h).2.1⟩

/-- Witness of C17: the first queued chunk records five frames but holds two samples; a
request of three stereo frames discards it, plays the two frames of the next chunk and fills
the third frame with zeros. -/
theorem malformed_chunks_contained_witness :
    (0 : Int) ≤ 3 ∧ (1 : Int) ≤ 2 ∧
    (∃ (p1 : OboeAudioPlayer) (samples : List Int),
      malformedScenario.onAudioReady 2 3 0 = some (p1, samples.map some) ∧
      (samples.length : Int) = 3 * 2) ∧
    (malformedScenario.onAudioReady 2 3 0).map Prod.snd
      = some [some 10, some 11, some 12, some 13, some 0, some 0] ∧
    (malformedScenario.onAudioReady 2 3 0).map
        (fun r => (r.1.audioQueue.length, r.1.chunksConsumed, r.1.underrunCount))
      = some (0, 2, 1) :=
  ⟨by decide, by decide,
    (malformed_chunks_contained malformedScenario 2 3 0 (by decide) (by decide)).1,
    by decide, by decide⟩

end OboeAudioPlayer

namespace OboeAudioPlayer

/-- C21. In every reachable state `6 ≤ estimatedChunkMs ≤ 49`, so the buffered time
`audioQueue.size() * estimatedChunkMs` is at most 24500, and with a full queue of 500 chunks
it is at least the prebuffer target of 1000 ms: a render call that begins prebuffering with a
full queue leaves the prebuffering block through the target exit and goes on to the drain
loop, and it ends prebuffering again only if the same call played the whole queue and counted
an underrun.  An accepted submission either keeps the estimate or moves it to a value between
the old estimate and the chunk duration, which then lies between 6 and 49. -/
theorem estimate_bounded (p : OboeAudioPlayer) (h : Reachable p) :
    6 ≤ p.estimatedChunkMs ∧ p.estimatedChunkMs ≤ 49 ∧
    totalBufferMs p ≤ 24500 ∧
    (p.audioQueue.length = MAX_QUEUE_SIZE → TARGET_PREBUFFER_MS ≤ totalBufferMs p) ∧
    (p.audioQueue.length = MAX_QUEUE_SIZE → p.isPrebuffering = true →
      ∀ channelCount numFrames now : Int, 0 ≤ numFrames → 1 ≤ channelCount →
        p.onAudioReady channelCount numFrames now
          = drain (prebufferComplete (prebufferTimeout (prologue p now)) now)
              channelCount numFrames ∧
        (prebufferComplete (prebufferTimeout (prologue p now)) now).isPrebuffering = false ∧
        ∃ (p1 : OboeAudioPlayer) (out : Buffer),
          p.onAudioReady channelCount numFrames now = some (p1, out) ∧
          (p1.isPrebuffering = false ∨ p1.underrunCount = wrap32 (p.underrunCount + 1))) ∧
    (∀ (bytes : List Int) (length now : Int) (p1 : OboeAudioPlayer),
      p.addAudioData bytes length now = some (p1, true) →
      p1.estimatedChunkMs = p.estimatedChunkMs ∨
      (5 < chunkDurationMs p (buildChunk bytes length p.configuredChannelCount).frameCount ∧
        chunkDurationMs p (buildChunk bytes length p.configuredChannelCount).frameCount < 50 ∧
        min p.estimatedChunkMs
            (chunkDurationMs p (buildChunk bytes length p.configuredChannelCount).frameCount)
          ≤ p1.estimatedChunkMs ∧
        p1.estimatedChunkMs ≤ max p.estimatedChunkMs
            (chunkDurationMs p (buildChunk bytes length p.configuredChannelCount).frameCount))) := by
  obtain ⟨⟨h6, h49⟩, hlen⟩ := reachable_estimate p h
  have hlen500 : (p.audioQueue.length : Int) ≤ 500 := by
    simp only [MAX_QUEUE_SIZE] at hlen
    omega
  have htarget : p.audioQueue.length = MAX_QUEUE_SIZE → TARGET_PREBUFFER_MS ≤ totalBufferMs p := by
    intro hfull
    simp only [totalBufferMs, TARGET_PREBUFFER_MS, hfull, MAX_QUEUE_SIZE]
    push_cast
    omega
  refine ⟨h6, h49, ?_, htarget, ?_, ?_⟩
  · simp only [totalBufferMs]
    nlinarith
  · intro hfull hfill cc n now hn hcc
    have hcall := (onAudioReady_filling p cc n now hfill).2 (htarget hfull)
    have huc : (prebufferComplete (prebufferTimeout (prologue p now)) now).underrunCount
        = p.underrunCount := (filling_gate p now hfill).2.2.2.2.1
    obtain ⟨p1, out, hdrain, hout⟩ := drain_playing_outcome
      (prebufferComplete (prebufferTimeout (prologue p now)) now) cc n hn hcc rfl
    refine ⟨hcall, rfl, p1, out, by rw [hcall, hdrain], ?_⟩
    rcases hout with ⟨_, hplay⟩ | ⟨hcount, _⟩
    · exact Or.inl hplay
    · exact Or.inr (by rw [hcount, huc])
  · intro bytes length now p1 hacc
    obtain ⟨_, _, _, _, _, _, _, rfl⟩ := addAudioData_accepted p p1 bytes length now hacc
    rw [pushChunk_estimate, updateEstimate_eq]
    split
    · rename_i hc
      obtain ⟨h1, h2, _⟩ := smoothing_step p.estimatedChunkMs
        (chunkDurationMs p (buildChunk bytes length p.configuredChannelCount).frameCount)
        (by omega) (by omega)
      exact Or.inr ⟨hc.2.1, hc.2.2, h1, h2⟩
    · exact Or.inl rfl

/-- Witness of C21: the mono session after 500 submissions of 10 ms and no render call is
reachable and prebuffering with a full queue; its estimate is 10 and its buffered time 5000. -/
theorem estimate_bounded_witness :
    Reachable fullSession ∧
    (6 ≤ fullSession.estimatedChunkMs ∧ fullSession.estimatedChunkMs ≤ 49 ∧
      totalBufferMs fullSession ≤ 24500 ∧
      (fullSession.audioQueue.length = MAX_QUEUE_SIZE →
        TARGET_PREBUFFER_MS ≤ totalBufferMs fullSession)) ∧
    fullSession.isPrebuffering = true ∧ fullSession.audioQueue.length = MAX_QUEUE_SIZE ∧
    fullSession.estimatedChunkMs = 10 ∧
    ∃ (p1 : OboeAudioPlayer) (out : Buffer),
      fullSession.onAudioReady 1 80 0 = some (p1, out) ∧
      (p1.isPrebuffering = false ∨
        p1.underrunCount = wrap32 (fullSession.underrunCount + 1)) :=
  ⟨fullSession_facts.1,
    ⟨(estimate_bounded fullSession fullSession_facts.1).1,
      (estimate_bounded fullSession fullSession_facts.1).2.1,
      (estimate_bounded fullSession fullSession_facts.1).2.2.1,
      (estimate_bounded fullSession fullSession_facts.1).2.2.2.1⟩,
    fullSession_facts.2.1, fullSession_facts.2.2.1, fullSession_facts.2.2.2,
    ((estimate_bounded fullSession fullSession_facts.1).2.2.2.2.1 fullSession_facts.2.2.1
      fullSession_facts.2.1 1 80 0 (by decide) (by decide)).2.2⟩

/-- C22. Where the smoothing step of `addAudioData` applies (a chunk accepted before, a chunk
duration `r` with `5 < r < 50`) and the estimate `e` is not negative, the new estimate is
`(e * 9 + r) / 10`, and it equals `e` exactly when `e ≤ r ≤ e + 9`.  So the estimate stalls
below a larger chunk duration: from the reachable session with estimate 10, any number `k` of
accepted submissions of 20 ms leaves the estimate at most 11 (11 for `k ≥ 1`); and it comes
down to a smaller one: from the session with estimate 20, `k` accepted submissions of 10 ms
give `max(10, 20 - k)`, which is exactly 10 from the tenth on. -/
theorem smoothing_stalls :
    (∀ (p : OboeAudioPlayer) (f : Int), 0 ≤ p.estimatedChunkMs → 0 < p.chunksAdded →
      5 < chunkDurationMs p f → chunkDurationMs p f < 50 →
      (updateEstimate p f).estimatedChunkMs
        = Int.tdiv (p.estimatedChunkMs * 9 + chunkDurationMs p f) 10 ∧
      ((updateEstimate p f).estimatedChunkMs = p.estimatedChunkMs ↔
        (p.estimatedChunkMs ≤ chunkDurationMs p f ∧
          chunkDurationMs p f ≤ p.estimatedChunkMs + 9))) ∧
    (Reachable tenSession ∧ tenSession.estimatedChunkMs = 10 ∧
      chunkDurationMs tenSession
        (buildChunk twentyMsBytes 320 tenSession.configuredChannelCount).frameCount = 20) ∧
    (∀ k : Nat, ∃ p1 : OboeAudioPlayer,
      run tenSession (List.replicate k (Op.addAudioData twentyMsBytes 320 0)) = some p1 ∧
      p1.chunksAdded = tenSession.chunksAdded + (k : Int) ∧
      p1.estimatedChunkMs ≤ 11 ∧ (1 ≤ k → p1.estimatedChunkMs = 11)) ∧
    (Reachable monoOnce ∧ monoOnce.estimatedChunkMs = 20 ∧
      chunkDurationMs monoOnce
        (buildChunk tenMsBytes 160 monoOnce.configuredChannelCount).frameCount = 10) ∧
    (∀ k : Nat, ∃ p1 : OboeAudioPlayer,
      run monoOnce (List.replicate k (Op.addAudioData tenMsBytes 160 0)) = some p1 ∧
      p1.chunksAdded = monoOnce.chunksAdded + (k : Int) ∧
      p1.estimatedChunkMs = max 10 (20 - (k : Int))) := by
  obtain ⟨hreach10, hacc10, hc10, hest10, hq10⟩ := tenSession_facts
  obtain ⟨hrun1, hacc1, hc1, _, hest1, _⟩ := monoOnce_facts
  refine ⟨?_, ⟨hreach10, hest10, ?_⟩, ?_, ⟨⟨_, hrun1⟩, hest1, ?_⟩, ?_⟩
  · intro p f he hc h5 h50
    rw [updateEstimate_eq, if_pos ⟨hc, h5, h50⟩]
    exact ⟨rfl, (smoothing_step p.estimatedChunkMs (chunkDurationMs p f) he (by omega)).2.2⟩
  · simp only [chunkDurationMs, hacc10.2.2.1, hacc10.2.2.2]
    decide
  · intro k
    obtain ⟨p1, hrun, _, hck, _, hestk, _⟩ :=
      observe_run twentyMsBytes 320 0 8000 1 20 (by decide) (by decide) (by decide)
        (by simp only [twentyMsBytes, List.length_replicate]; decide) (by decide) (by decide) (by decide) (by decide) k tenSession
        hacc10 (by rw [hc10]; decide) (by rw [hq10]; decide)
    rw [hest10] at hestk
    obtain ⟨hle, heq⟩ := iterate_stall k 10 (Or.inl rfl)
    exact ⟨p1, hrun, hck, by rw [hestk]; exact hle, fun hk => by rw [hestk]; exact heq hk⟩
  · simp only [chunkDurationMs, hacc1.2.2.1, hacc1.2.2.2]
    decide
  · intro k
    obtain ⟨p1, hrun, _, hck, _, hestk, _⟩ := monoOnce_tenMs k
    exact ⟨p1, hrun, by rw [hck, hc1], hestk⟩

/-- Witness of C22: on the mono session with estimate 20 a chunk of 10 ms moves the estimate
to 19, and 10 is not between 20 and 29; three submissions of 20 ms to the session with
estimate 10 leave it at 11. -/
theorem smoothing_stalls_witness :
    (0 ≤ monoOnce.estimatedChunkMs ∧ 0 < monoOnce.chunksAdded ∧
      5 < chunkDurationMs monoOnce 80 ∧ chunkDurationMs monoOnce 80 < 50) ∧
    ((updateEstimate monoOnce 80).estimatedChunkMs
        = Int.tdiv (monoOnce.estimatedChunkMs * 9 + chunkDurationMs monoOnce 80) 10 ∧
      ((updateEstimate monoOnce 80).estimatedChunkMs = monoOnce.estimatedChunkMs ↔
        (monoOnce.estimatedChunkMs ≤ chunkDurationMs monoOnce 80 ∧
          chunkDurationMs monoOnce 80 ≤ monoOnce.estimatedChunkMs + 9))) ∧
    (monoOnce.estimatedChunkMs, chunkDurationMs monoOnce 80,
      (updateEstimate monoOnce 80).estimatedChunkMs) = (20, 10, 19) ∧
    ∃ p1 : OboeAudioPlayer,
      run tenSession (List.replicate 3 (Op.addAudioData twentyMsBytes 320 0)) = some p1 ∧
      p1.chunksAdded = tenSession.chunksAdded + ((3 : Nat) : Int) ∧
      p1.estimatedChunkMs ≤ 11 ∧ (1 ≤ 3 → p1.estimatedChunkMs = 11) := by
  set_option maxRecDepth 100000 in
  have h : 0 ≤ monoOnce.estimatedChunkMs ∧ 0 < monoOnce.chunksAdded ∧
      5 < chunkDurationMs monoOnce 80 ∧ chunkDurationMs monoOnce 80 < 50 := by decide
  set_option maxRecDepth 100000 in
  exact ⟨h, smoothing_stalls.1 monoOnce 80 h.1 h.2.1 h.2.2.1 h.2.2.2, by decide,
    smoothing_stalls.2.2.1 3⟩

/-- C23. The reported buffered chunk count is exact: `getBufferSize()` is the number of queued
chunks in the initial player, every call (accepted or rejected submission, render, clearQueue,
stop, start, pause, createStream, setVolume, the error callback) keeps it exact, so it is exact
in every reachable state; after `clearQueue()`, `stop()` and an accepted submission it is exact
whatever it was before.  The two getters are functions of the state that return the stored
members. -/
theorem bufferSize_exact :
    getBufferSize initial = (initial.audioQueue.length : Int) ∧
    (∀ (p p1 : OboeAudioPlayer) (op : Op),
      getBufferSize p = (p.audioQueue.length : Int) → p.step op = some p1 →
      getBufferSize p1 = (p1.audioQueue.length : Int)) ∧
    (∀ p : OboeAudioPlayer, Reachable p → getBufferSize p = (p.audioQueue.length : Int)) ∧
    (∀ (p p1 : OboeAudioPlayer) (channelCount numFrames now : Int) (out : Buffer),
      getBufferSize p = (p.audioQueue.length : Int) →
      p.onAudioReady channelCount numFrames now = some (p1, out) →
      getBufferSize p1 = (p1.audioQueue.length : Int)) ∧
    (∀ (p p1 : OboeAudioPlayer) (bytes : List Int) (length now : Int) (b : Bool),
      p.addAudioData bytes length now = some (p1, b) →
      (b = true → getBufferSize p1 = (p1.audioQueue.length : Int)) ∧
      (b = false → p1 = p)) ∧
    (∀ p : OboeAudioPlayer,
      getBufferSize p.clearQueue = (p.clearQueue.audioQueue.length : Int) ∧
      getBufferSize p.stop = (p.stop.audioQueue.length : Int)) ∧
    (∀ p : OboeAudioPlayer,
      getBufferSize p = p.bufferSize ∧ getUnderrunCount p = p.underrunCount) := by
  refine ⟨rfl, ?_, ?_, ?_, ?_, ?_, fun p => ⟨rfl, rfl⟩⟩
  · intro p p1 op hinv h
    exact step_bufferExact p op p1 hinv h
  · intro p ⟨ops, hrun⟩
    exact run_preserves BufferExact step_bufferExact ops initial p rfl hrun
  · intro p p1 cc n now out hinv h
    exact onAudioReady_bufferExact p p1 cc n now out h hinv
  · intro p p1 bytes length now b h
    refine ⟨(addAudioData_bufferExact p p1 bytes length now b h).1, fun hb => ?_⟩
    subst hb
    exact addAudioData_rejected p p1 bytes length now h
  · intro p
    exact ⟨by simp [getBufferSize, clearQueue], by simp [getBufferSize, stop, clearQueue]⟩

/-- Witness of C23: the render call of 25 frames on the two-chunk scenario with an exact
count pops both chunks and reports 0; the filled session reports its 50 chunks. -/
theorem bufferSize_exact_witness :
    getBufferSize { drainScenario with bufferSize := 2 }
      = (({ drainScenario with bufferSize := 2 } : OboeAudioPlayer).audioQueue.length : Int) ∧
    (∃ p1, step { drainScenario with bufferSize := 2 } (Op.onAudioReady 2 25 0) = some p1 ∧
      getBufferSize p1 = (p1.audioQueue.length : Int) ∧ getBufferSize p1 = 0) ∧
    Reachable filledSession ∧
    getBufferSize filledSession = (filledSession.audioQueue.length : Int) ∧
    getBufferSize filledSession = 50 := by
  have h1 : getBufferSize { drainScenario with bufferSize := 2 }
      = (({ drainScenario with bufferSize := 2 } : OboeAudioPlayer).audioQueue.length : Int) := by
    decide
  have h2 : step { drainScenario with bufferSize := 2 } (Op.onAudioReady 2 25 0)
      = some (((onAudioReady { drainScenario with bufferSize := 2 } 2 25 0).map
          Prod.fst).getD initial) := by decide
  set_option maxRecDepth 100000 in
  have h3 : Reachable filledSession := ⟨filledOps, by decide⟩
  set_option maxRecDepth 100000 in
  exact ⟨h1, ⟨_, h2, bufferSize_exact.2.1 _ _ _ h1 h2, by decide⟩, h3,
    bufferSize_exact.2.2.1 filledSession h3, by decide⟩

end OboeAudioPlayer
